import Mathlib

/-!
Verification of the circular_buffer library against its specification.

The definitions below are a shallow embedding of
`include/boost/circular_buffer/base.hpp`,
`include/boost/circular_buffer/details.hpp` and
`include/boost/circular_buffer/space_optimized.hpp`.

A buffer's storage block (`m_buff .. m_end`) is modelled as a list of
`Option` values: `some v` is a live (constructed) slot holding `v`,
`none` is a raw (uninitialized) slot.  Pointers into the block are
modelled as offsets (`Nat` indices); the null pointer used by the
iterator machinery for the one-past-the-end marker becomes `Option Nat`
with `none` for null.  Mutating member functions additionally return a
trace of the slot-lifetime events they performed (construct / assign /
destroy), mirroring `m_alloc.construct`, `replace` (`*pos = item`) and
`m_alloc.destroy` in the source.
-/

namespace CircBuf

/-- A slot-lifetime event: placement-construction into a raw slot
(`m_alloc.construct`), assignment over a live slot (`replace`, that is
`*pos = item`), or destruction (`m_alloc.destroy`). -/
inductive SlotOp (α : Type) where
  | construct : Nat → Option α → SlotOp α
  | assign : Nat → Option α → SlotOp α
  | destroy : Nat → SlotOp α
deriving DecidableEq

/-- The state of a `circular_buffer`: the storage block with its slots
(`buff`, whose length is the capacity `m_end - m_buff`), the offsets of
`m_first` and `m_last`, and `m_size`. -/
structure circular_buffer (α : Type) where
  buff : List (Option α)
  m_first : Nat
  m_last : Nat
  m_size : Nat
deriving DecidableEq

variable {α : Type}

/-- `capacity()`, i.e. `m_end - m_buff`. -/
def capacity (cb : circular_buffer α) : Nat := cb.buff.length

/-- `size()`. -/
def size (cb : circular_buffer α) : Nat := cb.m_size

/-- `empty()`. -/
def empty (cb : circular_buffer α) : Prop := cb.m_size = 0

/-- `full()`. -/
def full (cb : circular_buffer α) : Prop := cb.m_size = capacity cb

/-- `increment(p)`: `if (++p == m_end) p = m_buff;`. -/
def increment (cap p : Nat) : Nat := if p + 1 = cap then 0 else p + 1

/-- `decrement(p)`: `if (p == m_buff) p = m_end; --p;`. -/
def decrement (cap p : Nat) : Nat := if p = 0 then cap - 1 else p - 1

/-- `add(p, n)`: `p + (n < (m_end - p) ? n : n - capacity())`. -/
def add (cap p n : Nat) : Nat := if n < cap - p then p + n else p + n - cap

/-- `sub(p, n)`: `p - (n > (p - m_buff) ? n - capacity() : n)`. -/
def sub (cap p n : Nat) : Nat := if p < n then p + cap - n else p - n

/-- `replace(pos, item)`: `*pos = item;` (assignment into a live slot). -/
def replace (cb : circular_buffer α) (pos : Nat) (v : Option α) : circular_buffer α :=
  { cb with buff := cb.buff.set pos v }

/-- `m_alloc.construct(pos, item)` (placement construction into a raw slot). -/
def construct (cb : circular_buffer α) (pos : Nat) (v : Option α) : circular_buffer α :=
  { cb with buff := cb.buff.set pos v }

/-- `destroy_item(p)`: `m_alloc.destroy(p)`; the slot becomes raw again. -/
def destroy_item (cb : circular_buffer α) (pos : Nat) : circular_buffer α :=
  { cb with buff := cb.buff.set pos none }

/-- `is_uninitialized(p)`: `p >= m_last && (m_first < m_last || p < m_first)`. -/
def is_uninitialized (cb : circular_buffer α) (p : Nat) : Prop :=
  cb.m_last ≤ p ∧ (cb.m_first < cb.m_last ∨ p < cb.m_first)

instance (cb : circular_buffer α) (p : Nat) : Decidable (is_uninitialized cb p) := by
  unfold is_uninitialized; infer_instance

/-- The content of the physical slot `j` of the storage block. -/
def nthPhys (cb : circular_buffer α) (j : Nat) : Option α := cb.buff.getD j none

/-- `operator[](index)`: `*add(m_first, index)`. -/
def getAt (cb : circular_buffer α) (i : Nat) : Option α :=
  nthPhys cb (add (capacity cb) cb.m_first i)

/-- The logical contents of the buffer, front to back, as read through
`operator[]`. -/
def toList (cb : circular_buffer α) : List (Option α) :=
  (List.range cb.m_size).map (getAt cb)

/-- Well-formedness of a buffer state: the invariants documented for the
class (`size <= capacity`, `m_first`/`m_last` in range with
`m_last == (m_first + m_size) mod capacity`, and a slot is live exactly
when it lies in the run of `m_size` slots starting at `m_first`). -/
def wf (cb : circular_buffer α) : Prop :=
  cb.m_size ≤ capacity cb ∧
  (capacity cb = 0 → cb.m_first = 0 ∧ cb.m_last = 0) ∧
  (0 < capacity cb → cb.m_first < capacity cb) ∧
  (0 < capacity cb → cb.m_last = (cb.m_first + cb.m_size) % capacity cb) ∧
  (∀ j < capacity cb, (nthPhys cb j).isSome = true ↔
    ∃ i < cb.m_size, j = (cb.m_first + i) % capacity cb)

instance (cb : circular_buffer α) : Decidable (wf cb) := by
  unfold wf
  infer_instance

instance (cb : circular_buffer α) : Decidable (full cb) := by
  unfold full
  infer_instance

instance (cb : circular_buffer α) : Decidable (empty cb) := by
  unfold empty
  infer_instance

/-- `push_back(item)`. -/
def push_back (cb : circular_buffer α) (item : α) :
    circular_buffer α × List (SlotOp α) :=
  if cb.m_size = capacity cb then
    if cb.m_size = 0 then (cb, [])
    else
      ({ replace cb cb.m_last (some item) with
           m_last := increment (capacity cb) cb.m_last,
           m_first := increment (capacity cb) cb.m_last },
       [SlotOp.assign cb.m_last (some item)])
  else
    ({ construct cb cb.m_last (some item) with
         m_last := increment (capacity cb) cb.m_last,
         m_size := cb.m_size + 1 },
     [SlotOp.construct cb.m_last (some item)])

/-- `push_front(item)` (the non-throwing path of the source's try block). -/
def push_front (cb : circular_buffer α) (item : α) :
    circular_buffer α × List (SlotOp α) :=
  if cb.m_size = capacity cb then
    if cb.m_size = 0 then (cb, [])
    else
      ({ replace cb (decrement (capacity cb) cb.m_first) (some item) with
           m_first := decrement (capacity cb) cb.m_first,
           m_last := decrement (capacity cb) cb.m_first },
       [SlotOp.assign (decrement (capacity cb) cb.m_first) (some item)])
  else
    ({ construct cb (decrement (capacity cb) cb.m_first) (some item) with
         m_first := decrement (capacity cb) cb.m_first,
         m_size := cb.m_size + 1 },
     [SlotOp.construct (decrement (capacity cb) cb.m_first) (some item)])

/-- `pop_back()` (precondition `!empty()`). -/
def pop_back (cb : circular_buffer α) : circular_buffer α × List (SlotOp α) :=
  ({ destroy_item cb (decrement (capacity cb) cb.m_last) with
       m_last := decrement (capacity cb) cb.m_last,
       m_size := cb.m_size - 1 },
   [SlotOp.destroy (decrement (capacity cb) cb.m_last)])

/-- `pop_front()` (precondition `!empty()`). -/
def pop_front (cb : circular_buffer α) : circular_buffer α × List (SlotOp α) :=
  ({ destroy_item cb cb.m_first with
       m_first := increment (capacity cb) cb.m_first,
       m_size := cb.m_size - 1 },
   [SlotOp.destroy cb.m_first])

/-- `operator==`: `lhs.size() == rhs.size() &&
std::equal(lhs.begin(), lhs.end(), rhs.begin())`. -/
def cbEqual [DecidableEq α] (lhs rhs : circular_buffer α) : Bool :=
  lhs.m_size == rhs.m_size &&
    (List.range lhs.m_size).all (fun i => getAt lhs i == getAt rhs i)

/-- `operator!=`: `!(lhs == rhs)`. -/
def cbNotEqual [DecidableEq α] (lhs rhs : circular_buffer α) : Bool :=
  !(cbEqual lhs rhs)

/-- `erase(pos)` for a dereferenceable iterator at logical index
`pos < size`.  The source loop (`for (pointer p = pos.m_it; next != m_last;
p = next, increment(next)) replace(p, *next);`) walks from `pos` toward the
back, so it runs `size - pos - 1` times; then `m_last` retreats and the
freed back slot is destroyed. -/
def eraseStep (cb0 : circular_buffer α) (pos : Nat)
    (acc : circular_buffer α × List (SlotOp α)) (i : Nat) :
    circular_buffer α × List (SlotOp α) :=
  let p := add (capacity cb0) cb0.m_first (pos + i)
  let v := nthPhys acc.1 (add (capacity cb0) cb0.m_first (pos + i + 1))
  (replace acc.1 p v, acc.2 ++ [SlotOp.assign p v])

def erase (cb : circular_buffer α) (pos : Nat) :
    circular_buffer α × List (SlotOp α) :=
  let shifted := (List.range (cb.m_size - (pos + 1))).foldl (eraseStep cb pos) (cb, [])
  ({ destroy_item shifted.1 (decrement (capacity cb) cb.m_last) with
       m_last := decrement (capacity cb) cb.m_last,
       m_size := cb.m_size - 1 },
   shifted.2 ++ [SlotOp.destroy (decrement (capacity cb) cb.m_last)])

/-- `rerase(pos)` for a dereferenceable iterator at logical index
`pos < size`.  The source loop (`for (decrement(prev); p != m_first;
p = prev, decrement(prev)) replace(p, *prev);`) walks from `pos` toward the
front, so it runs `pos` times; then the front slot is destroyed and
`m_first` advances. -/
def reraseStep (cb0 : circular_buffer α) (pos : Nat)
    (acc : circular_buffer α × List (SlotOp α)) (j : Nat) :
    circular_buffer α × List (SlotOp α) :=
  let p := add (capacity cb0) cb0.m_first (pos - j)
  let v := nthPhys acc.1 (add (capacity cb0) cb0.m_first (pos - j - 1))
  (replace acc.1 p v, acc.2 ++ [SlotOp.assign p v])

def rerase (cb : circular_buffer α) (pos : Nat) :
    circular_buffer α × List (SlotOp α) :=
  let shifted := (List.range pos).foldl (reraseStep cb pos) (cb, [])
  ({ destroy_item shifted.1 cb.m_first with
       m_first := increment (capacity cb) cb.m_first,
       m_size := cb.m_size - 1 },
   shifted.2 ++ [SlotOp.destroy cb.m_first])

/-- Allocation events of the storage-block allocator (`allocate` /
`deallocate`), each carrying the block's element count. -/
inductive AllocEvent where
  | alloc : Nat → AllocEvent
  | dealloc : Nat → AllocEvent
deriving DecidableEq

/-- `set_capacity(new_capacity)` (the non-throwing path):
`reset(buff, uninitialized_copy(end() - min(new_capacity, size()), end(),
buff), new_capacity)` — the last `min(new_capacity, size())` elements are
copied in order into the fresh block and the cursors are reset. -/
def set_capacity (cb : circular_buffer α) (new_capacity : Nat) : circular_buffer α :=
  if new_capacity = capacity cb then cb
  else
    { buff := (List.range (min new_capacity cb.m_size)).map
          (fun i => getAt cb (cb.m_size - min new_capacity cb.m_size + i)) ++
        List.replicate (new_capacity - min new_capacity cb.m_size) none,
      m_first := 0,
      m_last := if min new_capacity cb.m_size = new_capacity then 0
                else min new_capacity cb.m_size,
      m_size := min new_capacity cb.m_size }

/-- `rset_capacity(new_capacity)` (the non-throwing path):
`reset(buff, uninitialized_copy(begin(), begin() + min(new_capacity, size()),
buff), new_capacity)` — the first `min(new_capacity, size())` elements are
kept. -/
def rset_capacity (cb : circular_buffer α) (new_capacity : Nat) : circular_buffer α :=
  if new_capacity = capacity cb then cb
  else
    { buff := (List.range (min new_capacity cb.m_size)).map (fun i => getAt cb i) ++
        List.replicate (new_capacity - min new_capacity cb.m_size) none,
      m_first := 0,
      m_last := if min new_capacity cb.m_size = new_capacity then 0
                else min new_capacity cb.m_size,
      m_size := min new_capacity cb.m_size }

/-- `set_capacity(new_capacity)` with failure oracles: `allocFail` makes
`allocate(new_capacity)` throw (before the try block), and `throwAt = some k`
makes the `k`-th element copy inside `uninitialized_copy` throw (the copy
helper destroys the partially constructed elements, the catch block
deallocates the new block and rethrows).  The result is the buffer state
observable after the call, whether an exception propagated, and the
allocator events for whole blocks. -/
def set_capacityE (cb : circular_buffer α) (new_capacity : Nat)
    (allocFail : Bool) (throwAt : Option Nat) :
    circular_buffer α × Bool × List AllocEvent :=
  if new_capacity = capacity cb then (cb, false, [])
  else if allocFail then (cb, true, [])
  else
    match throwAt with
    | some k =>
      if k < min new_capacity cb.m_size then
        (cb, true, [AllocEvent.alloc new_capacity, AllocEvent.dealloc new_capacity])
      else
        (set_capacity cb new_capacity, false,
         [AllocEvent.alloc new_capacity, AllocEvent.dealloc (capacity cb)])
    | none =>
      (set_capacity cb new_capacity, false,
       [AllocEvent.alloc new_capacity, AllocEvent.dealloc (capacity cb)])

/-- `rset_capacity(new_capacity)` with the same failure oracles. -/
def rset_capacityE (cb : circular_buffer α) (new_capacity : Nat)
    (allocFail : Bool) (throwAt : Option Nat) :
    circular_buffer α × Bool × List AllocEvent :=
  if new_capacity = capacity cb then (cb, false, [])
  else if allocFail then (cb, true, [])
  else
    match throwAt with
    | some k =>
      if k < min new_capacity cb.m_size then
        (cb, true, [AllocEvent.alloc new_capacity, AllocEvent.dealloc new_capacity])
      else
        (rset_capacity cb new_capacity, false,
         [AllocEvent.alloc new_capacity, AllocEvent.dealloc (capacity cb)])
    | none =>
      (rset_capacity cb new_capacity, false,
       [AllocEvent.alloc new_capacity, AllocEvent.dealloc (capacity cb)])

/-- The helper pointer of `details.hpp`: the flag `m_end` marks the
one-past-end iterator (whose internal pointer is null in the source) and
`m_it` is the slot offset, with the null pointer mapped to `m_last`. -/
structure cb_helper_pointer where
  m_end : Bool
  m_it : Nat
deriving DecidableEq

/-- `create_helper_pointer(it)`: `helper.m_end = (it.m_it == 0);
helper.m_it = helper.m_end ? m_buff->m_last : it.m_it;`.  An iterator's
internal pointer is `Option Nat` with `none` for the null end marker. -/
def create_helper_pointer (cb : circular_buffer α) (it : Option Nat) :
    cb_helper_pointer :=
  { m_end := it.isNone, m_it := it.getD cb.m_last }

/-- `less(lhs, rhs)` of `cb_iterator`: a nested three-way comparison of
both slot offsets against `m_first`, using the `m_end` flags to break the
ties at `m_first`. -/
def less (cb : circular_buffer α) (lhs rhs : cb_helper_pointer) : Bool :=
  if lhs.m_it < cb.m_first then
    (if rhs.m_it < cb.m_first then decide (lhs.m_it < rhs.m_it)
     else if rhs.m_it = cb.m_first then rhs.m_end
     else false)
  else if lhs.m_it = cb.m_first then
    (if rhs.m_it < cb.m_first then !lhs.m_end
     else if rhs.m_it = cb.m_first then !lhs.m_end && rhs.m_end
     else !lhs.m_end)
  else
    (if rhs.m_it < cb.m_first then true
     else if rhs.m_it = cb.m_first then rhs.m_end
     else decide (lhs.m_it < rhs.m_it))

/-- `cb_iterator::operator-(it)`: the difference of two iterators of the
same buffer, via the helper pointers. -/
def iterSub (cb : circular_buffer α) (lhsIt rhsIt : Option Nat) : Int :=
  let lhs := create_helper_pointer cb lhsIt
  let rhs := create_helper_pointer cb rhsIt
  if less cb rhs lhs ∧ lhs.m_it ≤ rhs.m_it then
    (lhs.m_it : Int) + capacity cb - rhs.m_it
  else if less cb lhs rhs ∧ rhs.m_it ≤ lhs.m_it then
    (lhs.m_it : Int) - capacity cb - rhs.m_it
  else (lhs.m_it : Int) - rhs.m_it

/-- The internal pointer of `begin() + j`: `begin()` is
`iterator(this, empty() ? 0 : m_first)`, and `operator+=` computes
`add(m_it, n)` and replaces the result by the null end marker when it
reaches `m_last`. -/
def iterAt (cb : circular_buffer α) (j : Nat) : Option Nat :=
  if cb.m_size = 0 then none
  else if j = 0 then some cb.m_first
  else if add (capacity cb) cb.m_first j = cb.m_last then none
  else some (add (capacity cb) cb.m_first j)

/-- One step of the shifting loop of `insert_n` (`while (src != pos.m_it)`):
iteration `j` decrements `src` (starting from `m_last`) and `dest` (starting
from `add(m_last, n - 1)`), then copies `*src` to `dest` through
`construct_or_replace(is_uninitialized(dest), dest, *src)`;
`is_uninitialized` consults the cursors of `cb0`, which are updated only
after the loops, as in the source. -/
def insertShiftStep (cb0 : circular_buffer α) (n : Nat)
    (acc : circular_buffer α × List (SlotOp α)) (j : Nat) :
    circular_buffer α × List (SlotOp α) :=
  let src := sub (capacity cb0) cb0.m_last (j + 1)
  let dest := sub (capacity cb0) (add (capacity cb0) cb0.m_last n) (j + 1)
  let v := nthPhys acc.1 src
  if is_uninitialized cb0 dest then
    (construct acc.1 dest v, acc.2 ++ [SlotOp.construct dest v])
  else
    (replace acc.1 dest v, acc.2 ++ [SlotOp.assign dest v])

/-- One step of the item-writing loop of `insert_n`
(`for (; ii < n; ++ii, increment(p)) construct_or_replace(is_uninitialized(p),
p, *wrapper());`): `p` starts at `pos.m_it` and is incremented each turn. -/
def insertWriteStep (cb0 : circular_buffer α) (pos : Nat) (item : α)
    (acc : circular_buffer α × List (SlotOp α)) (i : Nat) :
    circular_buffer α × List (SlotOp α) :=
  let p := add (capacity cb0) (add (capacity cb0) cb0.m_first pos) i
  if is_uninitialized cb0 p then
    (construct acc.1 p (some item), acc.2 ++ [SlotOp.construct p (some item)])
  else
    (replace acc.1 p (some item), acc.2 ++ [SlotOp.assign p (some item)])

/-- One step of the end-insertion loop of `insert_n` for `pos == end()`
(`p = m_last`; the first `construct` iterations placement-construct, the
remaining ones assign). -/
def insertEndStep (cb0 : circular_buffer α) (construct0 : Nat) (item : α)
    (acc : circular_buffer α × List (SlotOp α)) (i : Nat) :
    circular_buffer α × List (SlotOp α) :=
  let p := add (capacity cb0) cb0.m_last i
  if i < construct0 then
    (construct acc.1 p (some item), acc.2 ++ [SlotOp.construct p (some item)])
  else
    (replace acc.1 p (some item), acc.2 ++ [SlotOp.assign p (some item)])

/-- `insert_n(pos, n, item)` with a logical index `pos` (`pos = m_size`
encodes `pos.m_it == 0`, the end iterator).  The shift loop runs
`size - pos` times, the write loop `n` times; afterwards
`m_last = add(m_last, n)`, `m_first = add(m_first, n - construct)` and
`m_size += construct` with `construct = min(capacity() - size(), n)`. -/
def insert_n (cb : circular_buffer α) (pos n : Nat) (item : α) :
    circular_buffer α × List (SlotOp α) :=
  let c0 := min (capacity cb - cb.m_size) n
  let body :=
    if pos = cb.m_size then
      (List.range n).foldl (insertEndStep cb c0 item) (cb, [])
    else
      (List.range n).foldl (insertWriteStep cb pos item)
        ((List.range (cb.m_size - pos)).foldl (insertShiftStep cb n) (cb, []))
  ({ body.1 with
       m_last := add (capacity cb) cb.m_last n,
       m_first := add (capacity cb) cb.m_first (n - c0),
       m_size := cb.m_size + c0 },
   body.2)

/-- `insert(pos, n, item)`: `copy = capacity() - (end() - pos)`; returns
early when `n == 0` or `copy == 0`, clamps `n` to `copy` and calls
`insert_n`. -/
def insert (cb : circular_buffer α) (pos n : Nat) (item : α) :
    circular_buffer α × List (SlotOp α) :=
  if n = 0 then (cb, [])
  else
    if capacity cb - (cb.m_size - pos) = 0 then (cb, [])
    else insert_n cb pos (min n (capacity cb - (cb.m_size - pos))) item

/-- One step of the shifting loop of `rinsert_n` (`while (src != p)`):
`src` starts at `m_first` and `dest` at `sub(m_first, n)`, both
incrementing. -/
def rinsertShiftStep (cb0 : circular_buffer α) (n : Nat)
    (acc : circular_buffer α × List (SlotOp α)) (j : Nat) :
    circular_buffer α × List (SlotOp α) :=
  let src := add (capacity cb0) cb0.m_first j
  let dest := add (capacity cb0) (sub (capacity cb0) cb0.m_first n) j
  let v := nthPhys acc.1 src
  if is_uninitialized cb0 dest then
    (construct acc.1 dest v, acc.2 ++ [SlotOp.construct dest v])
  else
    (replace acc.1 dest v, acc.2 ++ [SlotOp.assign dest v])

/-- One step of the item-writing loop of `rinsert_n`, continuing at
`dest = add(sub(m_first, n), pos + i)`. -/
def rinsertWriteStep (cb0 : circular_buffer α) (pos n : Nat) (item : α)
    (acc : circular_buffer α × List (SlotOp α)) (i : Nat) :
    circular_buffer α × List (SlotOp α) :=
  let p := add (capacity cb0) (sub (capacity cb0) cb0.m_first n) (pos + i)
  if is_uninitialized cb0 p then
    (construct acc.1 p (some item), acc.2 ++ [SlotOp.construct p (some item)])
  else
    (replace acc.1 p (some item), acc.2 ++ [SlotOp.assign p (some item)])

/-- One step of the begin-insertion loop of `rinsert_n` for `pos == begin()`
(`p = sub(m_first, n)`; the first `n - construct` iterations assign, the
remaining `construct` ones placement-construct). -/
def rinsertBeginStep (cb0 : circular_buffer α) (n construct0 : Nat) (item : α)
    (acc : circular_buffer α × List (SlotOp α)) (i : Nat) :
    circular_buffer α × List (SlotOp α) :=
  let p := add (capacity cb0) (sub (capacity cb0) cb0.m_first n) i
  if i < n - construct0 then
    (replace acc.1 p (some item), acc.2 ++ [SlotOp.assign p (some item)])
  else
    (construct acc.1 p (some item), acc.2 ++ [SlotOp.construct p (some item)])

/-- `rinsert_n(pos, n, item)`: `copy = capacity() - (pos - begin())`, early
returns for `n == 0` and `copy == 0`, clamps `n`, then shifts the `pos`
front elements down by `n` and writes the items; afterwards
`m_first = sub(m_first, n)`, `m_last = sub(m_last, n - construct)` and
`m_size += construct`. -/
def rinsert_n (cb : circular_buffer α) (pos n : Nat) (item : α) :
    circular_buffer α × List (SlotOp α) :=
  if n = 0 then (cb, [])
  else if capacity cb - pos = 0 then (cb, [])
  else
    let n1 := min n (capacity cb - pos)
    let c0 := min (capacity cb - cb.m_size) n1
    let body :=
      if pos = 0 then
        (List.range n1).foldl (rinsertBeginStep cb n1 c0 item) (cb, [])
      else
        (List.range n1).foldl (rinsertWriteStep cb pos n1 item)
          ((List.range pos).foldl (rinsertShiftStep cb n1) (cb, []))
    ({ body.1 with
         m_first := sub (capacity cb) cb.m_first n1,
         m_last := sub (capacity cb) cb.m_last (n1 - c0),
         m_size := cb.m_size + c0 },
     body.2)

/-- One step of the shifting loop of `erase(first, last)`
(`while (last.m_it != 0) replace((first++).m_it, *last++);`). -/
def eraseRangeShiftStep (cb0 : circular_buffer α) (a b : Nat)
    (acc : circular_buffer α × List (SlotOp α)) (j : Nat) :
    circular_buffer α × List (SlotOp α) :=
  let p := add (capacity cb0) cb0.m_first (a + j)
  let v := nthPhys acc.1 (add (capacity cb0) cb0.m_first (b + j))
  (replace acc.1 p v, acc.2 ++ [SlotOp.assign p v])

/-- One step of the destroy loop of `erase(first, last)`
(`do { decrement(m_last); destroy_item(m_last); --m_size; } while ...`). -/
def eraseRangeDestroyStep (cb0 : circular_buffer α)
    (acc : circular_buffer α × List (SlotOp α)) (k : Nat) :
    circular_buffer α × List (SlotOp α) :=
  let p := sub (capacity cb0) cb0.m_last (k + 1)
  (destroy_item acc.1 p, acc.2 ++ [SlotOp.destroy p])

/-- `erase(first, last)` for the logical range `[a, b)`: the elements from
`b` on are shifted down to `a`, then the trailing `b - a` slots are
destroyed while `m_last` retreats. -/
def erase_range (cb : circular_buffer α) (a b : Nat) :
    circular_buffer α × List (SlotOp α) :=
  if a = b then (cb, [])
  else
    let destroyed := (List.range (b - a)).foldl (eraseRangeDestroyStep cb)
      ((List.range (cb.m_size - b)).foldl (eraseRangeShiftStep cb a b) (cb, []))
    ({ destroyed.1 with
         m_last := sub (capacity cb) cb.m_last (b - a),
         m_size := cb.m_size - (b - a) },
     destroyed.2)

/-- One step of the shifting loop of `rerase(first, last)`. -/
def reraseRangeShiftStep (cb0 : circular_buffer α) (a b : Nat)
    (acc : circular_buffer α × List (SlotOp α)) (j : Nat) :
    circular_buffer α × List (SlotOp α) :=
  let p := add (capacity cb0) cb0.m_first (b - 1 - j)
  let v := nthPhys acc.1 (add (capacity cb0) cb0.m_first (a - 1 - j))
  (replace acc.1 p v, acc.2 ++ [SlotOp.assign p v])

/-- One step of the destroy loop of `rerase(first, last)`
(`do { destroy_item(m_first); increment(m_first); --m_size; } while ...`). -/
def reraseRangeDestroyStep (cb0 : circular_buffer α)
    (acc : circular_buffer α × List (SlotOp α)) (k : Nat) :
    circular_buffer α × List (SlotOp α) :=
  let p := add (capacity cb0) cb0.m_first k
  (destroy_item acc.1 p, acc.2 ++ [SlotOp.destroy p])

/-- `rerase(first, last)` for the logical range `[a, b)`: the `a` front
elements are shifted up to end right before `b`, then the leading `b - a`
slots are destroyed while `m_first` advances. -/
def rerase_range (cb : circular_buffer α) (a b : Nat) :
    circular_buffer α × List (SlotOp α) :=
  if a = b then (cb, [])
  else
    let destroyed := (List.range (b - a)).foldl (reraseRangeDestroyStep cb)
      ((List.range a).foldl (reraseRangeShiftStep cb a b) (cb, []))
    ({ destroyed.1 with
         m_first := add (capacity cb) cb.m_first (b - a),
         m_size := cb.m_size - (b - a) },
     destroyed.2)

/-- `assign_n(new_capacity, n, fnc)` with the fill functor of
`assign(n, item)` / `assign(capacity, n, item)`: a fresh block of
`new_capacity` slots whose first `n` hold `item`; `m_first = m_buff`,
`m_last = add(m_buff, size())`.  Precondition of the callers:
`n <= new_capacity`. -/
def assign (new_capacity n : Nat) (item : α) : circular_buffer α :=
  { buff := List.replicate n (some item) ++ List.replicate (new_capacity - n) none,
    m_first := 0,
    m_last := add new_capacity 0 n,
    m_size := n }

/-- The `capacity_control` of the space optimized buffer. -/
structure capacity_control where
  m_capacity : Nat
  m_min_capacity : Nat
deriving DecidableEq

/-- `circular_buffer_space_optimized`: the adapted `circular_buffer`
(whose physical capacity is the amount of allocated memory) plus the
capacity controller. -/
structure circular_buffer_space_optimized (α : Type) where
  inner : circular_buffer α
  m_capacity_ctrl : capacity_control
deriving DecidableEq

/-- `internal_capacity()`: the adapted buffer's physical capacity. -/
def internal_capacity (so : circular_buffer_space_optimized α) : Nat :=
  capacity so.inner

/-- `ensure_reserve(new_capacity, size)`: double when the reserve would be
below 20%, then clamp to the logical `capacity()` (`m_capacity_ctrl`). -/
def ensure_reserve (so_capacity new_capacity sz : Nat) : Nat :=
  let nc := if sz + new_capacity / 5 ≥ new_capacity then new_capacity * 2
            else new_capacity
  if nc > so_capacity then so_capacity else nc

/-- The halving loop of `check_high_capacity`:
`while (new_capacity / 3 >= size()) { new_capacity /= 2;
if (new_capacity <= m_min_capacity) { new_capacity = m_min_capacity;
break; } }`. -/
def shrink_loop (sz min_cap : Nat) (c : Nat) : Nat :=
  if c / 3 ≥ sz then
    if c / 2 ≤ min_cap then min_cap
    else shrink_loop sz min_cap (c / 2)
  else c
termination_by c
decreasing_by
  omega

/-- `check_high_capacity()`: shrink the physical capacity, keep the
reserve, and apply it with the base `set_capacity`. -/
def check_high_capacity (so : circular_buffer_space_optimized α) :
    circular_buffer_space_optimized α :=
  { so with inner :=
      (set_capacity so.inner
        (ensure_reserve so.m_capacity_ctrl.m_capacity
          (shrink_loop so.inner.m_size so.m_capacity_ctrl.m_min_capacity
            (capacity so.inner))
          so.inner.m_size)) }

/-- The doubling loop of `check_low_capacity`
(`for (; new_size > new_capacity; new_capacity *= 2);`).  The `0 < c`
conjunct only guards termination: every call site passes `c >= 1` (the
source replaces a zero capacity by 1 before the loop), and for such `c` the
behaviour is that of the source's loop. -/
def grow_loop (new_size c : Nat) : Nat :=
  if 0 < c ∧ new_size > c then grow_loop new_size (c * 2) else c
termination_by new_size - c
decreasing_by
  omega

/-- `check_low_capacity(n)`: grow the physical capacity to hold
`size() + n`, with the reserve heuristic, clamped to the logical
capacity. -/
def check_low_capacity (so : circular_buffer_space_optimized α) (n : Nat) :
    circular_buffer_space_optimized α :=
  if so.inner.m_size + n > capacity so.inner then
    { so with inner :=
        (set_capacity so.inner
          (ensure_reserve so.m_capacity_ctrl.m_capacity
            (grow_loop (so.inner.m_size + n)
              (if capacity so.inner = 0 then 1 else capacity so.inner))
            (so.inner.m_size + n))) }
  else so

/-- `circular_buffer_space_optimized::push_back`. -/
def so_push_back (so : circular_buffer_space_optimized α) (item : α) :
    circular_buffer_space_optimized α :=
  let so1 := check_low_capacity so 1
  { so1 with inner := (push_back so1.inner item).1 }

/-- `circular_buffer_space_optimized::push_front`. -/
def so_push_front (so : circular_buffer_space_optimized α) (item : α) :
    circular_buffer_space_optimized α :=
  let so1 := check_low_capacity so 1
  { so1 with inner := (push_front so1.inner item).1 }

/-- `circular_buffer_space_optimized::pop_back`. -/
def so_pop_back (so : circular_buffer_space_optimized α) :
    circular_buffer_space_optimized α :=
  check_high_capacity { so with inner := (pop_back so.inner).1 }

/-- `circular_buffer_space_optimized::pop_front`. -/
def so_pop_front (so : circular_buffer_space_optimized α) :
    circular_buffer_space_optimized α :=
  check_high_capacity { so with inner := (pop_front so.inner).1 }

/-- `circular_buffer_space_optimized::insert(pos, n, item)` (the logical
index of `pos` is preserved across the possible reallocation of
`check_low_capacity`). -/
def so_insert (so : circular_buffer_space_optimized α) (pos n : Nat) (item : α) :
    circular_buffer_space_optimized α :=
  let so1 := check_low_capacity so n
  { so1 with inner := (insert so1.inner pos n item).1 }

/-- `circular_buffer_space_optimized::rinsert(pos, n, item)`. -/
def so_rinsert (so : circular_buffer_space_optimized α) (pos n : Nat) (item : α) :
    circular_buffer_space_optimized α :=
  let so1 := check_low_capacity so n
  { so1 with inner := (rinsert_n so1.inner pos n item).1 }

/-- `circular_buffer_space_optimized::erase(pos)`. -/
def so_erase (so : circular_buffer_space_optimized α) (pos : Nat) :
    circular_buffer_space_optimized α :=
  check_high_capacity { so with inner := (erase so.inner pos).1 }

/-- `circular_buffer_space_optimized::rerase(pos)`. -/
def so_rerase (so : circular_buffer_space_optimized α) (pos : Nat) :
    circular_buffer_space_optimized α :=
  check_high_capacity { so with inner := (rerase so.inner pos).1 }

/-- `circular_buffer_space_optimized::erase(first, last)`. -/
def so_erase_range (so : circular_buffer_space_optimized α) (a b : Nat) :
    circular_buffer_space_optimized α :=
  check_high_capacity { so with inner := (erase_range so.inner a b).1 }

/-- `circular_buffer_space_optimized::rerase(first, last)`. -/
def so_rerase_range (so : circular_buffer_space_optimized α) (a b : Nat) :
    circular_buffer_space_optimized α :=
  check_high_capacity { so with inner := (rerase_range so.inner a b).1 }

/-- `circular_buffer_space_optimized::resize(new_size, item)`: grow by
inserting at the back (bumping the logical capacity when needed), shrink by
erasing at the back. -/
def so_resize (so : circular_buffer_space_optimized α) (new_size : Nat) (item : α) :
    circular_buffer_space_optimized α :=
  if new_size > so.inner.m_size then
    let so1 := if new_size > so.m_capacity_ctrl.m_capacity
      then { so with m_capacity_ctrl :=
              { so.m_capacity_ctrl with m_capacity := new_size } }
      else so
    so_insert so1 so1.inner.m_size (new_size - so1.inner.m_size) item
  else so_erase_range so new_size so.inner.m_size

/-- The private `set_min_capacity(new_min_capacity)`: reallocate up to the
new floor when it exceeds the current physical capacity, otherwise run
`check_high_capacity`. -/
def set_min_capacity (so : circular_buffer_space_optimized α) (new_min : Nat) :
    circular_buffer_space_optimized α :=
  if new_min > capacity so.inner then
    { so with inner := set_capacity so.inner new_min }
  else check_high_capacity so

/-- `circular_buffer_space_optimized::set_capacity(capacity_ctrl)`. -/
def so_set_capacity (so : circular_buffer_space_optimized α)
    (ctrl : capacity_control) : circular_buffer_space_optimized α :=
  let so1 := { so with m_capacity_ctrl := ctrl }
  let so2 := if ctrl.m_capacity < capacity so1.inner
    then { so1 with inner := set_capacity so1.inner ctrl.m_capacity }
    else so1
  set_min_capacity so2 ctrl.m_min_capacity

/-- `circular_buffer_space_optimized::assign(n, item)`. -/
def so_assign (so : circular_buffer_space_optimized α) (n : Nat) (item : α) :
    circular_buffer_space_optimized α :=
  { inner := assign n n item, m_capacity_ctrl := ⟨n, 0⟩ }

/-- `circular_buffer_space_optimized::assign(capacity_ctrl, n, item)`
(precondition `capacity_ctrl.capacity() >= n`): the base buffer is
reassigned with physical capacity `max(capacity_ctrl.min_capacity(), n)`. -/
def so_assign_ctrl (so : circular_buffer_space_optimized α)
    (ctrl : capacity_control) (n : Nat) (item : α) :
    circular_buffer_space_optimized α :=
  { inner := assign (max ctrl.m_min_capacity n) n item, m_capacity_ctrl := ctrl }

/-- The physical-capacity bounds kept by the space optimized buffer:
`size() <= internal capacity`, the internal capacity never exceeds the
logical capacity and never drops below `min_capacity`. -/
def SOInv (so : circular_buffer_space_optimized α) : Prop :=
  so.inner.m_size ≤ capacity so.inner ∧
  capacity so.inner ≤ so.m_capacity_ctrl.m_capacity ∧
  so.m_capacity_ctrl.m_min_capacity ≤ capacity so.inner

instance (so : circular_buffer_space_optimized α) : Decidable (SOInv so) := by
  unfold SOInv
  infer_instance

/-- The inner loop of `linearize()`
(`for (size_type ii = 0; src < m_end; ++src, ++dest, ++moved, ++ii)`),
running from an arbitrary iteration boundary to the end of the round: on
`moved == size()` it breaks with `first = dest`; on `dest == first` it
breaks with `first += ii`; otherwise it either placement-constructs
`*dest = *src` (raw destination) or swaps `*src` and `*dest` through a
temporary, as in the source.  It returns the buffer, `dest`, `first`,
`moved` and `constructed`; `src` is dead after the loop (the outer loop
overwrites it with `first`). -/
def linRound (cb0 : circular_buffer α) (b : List (Option α))
    (src dest first moved constructed ii : Nat) :
    List (Option α) × Nat × Nat × Nat × Nat :=
  if h : src < capacity cb0 then
    if moved = cb0.m_size then (b, dest, dest, moved, constructed)
    else if dest = first then (b, dest, first + ii, moved, constructed)
    else if is_uninitialized cb0 dest then
      linRound cb0 (b.set dest (b.getD src none)) (src + 1) (dest + 1) first
        (moved + 1) (constructed + 1) (ii + 1)
    else
      linRound cb0 ((b.set dest (b.getD src none)).set src (b.getD dest none))
        (src + 1) (dest + 1) first (moved + 1) constructed (ii + 1)
  else (b, dest, first, moved, constructed)
termination_by capacity cb0 - src
decreasing_by
  omega
  omega

/-- The outer loop of `linearize()`
(`for (pointer first = m_first; dest < src; src = first)`): each round
re-enters the inner loop with `src = first` and `ii = 0`.  The `fuel`
argument only bounds the number of rounds to make the recursion
structural: every executed round either moves at least one element
forward (`dest` strictly grows, and `dest <= size()`) or makes the next
`dest < first` test fail, so `size() + 2` rounds always suffice and the
fuel-exhausted branch, which returns the current state like the loop
exit does, is never taken from `linearize`. -/
def linOuter (cb0 : circular_buffer α) :
    Nat → List (Option α) → Nat → Nat → Nat → Nat → List (Option α) × Nat
  | 0, b, _, _, _, constructed => (b, constructed)
  | fuel + 1, b, dest, first, moved, constructed =>
    if dest < first then
      let r := linRound cb0 b first dest first moved constructed 0
      linOuter cb0 fuel r.1 r.2.1 r.2.2.1 r.2.2.2.1 r.2.2.2.2
    else (b, constructed)

/-- `linearize()`: returns the new state and the returned pointer as a
physical slot index (`none` for the null pointer).  After the rotation
loop the trailing `constructed` slots are destroyed and the cursors are
reset (`m_first = m_buff; m_last = add(m_buff, size());`). -/
def linearize (cb : circular_buffer α) : circular_buffer α × Option Nat :=
  if empty cb then (cb, none)
  else if cb.m_first < cb.m_last ∨ cb.m_last = 0 then (cb, some cb.m_first)
  else
    let r := linOuter cb (cb.m_size + 2) cb.buff 0 cb.m_first 0 0
    let b2 := (List.range r.2).foldl
      (fun bb j => bb.set (capacity cb - r.2 + j) none) r.1
    ({ cb with
        buff := b2
        m_first := 0
        m_last := add (capacity cb) 0 cb.m_size },
      some 0)

/-- The invariant of the `linearize()` rotation at an outer-loop boundary
(next round will start with `src = first`), for a wrapped buffer `cb0`
(`0 < m_last <= m_first`): the prefix `[0, dest)` already holds the final
(logical) elements, `[dest, first)` holds the elements displaced to the
very end of the logical order, `[first, capacity)` holds the elements
still to be moved forward, where slot values are only pinned down when the
corresponding logical index is a live one (`< m_size`) — raw slots carry
arbitrary garbage. -/
def linEntryInv (cb0 : circular_buffer α) (b : List (Option α))
    (dest first constructed : Nat) : Prop :=
  b.length = capacity cb0 ∧
  dest ≤ cb0.m_size ∧
  dest ≤ first ∧
  first < capacity cb0 ∧
  cb0.m_first ≤ first ∧
  (first = cb0.m_first ∨ cb0.m_first ≤ dest) ∧
  (constructed = 0 ∨ constructed + cb0.m_last ≤ min dest cb0.m_first) ∧
  (∀ q, q < dest → b.getD q none =
    nthPhys cb0 ((cb0.m_first + q) % capacity cb0)) ∧
  (∀ q, dest ≤ q → q < first → (b.getD q none =
    nthPhys cb0 ((cb0.m_first + (capacity cb0 + q - first)) % capacity cb0) ∨
    cb0.m_size ≤ capacity cb0 + q - first)) ∧
  (∀ q, first ≤ q → q < capacity cb0 → (b.getD q none =
    nthPhys cb0 ((cb0.m_first + (dest + q - first)) % capacity cb0) ∨
    cb0.m_size ≤ dest + q - first))

/-- The invariant of the `linearize()` rotation at an inner-loop iteration
boundary, with the current `src`/`dest`/`first` and the iteration counter
`ii` of the round; the four regions are `[0, dest)` (placed), `[dest,
first)`, `[first, src)` and `[src, capacity)`. -/
def linMidInv (cb0 : circular_buffer α) (b : List (Option α))
    (src dest first constructed ii : Nat) : Prop :=
  b.length = capacity cb0 ∧
  dest ≤ cb0.m_size ∧
  dest ≤ first ∧
  first ≤ src ∧
  src ≤ capacity cb0 ∧
  first < capacity cb0 ∧
  dest < src ∧
  first + ii = src ∧
  cb0.m_first ≤ first ∧
  (first = cb0.m_first ∨ cb0.m_first ≤ dest) ∧
  (constructed = 0 ∨ constructed + cb0.m_last ≤ min dest cb0.m_first) ∧
  (∀ q, q < dest → b.getD q none =
    nthPhys cb0 ((cb0.m_first + q) % capacity cb0)) ∧
  (∀ q, dest ≤ q → q < first → (b.getD q none =
    nthPhys cb0 ((cb0.m_first + (capacity cb0 + q - first)) % capacity cb0) ∨
    cb0.m_size ≤ capacity cb0 + q - first)) ∧
  (∀ q, first ≤ q → q < src → (b.getD q none =
    nthPhys cb0 ((cb0.m_first + (capacity cb0 + dest + q - src - first)) %
      capacity cb0) ∨
    cb0.m_size ≤ capacity cb0 + dest + q - src - first)) ∧
  (∀ q, src ≤ q → q < capacity cb0 → (b.getD q none =
    nthPhys cb0 ((cb0.m_first + (dest + q - src)) % capacity cb0) ∨
    cb0.m_size ≤ dest + q - src))

/-- What a run of the inner loop guarantees: sizes are preserved, `dest`
does not retreat, `moved` stays equal to `dest`, on continuation
(`dest < first` for the next round) the entry invariant is restored and
the round made progress, and on exit the prefix `[0, m_size)` is fully
placed with the constructed-count bounded by the raw-slot count. -/
def linRoundPost (cb0 : circular_buffer α) (src dest first : Nat)
    (r : List (Option α) × Nat × Nat × Nat × Nat) : Prop :=
  r.1.length = capacity cb0 ∧
  dest ≤ r.2.1 ∧
  r.2.2.2.1 = r.2.1 ∧
  (r.2.1 < r.2.2.1 →
    linEntryInv cb0 r.1 r.2.1 r.2.2.1 r.2.2.2.2 ∧
    (dest < r.2.1 ∨ dest = first ∨ capacity cb0 ≤ src)) ∧
  (¬ r.2.1 < r.2.2.1 →
    (∀ q, q < cb0.m_size → r.1.getD q none =
      nthPhys cb0 ((cb0.m_first + q) % capacity cb0)) ∧
    (r.2.2.2.2 = 0 ∨ r.2.2.2.2 + cb0.m_last ≤ cb0.m_first))

/-! Arithmetic facts about the index helpers. -/

theorem add_eq_mod {cap p n : Nat} (hp : p < cap) (hn : n ≤ cap) :
    add cap p n = (p + n) % cap := by
  unfold add
  split
  · rw [Nat.mod_eq_of_lt (by omega)]
  · have h1 : p + n - cap < cap := by omega
    have h3 : (p + n) % cap = p + n - cap := by
      conv_lhs => rw [show p + n = (p + n - cap) + cap by omega]
      rw [Nat.add_mod_right, Nat.mod_eq_of_lt h1]
    omega

theorem increment_eq_mod {cap p : Nat} (hp : p < cap) :
    increment cap p = (p + 1) % cap := by
  unfold increment
  split
  · next h => rw [h, Nat.mod_self]
  · rw [Nat.mod_eq_of_lt (by omega)]

theorem decrement_eq_mod {cap p : Nat} (hp : p < cap) :
    decrement cap p = (p + cap - 1) % cap := by
  unfold decrement
  split
  · subst_vars
    rw [Nat.mod_eq_of_lt (by omega)]
    omega
  · have h3 : (p + cap - 1) % cap = p - 1 := by
      conv_lhs => rw [show p + cap - 1 = (p - 1) + cap by omega]
      rw [Nat.add_mod_right, Nat.mod_eq_of_lt (by omega)]
    omega

theorem sub_eq_mod {cap p n : Nat} (hp : p < cap) (hn : n ≤ cap) :
    sub cap p n = (p + cap - n) % cap := by
  unfold sub
  split
  · rw [Nat.mod_eq_of_lt (by omega)]
  · have h2 : p + cap - n = (p - n) + cap := by omega
    rw [h2, Nat.add_mod_right, Nat.mod_eq_of_lt (by omega)]

theorem getD_set (l : List (Option α)) (i j : Nat) (v : Option α) :
    (l.set i v).getD j none =
      if i = j ∧ i < l.length then v else l.getD j none := by
  rcases Nat.decEq i j with h | h
  · simp only [List.getD_eq_getElem?_getD, List.getElem?_set]
    split
    · omega
    · simp_all
  · subst h
    by_cases hlen : i < l.length
    · simp only [List.getD_eq_getElem?_getD, List.getElem?_set]
      simp [hlen]
    · simp only [List.getD_eq_getElem?_getD, List.getElem?_set]
      rw [List.getElem?_eq_none (by omega)]
      simp [hlen]

theorem toList_length (cb : circular_buffer α) : (toList cb).length = cb.m_size := by
  simp [toList]

theorem toList_getElem? (cb : circular_buffer α) (i : Nat) :
    (toList cb)[i]? = if i < cb.m_size then some (getAt cb i) else none := by
  unfold toList
  split
  · rw [List.getElem?_map, List.getElem?_range (by assumption)]
    rfl
  · rw [List.getElem?_eq_none]
    simp
    omega

theorem shift_mod_inj {cap f k1 k2 : Nat} (h1 : k1 < cap) (h2 : k2 < cap) :
    ((f + k1) % cap = (f + k2) % cap) ↔ k1 = k2 := by
  constructor
  · intro h
    have h3 : k1 ≡ k2 [MOD cap] := Nat.ModEq.add_left_cancel' f h
    unfold Nat.ModEq at h3
    rw [Nat.mod_eq_of_lt h1, Nat.mod_eq_of_lt h2] at h3
    exact h3
  · intro h
    rw [h]

theorem shift_mod_eq_self {cap f k : Nat} (hf : f < cap) (hk : k < cap) :
    ((f + k) % cap = f) ↔ k = 0 := by
  have h0 : (f + 0) % cap = f := by
    rw [Nat.add_zero, Nat.mod_eq_of_lt hf]
  constructor
  · intro h
    exact (shift_mod_inj hk (by omega)).mp (by rw [h, h0])
  · intro h
    subst h
    exact h0

/-! ## C1: push on a full buffer -/

theorem push_back_full_fields (cb : circular_buffer α) (x : α)
    (hfull : cb.m_size = capacity cb) (hne : ¬ cb.m_size = 0) :
    (push_back cb x).1.buff = cb.buff.set cb.m_last (some x) ∧
    (push_back cb x).1.m_first = increment (capacity cb) cb.m_last ∧
    (push_back cb x).1.m_last = increment (capacity cb) cb.m_last ∧
    (push_back cb x).1.m_size = cb.m_size ∧
    (push_back cb x).2 = [SlotOp.assign cb.m_last (some x)] := by
  unfold push_back
  rw [if_pos hfull, if_neg hne]
  exact ⟨rfl, rfl, rfl, rfl, rfl⟩

theorem push_front_full_fields (cb : circular_buffer α) (x : α)
    (hfull : cb.m_size = capacity cb) (hne : ¬ cb.m_size = 0) :
    (push_front cb x).1.buff =
      cb.buff.set (decrement (capacity cb) cb.m_first) (some x) ∧
    (push_front cb x).1.m_first = decrement (capacity cb) cb.m_first ∧
    (push_front cb x).1.m_last = decrement (capacity cb) cb.m_first ∧
    (push_front cb x).1.m_size = cb.m_size ∧
    (push_front cb x).2 =
      [SlotOp.assign (decrement (capacity cb) cb.m_first) (some x)] := by
  unfold push_front
  rw [if_pos hfull, if_neg hne]
  exact ⟨rfl, rfl, rfl, rfl, rfl⟩

theorem last_eq_first_of_full (cb : circular_buffer α)
    (hwf : wf cb) (hfull : full cb) (hcap : 1 ≤ capacity cb) :
    cb.m_last = cb.m_first := by
  obtain ⟨hsz, hzero, hfl, hle, hlive⟩ := hwf
  have hf : cb.m_first < capacity cb := hfl hcap
  rw [hle hcap, hfull, Nat.add_mod_right, Nat.mod_eq_of_lt hf]

theorem push_back_full_toList (cb : circular_buffer α) (x : α)
    (hwf : wf cb) (hfull : full cb) (hcap : 1 ≤ capacity cb) :
    toList (push_back cb x).1 = (toList cb).tail ++ [some x] := by
  have hlf : cb.m_last = cb.m_first := last_eq_first_of_full cb hwf hfull hcap
  obtain ⟨hsz, hzero, hfl, hle, hlive⟩ := hwf
  have hf : cb.m_first < capacity cb := hfl hcap
  have hfull' : cb.m_size = capacity cb := hfull
  have hne : ¬ cb.m_size = 0 := by omega
  obtain ⟨hbuff, hfirst', hlast', hsize', htr⟩ := push_back_full_fields cb x hfull' hne
  have hcapeq : capacity (push_back cb x).1 = capacity cb := by
    rw [capacity, hbuff, List.length_set]
    rfl
  apply List.ext_getElem?
  intro i
  rw [toList_getElem?, hsize', hfull']
  by_cases hi : i < capacity cb
  · rw [if_pos hi]
    have hq : getAt (push_back cb x).1 i =
        (cb.buff.set cb.m_first (some x)).getD
          ((cb.m_first + (i + 1)) % capacity cb) none := by
      simp only [getAt, nthPhys, hbuff, hcapeq, hfirst', hlf]
      congr 1
      rw [increment_eq_mod hf, add_eq_mod (Nat.mod_lt _ hcap) (le_of_lt hi),
        Nat.mod_add_mod]
      congr 1
      omega
    rcases Nat.lt_or_ge i (capacity cb - 1) with hi1 | hi1
    · rw [hq, getD_set, if_neg]
      · rw [List.getElem?_append,
          if_pos (by rw [List.length_tail, toList_length]; omega),
          List.getElem?_tail, toList_getElem?, if_pos (by omega)]
        simp only [getAt, nthPhys]
        rw [add_eq_mod hf (by omega)]
      · rintro ⟨hcon, -⟩
        have := (shift_mod_eq_self hf (show i + 1 < capacity cb by omega)).mp hcon.symm
        omega
    · have hieq : i = capacity cb - 1 := by omega
      subst hieq
      have hq2 : (cb.m_first + (capacity cb - 1 + 1)) % capacity cb = cb.m_first := by
        rw [show capacity cb - 1 + 1 = capacity cb by omega, Nat.add_mod_right,
          Nat.mod_eq_of_lt hf]
      rw [hq, hq2, getD_set, if_pos ⟨rfl, hf⟩,
        List.getElem?_append_right (by rw [List.length_tail, toList_length]; omega)]
      rw [List.length_tail, toList_length, hfull']
      simp
  · rw [if_neg hi, Eq.comm, List.getElem?_eq_none]
    rw [List.length_append, List.length_tail, toList_length]
    simp only [List.length_singleton]
    omega

theorem push_front_full_toList (cb : circular_buffer α) (x : α)
    (hwf : wf cb) (hfull : full cb) (hcap : 1 ≤ capacity cb) :
    toList (push_front cb x).1 = some x :: (toList cb).dropLast := by
  obtain ⟨hsz, hzero, hfl, hle, hlive⟩ := hwf
  have hf : cb.m_first < capacity cb := hfl hcap
  have hfull' : cb.m_size = capacity cb := hfull
  have hne : ¬ cb.m_size = 0 := by omega
  obtain ⟨hbuff, hfirst', hlast', hsize', htr⟩ := push_front_full_fields cb x hfull' hne
  have hcapeq : capacity (push_front cb x).1 = capacity cb := by
    rw [capacity, hbuff, List.length_set]
    rfl
  have hdec : decrement (capacity cb) cb.m_first =
      (cb.m_first + (capacity cb - 1)) % capacity cb := by
    rw [decrement_eq_mod hf]
    congr 1
    omega
  have hdlt : decrement (capacity cb) cb.m_first < capacity cb := by
    rw [hdec]
    exact Nat.mod_lt _ hcap
  apply List.ext_getElem?
  intro i
  rw [toList_getElem?, hsize', hfull']
  by_cases hi : i < capacity cb
  · rw [if_pos hi]
    have hq : getAt (push_front cb x).1 i =
        (cb.buff.set (decrement (capacity cb) cb.m_first) (some x)).getD
          ((decrement (capacity cb) cb.m_first + i) % capacity cb) none := by
      simp only [getAt, nthPhys, hbuff, hcapeq, hfirst']
      rw [add_eq_mod hdlt (le_of_lt hi)]
    rcases Nat.eq_zero_or_pos i with hi0 | hi0
    · subst hi0
      rw [hq, Nat.add_zero, Nat.mod_eq_of_lt hdlt, getD_set,
        if_pos ⟨rfl, show decrement (capacity cb) cb.m_first < cb.buff.length from hdlt⟩]
      simp
    · have hshift : (decrement (capacity cb) cb.m_first + i) % capacity cb =
          (cb.m_first + (i - 1)) % capacity cb := by
        rw [hdec, Nat.mod_add_mod]
        conv_lhs => rw [show cb.m_first + (capacity cb - 1) + i =
          cb.m_first + (i - 1) + capacity cb by omega]
        rw [Nat.add_mod_right]
      rw [hq, hshift, getD_set, if_neg]
      · rw [show i = (i - 1) + 1 by omega, List.getElem?_cons_succ,
          List.getElem?_dropLast, toList_length, hfull',
          if_pos (by omega), toList_getElem?, if_pos (by omega)]
        simp only [getAt, nthPhys]
        rw [add_eq_mod hf (by omega), Nat.add_sub_cancel]
      · rintro ⟨hcon, -⟩
        rw [hdec] at hcon
        have := (shift_mod_inj (show capacity cb - 1 < capacity cb by omega)
          (show i - 1 < capacity cb by omega)).mp hcon
        omega
  · rw [if_neg hi, Eq.comm, List.getElem?_eq_none]
    rw [List.length_cons, List.length_dropLast, toList_length]
    omega

/-- C1: on a full buffer of capacity `C >= 1` holding `[a0..a(C-1)]`,
`push_back(x)` leaves `[a1..a(C-1), x]` and `push_front(x)` leaves
`[x, a0..a(C-2)]`; `size()` stays `C`, the evicted slot is overwritten by a
single assignment (`replace`, not destroy+construct), and the two cursors
move together (after the push `m_first` and `m_last` coincide again). -/
theorem C1_push_on_full (cb : circular_buffer α) (x : α)
    (hwf : wf cb) (hfull : full cb) (hcap : 1 ≤ capacity cb) :
    toList (push_back cb x).1 = (toList cb).tail ++ [some x] ∧
    size (push_back cb x).1 = size cb ∧
    (push_back cb x).2 = [SlotOp.assign cb.m_last (some x)] ∧
    (push_back cb x).1.m_first = increment (capacity cb) cb.m_first ∧
    (push_back cb x).1.m_last = increment (capacity cb) cb.m_last ∧
    (push_back cb x).1.m_first = (push_back cb x).1.m_last ∧
    toList (push_front cb x).1 = some x :: (toList cb).dropLast ∧
    size (push_front cb x).1 = size cb ∧
    (push_front cb x).2 =
      [SlotOp.assign (decrement (capacity cb) cb.m_first) (some x)] ∧
    (push_front cb x).1.m_first = decrement (capacity cb) cb.m_first ∧
    (push_front cb x).1.m_last = decrement (capacity cb) cb.m_last ∧
    (push_front cb x).1.m_first = (push_front cb x).1.m_last := by
  have hlf : cb.m_last = cb.m_first := last_eq_first_of_full cb hwf hfull hcap
  have hfull' : cb.m_size = capacity cb := hfull
  have hne : ¬ cb.m_size = 0 := by
    have := hwf.1
    omega
  obtain ⟨hbuffB, hfirstB, hlastB, hsizeB, htrB⟩ := push_back_full_fields cb x hfull' hne
  obtain ⟨hbuffF, hfirstF, hlastF, hsizeF, htrF⟩ := push_front_full_fields cb x hfull' hne
  refine ⟨push_back_full_toList cb x hwf hfull hcap, ?_, htrB, ?_, hlastB, ?_,
    push_front_full_toList cb x hwf hfull hcap, ?_, htrF, hfirstF, ?_, ?_⟩
  · rw [size, size, hsizeB]
  · rw [hfirstB, hlf]
  · rw [hfirstB, hlastB]
  · rw [size, size, hsizeF]
  · rw [hlastF, hlf]
  · rw [hfirstF, hlastF]

/-- Witness for C1 on the full buffer `[1, 2, 3]` of capacity 3. -/
theorem C1_push_on_full_witness :
    wf (⟨[some 1, some 2, some 3], 0, 0, 3⟩ : circular_buffer Nat) ∧
    full (⟨[some 1, some 2, some 3], 0, 0, 3⟩ : circular_buffer Nat) ∧
    toList (push_back (⟨[some 1, some 2, some 3], 0, 0, 3⟩ : circular_buffer Nat) 9).1 =
      (toList (⟨[some 1, some 2, some 3], 0, 0, 3⟩ : circular_buffer Nat)).tail ++
        [some 9] :=
  ⟨by decide, by decide,
    (C1_push_on_full ⟨[some 1, some 2, some 3], 0, 0, 3⟩ 9
      (by decide) (by decide) (by decide)).1⟩

/-! ## C9: push on a zero-capacity buffer is a no-op -/

/-- C9: a `circular_buffer` of capacity 0 is both empty and full;
`push_back(item)` and `push_front(item)` return without constructing,
assigning or destroying any element and leave `size() == 0`. -/
theorem C9_push_zero_capacity (cb : circular_buffer α) (x : α)
    (hwf : wf cb) (hcap : capacity cb = 0) :
    push_back cb x = (cb, []) ∧ push_front cb x = (cb, []) ∧ size cb = 0 := by
  have hsz : cb.m_size = 0 := by
    have := hwf.1
    omega
  refine ⟨?_, ?_, hsz⟩ <;>
    simp [push_back, push_front, hsz, hcap]

/-- Witness for C9 at the concrete empty buffer of capacity 0. -/
theorem C9_push_zero_capacity_witness :
    push_back (⟨[], 0, 0, 0⟩ : circular_buffer Nat) 7 = (⟨[], 0, 0, 0⟩, []) ∧
    push_front (⟨[], 0, 0, 0⟩ : circular_buffer Nat) 7 = (⟨[], 0, 0, 0⟩, []) ∧
    size (⟨[], 0, 0, 0⟩ : circular_buffer Nat) = 0 :=
  C9_push_zero_capacity ⟨[], 0, 0, 0⟩ 7 (by decide) (by decide)

/-! ## C10: comparison operators -/

/-- C10: `operator==` holds iff the sizes agree and the elements at each
logical index compare equal; the capacities play no role, so buffers of
different capacities with equal element sequences compare equal, and
`operator!=` is the exact negation of `operator==`. -/
theorem C10_equality [DecidableEq α] (lhs rhs : circular_buffer α) :
    (cbEqual lhs rhs = true ↔
      size lhs = size rhs ∧ ∀ i < size lhs, getAt lhs i = getAt rhs i) ∧
    cbNotEqual lhs rhs = !cbEqual lhs rhs ∧
    (capacity lhs ≠ capacity rhs → size lhs = size rhs →
      (∀ i < size lhs, getAt lhs i = getAt rhs i) → cbEqual lhs rhs = true) := by
  have h1 : cbEqual lhs rhs = true ↔
      size lhs = size rhs ∧ ∀ i < size lhs, getAt lhs i = getAt rhs i := by
    simp [cbEqual, size, List.all_eq_true, List.mem_range]
  exact ⟨h1, rfl, fun _ h2 h3 => h1.mpr ⟨h2, h3⟩⟩

/-- Witness for C10: the capacity-2 buffer `[1,2]` and a capacity-4 buffer
holding `[1,2]` compare equal. -/
theorem C10_equality_witness :
    capacity (⟨[some 1, some 2], 0, 0, 2⟩ : circular_buffer Nat) ≠
      capacity (⟨[some 1, some 2, none, none], 0, 2, 2⟩ : circular_buffer Nat) ∧
    cbEqual (⟨[some 1, some 2], 0, 0, 2⟩ : circular_buffer Nat)
      ⟨[some 1, some 2, none, none], 0, 2, 2⟩ = true :=
  ⟨by decide,
    (C10_equality ⟨[some 1, some 2], 0, 0, 2⟩
        ⟨[some 1, some 2, none, none], 0, 2, 2⟩).2.2
      (by decide) (by decide) (by decide)⟩

/-! ## C3: erase and rerase shift directions -/

theorem phys_inj {cap f a b : Nat} (hf : f < cap) (ha : a < cap) (hb : b < cap) :
    add cap f a = add cap f b ↔ a = b := by
  rw [add_eq_mod hf (le_of_lt ha), add_eq_mod hf (le_of_lt hb)]
  exact shift_mod_inj ha hb

theorem add_lt {cap p n : Nat} (hp : p < cap) (hn : n ≤ cap) : add cap p n < cap := by
  rw [add_eq_mod hp hn]
  exact Nat.mod_lt _ (by omega)

theorem eraseStep_eq (cb0 : circular_buffer α) (pos : Nat)
    (acc : circular_buffer α × List (SlotOp α)) (i : Nat) :
    eraseStep cb0 pos acc i =
      (replace acc.1 (add (capacity cb0) cb0.m_first (pos + i))
         (nthPhys acc.1 (add (capacity cb0) cb0.m_first (pos + i + 1))),
       acc.2 ++ [SlotOp.assign (add (capacity cb0) cb0.m_first (pos + i))
         (nthPhys acc.1 (add (capacity cb0) cb0.m_first (pos + i + 1)))]) := rfl

theorem reraseStep_eq (cb0 : circular_buffer α) (pos : Nat)
    (acc : circular_buffer α × List (SlotOp α)) (j : Nat) :
    reraseStep cb0 pos acc j =
      (replace acc.1 (add (capacity cb0) cb0.m_first (pos - j))
         (nthPhys acc.1 (add (capacity cb0) cb0.m_first (pos - j - 1))),
       acc.2 ++ [SlotOp.assign (add (capacity cb0) cb0.m_first (pos - j))
         (nthPhys acc.1 (add (capacity cb0) cb0.m_first (pos - j - 1)))]) := rfl

theorem erase_loop_spec (cb : circular_buffer α) (pos : Nat)
    (hwf : wf cb) (hpos : pos < cb.m_size) (k : Nat)
    (hk : k ≤ cb.m_size - pos - 1) :
    ((List.range k).foldl (eraseStep cb pos) (cb, [])).1.m_first = cb.m_first ∧
    ((List.range k).foldl (eraseStep cb pos) (cb, [])).1.m_last = cb.m_last ∧
    ((List.range k).foldl (eraseStep cb pos) (cb, [])).1.m_size = cb.m_size ∧
    capacity ((List.range k).foldl (eraseStep cb pos) (cb, [])).1 = capacity cb ∧
    (∀ i < cb.m_size,
      nthPhys ((List.range k).foldl (eraseStep cb pos) (cb, [])).1
          (add (capacity cb) cb.m_first i) =
        if pos ≤ i ∧ i < pos + k then getAt cb (i + 1) else getAt cb i) ∧
    ((List.range k).foldl (eraseStep cb pos) (cb, [])).2 =
      (List.range k).map (fun i =>
        SlotOp.assign (add (capacity cb) cb.m_first (pos + i)) (getAt cb (pos + i + 1))) := by
  obtain ⟨hsz, hzero, hfl, hle, hlive⟩ := hwf
  have hcap : 0 < capacity cb := by omega
  have hf : cb.m_first < capacity cb := hfl hcap
  induction k with
  | zero =>
    refine ⟨rfl, rfl, rfl, rfl, ?_, rfl⟩
    intro i hi
    rw [if_neg (by omega)]
    rfl
  | succ k ih =>
    obtain ⟨h1, h2, h3, h4, h5, h6⟩ := ih (by omega)
    have hread : nthPhys ((List.range k).foldl (eraseStep cb pos) (cb, [])).1
        (add (capacity cb) cb.m_first (pos + k + 1)) = getAt cb (pos + k + 1) := by
      have h5r := h5 (pos + k + 1) (by omega)
      rw [if_neg (by omega)] at h5r
      exact h5r
    rw [List.range_succ, List.foldl_append, List.foldl_cons, List.foldl_nil,
      eraseStep_eq, hread]
    have hlen : ((List.range k).foldl (eraseStep cb pos) (cb, [])).1.buff.length =
        capacity cb := h4
    have hplt : add (capacity cb) cb.m_first (pos + k) < capacity cb :=
      add_lt hf (by omega)
    refine ⟨h1, h2, h3, ?_, ?_, ?_⟩
    · show (((List.range k).foldl (eraseStep cb pos) (cb, [])).1.buff.set
          (add (capacity cb) cb.m_first (pos + k)) (getAt cb (pos + k + 1))).length =
        capacity cb
      rw [List.length_set]
      exact h4
    · intro i hi
      show (((List.range k).foldl (eraseStep cb pos) (cb, [])).1.buff.set
          (add (capacity cb) cb.m_first (pos + k)) (getAt cb (pos + k + 1))).getD
            (add (capacity cb) cb.m_first i) none = _
      rw [getD_set]
      by_cases hik : i = pos + k
      · subst hik
        rw [if_pos ⟨rfl, by omega⟩, if_pos (by omega)]
      · rw [if_neg (fun hcon =>
          hik ((phys_inj hf (by omega) (by omega)).mp hcon.1).symm)]
        have h5i := h5 i hi
        simp only [nthPhys] at h5i
        rw [h5i]
        by_cases hcond : pos ≤ i ∧ i < pos + k
        · rw [if_pos hcond, if_pos (by omega)]
        · rw [if_neg hcond, if_neg (by omega)]
    · show ((List.range k).foldl (eraseStep cb pos) (cb, [])).2 ++
        [SlotOp.assign (add (capacity cb) cb.m_first (pos + k)) (getAt cb (pos + k + 1))] = _
      rw [h6]
      simp [List.range_succ]

theorem erase_spec (cb : circular_buffer α) (pos : Nat)
    (hwf : wf cb) (hpos : pos < cb.m_size) :
    (erase cb pos).1.m_first = cb.m_first ∧
    (erase cb pos).1.m_last = decrement (capacity cb) cb.m_last ∧
    (erase cb pos).1.m_size = cb.m_size - 1 ∧
    capacity (erase cb pos).1 = capacity cb ∧
    toList (erase cb pos).1 = (toList cb).eraseIdx pos ∧
    (erase cb pos).2 =
      (List.range (cb.m_size - (pos + 1))).map (fun i =>
        SlotOp.assign (add (capacity cb) cb.m_first (pos + i))
          (getAt cb (pos + i + 1))) ++
      [SlotOp.destroy (decrement (capacity cb) cb.m_last)] := by
  obtain ⟨h1, h2, h3, h4, h5, h6⟩ :=
    erase_loop_spec cb pos hwf hpos (cb.m_size - (pos + 1)) (by omega)
  obtain ⟨hsz, hzero, hfl, hle, hlive⟩ := hwf
  have hcap : 0 < capacity cb := by omega
  have hf : cb.m_first < capacity cb := hfl hcap
  have hbuffE : (erase cb pos).1.buff =
      ((List.range (cb.m_size - (pos + 1))).foldl (eraseStep cb pos) (cb, [])).1.buff.set
        (decrement (capacity cb) cb.m_last) none := rfl
  have hfirstE : (erase cb pos).1.m_first =
      ((List.range (cb.m_size - (pos + 1))).foldl (eraseStep cb pos) (cb, [])).1.m_first :=
    rfl
  have hlastE : (erase cb pos).1.m_last = decrement (capacity cb) cb.m_last := rfl
  have hsizeE : (erase cb pos).1.m_size = cb.m_size - 1 := rfl
  have htrE : (erase cb pos).2 =
      ((List.range (cb.m_size - (pos + 1))).foldl (eraseStep cb pos) (cb, [])).2 ++
        [SlotOp.destroy (decrement (capacity cb) cb.m_last)] := rfl
  have hcapE : capacity (erase cb pos).1 = capacity cb := by
    rw [capacity, hbuffE, List.length_set]
    exact h4
  have hlast : decrement (capacity cb) cb.m_last =
      add (capacity cb) cb.m_first (cb.m_size - 1) := by
    rw [hle hcap, decrement_eq_mod (Nat.mod_lt _ hcap), add_eq_mod hf (by omega)]
    conv_lhs => rw [show (cb.m_first + cb.m_size) % capacity cb + capacity cb - 1 =
      (cb.m_first + cb.m_size) % capacity cb + (capacity cb - 1) by omega]
    rw [Nat.mod_add_mod]
    conv_lhs => rw [show cb.m_first + cb.m_size + (capacity cb - 1) =
      cb.m_first + (cb.m_size - 1) + capacity cb by omega]
    rw [Nat.add_mod_right]
  refine ⟨by rw [hfirstE, h1], hlastE, hsizeE, hcapE, ?_, by rw [htrE, h6]⟩
  apply List.ext_getElem?
  intro q
  rw [toList_getElem?, hsizeE, List.getElem?_eraseIdx]
  by_cases hq : q < cb.m_size - 1
  · rw [if_pos hq]
    have hgq : getAt (erase cb pos).1 q =
        nthPhys ((List.range (cb.m_size - (pos + 1))).foldl (eraseStep cb pos) (cb, [])).1
          (add (capacity cb) cb.m_first q) := by
      simp only [getAt, nthPhys]
      rw [hcapE, hbuffE, hfirstE, h1, getD_set, if_neg]
      rintro ⟨hcon, -⟩
      rw [hlast] at hcon
      have := (phys_inj hf (by omega) (by omega)).mp hcon
      omega
    rw [hgq, h5 q (by omega)]
    by_cases hqp : q < pos
    · rw [if_neg (by omega), if_pos hqp, toList_getElem?, if_pos (by omega)]
    · rw [if_pos (by omega), if_neg hqp, toList_getElem?, if_pos (by omega)]
  · rw [if_neg hq, if_neg (by omega), toList_getElem?, if_neg (by omega)]

theorem rerase_loop_spec (cb : circular_buffer α) (pos : Nat)
    (hwf : wf cb) (hpos : pos < cb.m_size) (k : Nat) (hk : k ≤ pos) :
    ((List.range k).foldl (reraseStep cb pos) (cb, [])).1.m_first = cb.m_first ∧
    ((List.range k).foldl (reraseStep cb pos) (cb, [])).1.m_last = cb.m_last ∧
    ((List.range k).foldl (reraseStep cb pos) (cb, [])).1.m_size = cb.m_size ∧
    capacity ((List.range k).foldl (reraseStep cb pos) (cb, [])).1 = capacity cb ∧
    (∀ i < cb.m_size,
      nthPhys ((List.range k).foldl (reraseStep cb pos) (cb, [])).1
          (add (capacity cb) cb.m_first i) =
        if pos - k < i ∧ i ≤ pos then getAt cb (i - 1) else getAt cb i) ∧
    ((List.range k).foldl (reraseStep cb pos) (cb, [])).2 =
      (List.range k).map (fun j =>
        SlotOp.assign (add (capacity cb) cb.m_first (pos - j))
          (getAt cb (pos - j - 1))) := by
  obtain ⟨hsz, hzero, hfl, hle, hlive⟩ := hwf
  have hcap : 0 < capacity cb := by omega
  have hf : cb.m_first < capacity cb := hfl hcap
  induction k with
  | zero =>
    refine ⟨rfl, rfl, rfl, rfl, ?_, rfl⟩
    intro i hi
    rw [if_neg (by omega)]
    rfl
  | succ k ih =>
    obtain ⟨h1, h2, h3, h4, h5, h6⟩ := ih (by omega)
    have hread : nthPhys ((List.range k).foldl (reraseStep cb pos) (cb, [])).1
        (add (capacity cb) cb.m_first (pos - k - 1)) = getAt cb (pos - k - 1) := by
      have h5r := h5 (pos - k - 1) (by omega)
      rw [if_neg (by omega)] at h5r
      exact h5r
    rw [List.range_succ, List.foldl_append, List.foldl_cons, List.foldl_nil,
      reraseStep_eq, hread]
    have hlen : ((List.range k).foldl (reraseStep cb pos) (cb, [])).1.buff.length =
        capacity cb := h4
    have hplt : add (capacity cb) cb.m_first (pos - k) < capacity cb :=
      add_lt hf (by omega)
    refine ⟨h1, h2, h3, ?_, ?_, ?_⟩
    · show (((List.range k).foldl (reraseStep cb pos) (cb, [])).1.buff.set
          (add (capacity cb) cb.m_first (pos - k)) (getAt cb (pos - k - 1))).length =
        capacity cb
      rw [List.length_set]
      exact h4
    · intro i hi
      show (((List.range k).foldl (reraseStep cb pos) (cb, [])).1.buff.set
          (add (capacity cb) cb.m_first (pos - k)) (getAt cb (pos - k - 1))).getD
            (add (capacity cb) cb.m_first i) none = _
      rw [getD_set]
      by_cases hik : i = pos - k
      · subst hik
        rw [if_pos ⟨rfl, by omega⟩, if_pos (by omega)]
      · rw [if_neg (fun hcon =>
          hik ((phys_inj hf (by omega) (by omega)).mp hcon.1).symm)]
        have h5i := h5 i hi
        simp only [nthPhys] at h5i
        rw [h5i]
        by_cases hcond : pos - k < i ∧ i ≤ pos
        · rw [if_pos hcond, if_pos (by omega)]
        · rw [if_neg hcond, if_neg (by omega)]
    · show ((List.range k).foldl (reraseStep cb pos) (cb, [])).2 ++
        [SlotOp.assign (add (capacity cb) cb.m_first (pos - k)) (getAt cb (pos - k - 1))] = _
      rw [h6]
      simp [List.range_succ]

theorem rerase_spec (cb : circular_buffer α) (pos : Nat)
    (hwf : wf cb) (hpos : pos < cb.m_size) :
    (rerase cb pos).1.m_first = increment (capacity cb) cb.m_first ∧
    (rerase cb pos).1.m_last = cb.m_last ∧
    (rerase cb pos).1.m_size = cb.m_size - 1 ∧
    capacity (rerase cb pos).1 = capacity cb ∧
    toList (rerase cb pos).1 = (toList cb).eraseIdx pos ∧
    (rerase cb pos).2 =
      (List.range pos).map (fun j =>
        SlotOp.assign (add (capacity cb) cb.m_first (pos - j))
          (getAt cb (pos - j - 1))) ++
      [SlotOp.destroy cb.m_first] := by
  obtain ⟨h1, h2, h3, h4, h5, h6⟩ := rerase_loop_spec cb pos hwf hpos pos (le_refl pos)
  obtain ⟨hsz, hzero, hfl, hle, hlive⟩ := hwf
  have hcap : 0 < capacity cb := by omega
  have hf : cb.m_first < capacity cb := hfl hcap
  have hbuffE : (rerase cb pos).1.buff =
      ((List.range pos).foldl (reraseStep cb pos) (cb, [])).1.buff.set cb.m_first none :=
    rfl
  have hfirstE : (rerase cb pos).1.m_first = increment (capacity cb) cb.m_first := rfl
  have hlastE : (rerase cb pos).1.m_last =
      ((List.range pos).foldl (reraseStep cb pos) (cb, [])).1.m_last := rfl
  have hsizeE : (rerase cb pos).1.m_size = cb.m_size - 1 := rfl
  have htrE : (rerase cb pos).2 =
      ((List.range pos).foldl (reraseStep cb pos) (cb, [])).2 ++
        [SlotOp.destroy cb.m_first] := rfl
  have hcapE : capacity (rerase cb pos).1 = capacity cb := by
    rw [capacity, hbuffE, List.length_set]
    exact h4
  have hfirstzero : cb.m_first = add (capacity cb) cb.m_first 0 := by
    rw [add_eq_mod hf (by omega), Nat.add_zero, Nat.mod_eq_of_lt hf]
  refine ⟨hfirstE, by rw [hlastE, h2], hsizeE, hcapE, ?_, by rw [htrE, h6]⟩
  apply List.ext_getElem?
  intro q
  rw [toList_getElem?, hsizeE, List.getElem?_eraseIdx]
  by_cases hq : q < cb.m_size - 1
  · rw [if_pos hq]
    have hshift : add (capacity (rerase cb pos).1) (rerase cb pos).1.m_first q =
        add (capacity cb) cb.m_first (q + 1) := by
      rw [hcapE, hfirstE, increment_eq_mod hf,
        add_eq_mod (Nat.mod_lt _ hcap) (by omega), Nat.mod_add_mod,
        add_eq_mod hf (by omega)]
      congr 1
      omega
    have hgq : getAt (rerase cb pos).1 q =
        nthPhys ((List.range pos).foldl (reraseStep cb pos) (cb, [])).1
          (add (capacity cb) cb.m_first (q + 1)) := by
      simp only [getAt, nthPhys]
      rw [hshift, hbuffE, getD_set, if_neg]
      rintro ⟨hcon, -⟩
      have hcon2 : add (capacity cb) cb.m_first 0 =
          add (capacity cb) cb.m_first (q + 1) := hfirstzero.symm.trans hcon
      have := (phys_inj hf (by omega) (by omega)).mp hcon2
      omega
    rw [hgq, h5 (q + 1) (by omega)]
    by_cases hqp : q < pos
    · rw [if_pos (by omega), if_pos hqp, toList_getElem?, if_pos (by omega),
        Nat.add_sub_cancel]
    · rw [if_neg (by omega), if_neg hqp, toList_getElem?, if_pos (by omega)]
  · rw [if_neg hq, if_neg (by omega), toList_getElem?, if_neg (by omega)]

/-- C3, counterexample to the claim as stated.  In the buffer `[1,2,3,4,5]`
the position 1 is strictly nearer the front edge (one element before it)
than the back edge (three elements after it), so the claim requires
`erase(pos)` to shift the single element before it and advance the start
cursor.  Instead `erase` leaves `m_first` untouched, retreats `m_last`,
and relocates the three elements after the erased position. -/
theorem C3_counterexample :
    (erase (⟨[some 1, some 2, some 3, some 4, some 5], 0, 0, 5⟩ :
        circular_buffer Nat) 1).1.m_first = 0 ∧
    (erase (⟨[some 1, some 2, some 3, some 4, some 5], 0, 0, 5⟩ :
        circular_buffer Nat) 1).1.m_last = 4 ∧
    (erase (⟨[some 1, some 2, some 3, some 4, some 5], 0, 0, 5⟩ :
        circular_buffer Nat) 1).2 =
      [SlotOp.assign 1 (some 3), SlotOp.assign 2 (some 4),
       SlotOp.assign 3 (some 5), SlotOp.destroy 4] := by
  decide

/-- C3, amended: `erase(pos)` always relocates the elements after `pos`
toward the front (the `finish` cursor retreats, the `start` cursor is
unchanged) regardless of which side is shorter, while `rerase(pos)` always
relocates the elements before `pos` toward the back (the `start` cursor
advances, the `finish` cursor is unchanged); choosing the cheaper of the
two is left to the caller.  Both remove exactly the element at `pos`. -/
theorem C3_erase_directions (cb : circular_buffer α) (pos : Nat)
    (hwf : wf cb) (hpos : pos < size cb) :
    (erase cb pos).1.m_first = cb.m_first ∧
    (erase cb pos).1.m_last = decrement (capacity cb) cb.m_last ∧
    toList (erase cb pos).1 = (toList cb).eraseIdx pos ∧
    (erase cb pos).2 =
      (List.range (cb.m_size - (pos + 1))).map (fun i =>
        SlotOp.assign (add (capacity cb) cb.m_first (pos + i))
          (getAt cb (pos + i + 1))) ++
      [SlotOp.destroy (decrement (capacity cb) cb.m_last)] ∧
    (rerase cb pos).1.m_first = increment (capacity cb) cb.m_first ∧
    (rerase cb pos).1.m_last = cb.m_last ∧
    toList (rerase cb pos).1 = (toList cb).eraseIdx pos ∧
    (rerase cb pos).2 =
      (List.range pos).map (fun j =>
        SlotOp.assign (add (capacity cb) cb.m_first (pos - j))
          (getAt cb (pos - j - 1))) ++
      [SlotOp.destroy cb.m_first] := by
  obtain ⟨e1, e2, e3, e4, e5, e6⟩ := erase_spec cb pos hwf hpos
  obtain ⟨r1, r2, r3, r4, r5, r6⟩ := rerase_spec cb pos hwf hpos
  exact ⟨e1, e2, e5, e6, r1, r2, r5, r6⟩

/-- Witness for the amended C3 on the buffer `[1,2,3,4,5]` at position 1. -/
theorem C3_erase_directions_witness :
    toList (erase (⟨[some 1, some 2, some 3, some 4, some 5], 0, 0, 5⟩ :
        circular_buffer Nat) 1).1 =
      (toList (⟨[some 1, some 2, some 3, some 4, some 5], 0, 0, 5⟩ :
        circular_buffer Nat)).eraseIdx 1 ∧
    toList (rerase (⟨[some 1, some 2, some 3, some 4, some 5], 0, 0, 5⟩ :
        circular_buffer Nat) 1).1 =
      (toList (⟨[some 1, some 2, some 3, some 4, some 5], 0, 0, 5⟩ :
        circular_buffer Nat)).eraseIdx 1 :=
  ⟨(C3_erase_directions ⟨[some 1, some 2, some 3, some 4, some 5], 0, 0, 5⟩ 1
      (by decide) (by decide)).2.2.1,
   (C3_erase_directions ⟨[some 1, some 2, some 3, some 4, some 5], 0, 0, 5⟩ 1
      (by decide) (by decide)).2.2.2.2.2.2.1⟩

/-! ## C5: set_capacity strong exception safety -/

theorem set_capacity_spec (cb : circular_buffer α) (n : Nat) (hwf : wf cb) :
    capacity (set_capacity cb n) = n ∧
    size (set_capacity cb n) = min n (size cb) ∧
    toList (set_capacity cb n) = (toList cb).drop (size cb - n) := by
  obtain ⟨hsz, hzero, hfl, hle, hlive⟩ := hwf
  by_cases heq : n = capacity cb
  · have hset : set_capacity cb n = cb := by
      unfold set_capacity
      rw [if_pos heq]
    rw [hset]
    refine ⟨heq.symm, ?_, ?_⟩
    · show cb.m_size = min n cb.m_size
      omega
    · rw [show size cb - n = 0 from by show cb.m_size - n = 0; omega, List.drop_zero]
  · have hset : set_capacity cb n =
        ({ buff := (List.range (min n cb.m_size)).map
              (fun i => getAt cb (cb.m_size - min n cb.m_size + i)) ++
            List.replicate (n - min n cb.m_size) none,
           m_first := 0,
           m_last := if min n cb.m_size = n then 0 else min n cb.m_size,
           m_size := min n cb.m_size } : circular_buffer α) := by
      unfold set_capacity
      rw [if_neg heq]
    have hcap' : capacity (set_capacity cb n) = n := by
      rw [hset, capacity]
      show ((List.range (min n cb.m_size)).map
          (fun i => getAt cb (cb.m_size - min n cb.m_size + i)) ++
        List.replicate (n - min n cb.m_size) none).length = n
      rw [List.length_append, List.length_map, List.length_range, List.length_replicate]
      omega
    refine ⟨hcap', by rw [hset]; rfl, ?_⟩
    apply List.ext_getElem?
    intro q
    rw [toList_getElem?, List.getElem?_drop, toList_getElem?]
    by_cases hq : q < min n cb.m_size
    · rw [if_pos (by rw [hset]; exact hq)]
      have hgq : getAt (set_capacity cb n) q =
          getAt cb (cb.m_size - min n cb.m_size + q) := by
        have hadd : add (capacity (set_capacity cb n)) (set_capacity cb n).m_first q
            = q := by
          rw [hcap', hset]
          show add n 0 q = q
          unfold add
          rw [if_pos (by omega)]
          omega
        rw [getAt, hadd, hset]
        show ((List.range (min n cb.m_size)).map
            (fun i => getAt cb (cb.m_size - min n cb.m_size + i)) ++
          List.replicate (n - min n cb.m_size) none).getD q none = _
        rw [List.getD_eq_getElem?_getD, List.getElem?_append,
          if_pos (by rw [List.length_map, List.length_range]; exact hq),
          List.getElem?_map, List.getElem?_range hq]
        rfl
      rw [hgq, if_pos (show size cb - n + q < cb.m_size by
        show cb.m_size - n + q < cb.m_size
        omega)]
      have heqidx : cb.m_size - min n cb.m_size + q = size cb - n + q := by
        show cb.m_size - min n cb.m_size + q = cb.m_size - n + q
        omega
      rw [heqidx]
    · rw [if_neg (by rw [hset]; exact hq),
        if_neg (show ¬ size cb - n + q < cb.m_size by
          show ¬ cb.m_size - n + q < cb.m_size
          omega)]

theorem rset_capacity_spec (cb : circular_buffer α) (n : Nat) (hwf : wf cb) :
    capacity (rset_capacity cb n) = n ∧
    size (rset_capacity cb n) = min n (size cb) ∧
    toList (rset_capacity cb n) = (toList cb).take (min n (size cb)) := by
  obtain ⟨hsz, hzero, hfl, hle, hlive⟩ := hwf
  by_cases heq : n = capacity cb
  · have hset : rset_capacity cb n = cb := by
      unfold rset_capacity
      rw [if_pos heq]
    rw [hset]
    refine ⟨heq.symm, ?_, ?_⟩
    · show cb.m_size = min n cb.m_size
      omega
    · rw [show min n (size cb) = size cb from by show min n cb.m_size = cb.m_size; omega]
      rw [show size cb = (toList cb).length from (toList_length cb).symm, List.take_length]
  · have hset : rset_capacity cb n =
        ({ buff := (List.range (min n cb.m_size)).map (fun i => getAt cb i) ++
            List.replicate (n - min n cb.m_size) none,
           m_first := 0,
           m_last := if min n cb.m_size = n then 0 else min n cb.m_size,
           m_size := min n cb.m_size } : circular_buffer α) := by
      unfold rset_capacity
      rw [if_neg heq]
    have hcap' : capacity (rset_capacity cb n) = n := by
      rw [hset, capacity]
      show ((List.range (min n cb.m_size)).map (fun i => getAt cb i) ++
        List.replicate (n - min n cb.m_size) none).length = n
      rw [List.length_append, List.length_map, List.length_range, List.length_replicate]
      omega
    refine ⟨hcap', by rw [hset]; rfl, ?_⟩
    apply List.ext_getElem?
    intro q
    rw [toList_getElem?, List.getElem?_take, toList_getElem?]
    by_cases hq : q < min n cb.m_size
    · rw [if_pos (by rw [hset]; exact hq)]
      have hgq : getAt (rset_capacity cb n) q = getAt cb q := by
        have hadd : add (capacity (rset_capacity cb n)) (rset_capacity cb n).m_first q
            = q := by
          rw [hcap', hset]
          show add n 0 q = q
          unfold add
          rw [if_pos (by omega)]
          omega
        rw [getAt, hadd, hset]
        show ((List.range (min n cb.m_size)).map (fun i => getAt cb i) ++
          List.replicate (n - min n cb.m_size) none).getD q none = _
        rw [List.getD_eq_getElem?_getD, List.getElem?_append,
          if_pos (by rw [List.length_map, List.length_range]; exact hq),
          List.getElem?_map, List.getElem?_range hq]
        rfl
      rw [hgq, if_pos (show q < n ⊓ size cb from hq),
        if_pos (show q < cb.m_size by omega)]
    · rw [if_neg (by rw [hset]; exact hq),
        if_neg (show ¬ q < n ⊓ size cb from hq)]

/-- C5: `set_capacity` (and `rset_capacity`) give the strong guarantee: if
allocating the new block or copying an element throws, the buffer is exactly
as before the call and the allocator events are balanced (the new block, if
allocated, was deallocated); on normal return the capacity is the requested
one and `min(new_capacity, size())` elements survive — when the old size
exceeded `new_capacity`, exactly `new_capacity` elements survive, dropped
from the front by `set_capacity` (which keeps the back) and from the back by
`rset_capacity` (which keeps the front). -/
theorem C5_set_capacity_strong (cb : circular_buffer α) (new_capacity : Nat)
    (allocFail : Bool) (throwAt : Option Nat) (hwf : wf cb) :
    ((set_capacityE cb new_capacity allocFail throwAt).2.1 = true →
      (set_capacityE cb new_capacity allocFail throwAt).1 = cb ∧
      ((set_capacityE cb new_capacity allocFail throwAt).2.2 = [] ∨
       (set_capacityE cb new_capacity allocFail throwAt).2.2 =
         [AllocEvent.alloc new_capacity, AllocEvent.dealloc new_capacity])) ∧
    ((set_capacityE cb new_capacity allocFail throwAt).2.1 = false →
      (set_capacityE cb new_capacity allocFail throwAt).1 =
        set_capacity cb new_capacity) ∧
    ((rset_capacityE cb new_capacity allocFail throwAt).2.1 = true →
      (rset_capacityE cb new_capacity allocFail throwAt).1 = cb ∧
      ((rset_capacityE cb new_capacity allocFail throwAt).2.2 = [] ∨
       (rset_capacityE cb new_capacity allocFail throwAt).2.2 =
         [AllocEvent.alloc new_capacity, AllocEvent.dealloc new_capacity])) ∧
    ((rset_capacityE cb new_capacity allocFail throwAt).2.1 = false →
      (rset_capacityE cb new_capacity allocFail throwAt).1 =
        rset_capacity cb new_capacity) ∧
    capacity (set_capacity cb new_capacity) = new_capacity ∧
    size (set_capacity cb new_capacity) = min new_capacity (size cb) ∧
    toList (set_capacity cb new_capacity) = (toList cb).drop (size cb - new_capacity) ∧
    capacity (rset_capacity cb new_capacity) = new_capacity ∧
    size (rset_capacity cb new_capacity) = min new_capacity (size cb) ∧
    toList (rset_capacity cb new_capacity) =
      (toList cb).take (min new_capacity (size cb)) := by
  obtain ⟨hc1, hc2, hc3⟩ := set_capacity_spec cb new_capacity hwf
  obtain ⟨hr1, hr2, hr3⟩ := rset_capacity_spec cb new_capacity hwf
  have hselfS : set_capacity cb (capacity cb) = cb := by
    unfold set_capacity
    rw [if_pos rfl]
  have hselfR : rset_capacity cb (capacity cb) = cb := by
    unfold rset_capacity
    rw [if_pos rfl]
  refine ⟨?_, ?_, ?_, ?_, hc1, hc2, hc3, hr1, hr2, hr3⟩
  · intro h
    unfold set_capacityE at h ⊢
    by_cases h1 : new_capacity = capacity cb
    · rw [if_pos h1] at h
      simp at h
    · rw [if_neg h1] at h ⊢
      by_cases h2 : allocFail = true
      · rw [if_pos h2]
        exact ⟨rfl, Or.inl rfl⟩
      · rw [if_neg h2] at h ⊢
        cases throwAt with
        | none => simp at h
        | some k =>
          dsimp only at h ⊢
          by_cases h3 : k < min new_capacity cb.m_size
          · rw [if_pos h3]
            exact ⟨rfl, Or.inr rfl⟩
          · rw [if_neg h3] at h
            simp at h
  · intro h
    unfold set_capacityE at h ⊢
    by_cases h1 : new_capacity = capacity cb
    · rw [if_pos h1]
      show cb = set_capacity cb new_capacity
      rw [h1, hselfS]
    · rw [if_neg h1] at h ⊢
      by_cases h2 : allocFail = true
      · rw [if_pos h2] at h
        simp at h
      · rw [if_neg h2] at h ⊢
        cases throwAt with
        | none => rfl
        | some k =>
          dsimp only at h ⊢
          by_cases h3 : k < min new_capacity cb.m_size
          · rw [if_pos h3] at h
            simp at h
          · rw [if_neg h3]
  · intro h
    unfold rset_capacityE at h ⊢
    by_cases h1 : new_capacity = capacity cb
    · rw [if_pos h1] at h
      simp at h
    · rw [if_neg h1] at h ⊢
      by_cases h2 : allocFail = true
      · rw [if_pos h2]
        exact ⟨rfl, Or.inl rfl⟩
      · rw [if_neg h2] at h ⊢
        cases throwAt with
        | none => simp at h
        | some k =>
          dsimp only at h ⊢
          by_cases h3 : k < min new_capacity cb.m_size
          · rw [if_pos h3]
            exact ⟨rfl, Or.inr rfl⟩
          · rw [if_neg h3] at h
            simp at h
  · intro h
    unfold rset_capacityE at h ⊢
    by_cases h1 : new_capacity = capacity cb
    · rw [if_pos h1]
      show cb = rset_capacity cb new_capacity
      rw [h1, hselfR]
    · rw [if_neg h1] at h ⊢
      by_cases h2 : allocFail = true
      · rw [if_pos h2] at h
        simp at h
      · rw [if_neg h2] at h ⊢
        cases throwAt with
        | none => rfl
        | some k =>
          dsimp only at h ⊢
          by_cases h3 : k < min new_capacity cb.m_size
          · rw [if_pos h3] at h
            simp at h
          · rw [if_neg h3]

/-- Witness for C5: shrinking the full buffer `[1,2,3,4]` to capacity 2 with
a copy that throws at element 0 leaves the buffer untouched; without a
throw, `[3,4]` survives for `set_capacity` and `[1,2]` for `rset_capacity`. -/
theorem C5_set_capacity_strong_witness :
    (set_capacityE (⟨[some 1, some 2, some 3, some 4], 0, 0, 4⟩ :
        circular_buffer Nat) 2 false (some 0)).1 =
      ⟨[some 1, some 2, some 3, some 4], 0, 0, 4⟩ ∧
    toList (set_capacity (⟨[some 1, some 2, some 3, some 4], 0, 0, 4⟩ :
        circular_buffer Nat) 2) =
      (toList (⟨[some 1, some 2, some 3, some 4], 0, 0, 4⟩ :
        circular_buffer Nat)).drop 2 ∧
    toList (rset_capacity (⟨[some 1, some 2, some 3, some 4], 0, 0, 4⟩ :
        circular_buffer Nat) 2) =
      (toList (⟨[some 1, some 2, some 3, some 4], 0, 0, 4⟩ :
        circular_buffer Nat)).take 2 :=
  ⟨((C5_set_capacity_strong ⟨[some 1, some 2, some 3, some 4], 0, 0, 4⟩ 2
      false (some 0) (by decide)).1 (by decide)).1,
   by
    have h := (C5_set_capacity_strong (⟨[some 1, some 2, some 3, some 4], 0, 0, 4⟩ :
      circular_buffer Nat) 2 false (some 0) (by decide)).2.2.2.2.2.2.1
    exact h,
   by
    have h := (C5_set_capacity_strong (⟨[some 1, some 2, some 3, some 4], 0, 0, 4⟩ :
      circular_buffer Nat) 2 false (some 0)
      (by decide)).2.2.2.2.2.2.2.2.2
    rw [h]
    rfl⟩

/-! ## C8: iterator difference -/

theorem last_cases (cb : circular_buffer α) (hwf : wf cb) (hs : 1 ≤ cb.m_size) :
    (cb.m_first + cb.m_size < capacity cb ∧ cb.m_last = cb.m_first + cb.m_size) ∨
    (capacity cb ≤ cb.m_first + cb.m_size ∧
      cb.m_last = cb.m_first + cb.m_size - capacity cb) := by
  obtain ⟨hsz, hzero, hfl, hle, hlive⟩ := hwf
  have hcap : 0 < capacity cb := by omega
  have hf := hfl hcap
  rw [hle hcap]
  by_cases h : cb.m_first + cb.m_size < capacity cb
  · exact Or.inl ⟨h, Nat.mod_eq_of_lt h⟩
  · refine Or.inr ⟨by omega, ?_⟩
    conv_lhs => rw [show cb.m_first + cb.m_size =
      (cb.m_first + cb.m_size - capacity cb) + capacity cb by omega]
    rw [Nat.add_mod_right, Nat.mod_eq_of_lt (by omega)]

theorem add_size_eq_last (cb : circular_buffer α) (hwf : wf cb)
    (hs : 1 ≤ cb.m_size) :
    add (capacity cb) cb.m_first cb.m_size = cb.m_last := by
  have hlc := last_cases cb hwf hs
  obtain ⟨hsz, hzero, hfl, hle, hlive⟩ := hwf
  have hcap : 0 < capacity cb := by omega
  have hf := hfl hcap
  unfold add
  rcases hlc with ⟨h1, h2⟩ | ⟨h1, h2⟩
  · rw [if_pos (by omega)]
    omega
  · rw [if_neg (by omega)]
    omega

theorem helper_iterAt (cb : circular_buffer α) (hwf : wf cb) (hs : 1 ≤ cb.m_size)
    (t : Nat) (ht : t ≤ cb.m_size) :
    create_helper_pointer cb (iterAt cb t) =
      ⟨decide (t = cb.m_size), add (capacity cb) cb.m_first t⟩ := by
  have haddlast := add_size_eq_last cb hwf hs
  obtain ⟨hsz, hzero, hfl, hle, hlive⟩ := hwf
  have hcap : 0 < capacity cb := by omega
  have hf := hfl hcap
  unfold iterAt
  rw [if_neg (by omega)]
  by_cases ht0 : t = 0
  · subst ht0
    rw [if_pos rfl]
    have h1 : add (capacity cb) cb.m_first 0 = cb.m_first := by
      unfold add
      rw [if_pos (by omega)]
      omega
    unfold create_helper_pointer
    simp only [Option.isNone_some, Option.getD_some]
    rw [h1, decide_eq_false (show ¬ (0 = cb.m_size) by omega)]
  · rw [if_neg ht0]
    by_cases htl : add (capacity cb) cb.m_first t = cb.m_last
    · rw [if_pos htl]
      have hts : t = cb.m_size := by
        have htl2 : add (capacity cb) cb.m_first t =
            add (capacity cb) cb.m_first cb.m_size := by
          rw [htl, haddlast]
        unfold add at htl2
        split_ifs at htl2 <;> omega
      unfold create_helper_pointer
      simp only [Option.isNone_none, Option.getD_none]
      rw [decide_eq_true hts, htl]
    · rw [if_neg htl]
      have hts : ¬ t = cb.m_size := fun h => htl (h ▸ haddlast)
      unfold create_helper_pointer
      simp only [Option.isNone_some, Option.getD_some]
      rw [decide_eq_false hts]

set_option maxHeartbeats 1000000 in
theorem less_iterAt (cb : circular_buffer α) (hwf : wf cb) (hs : 1 ≤ cb.m_size)
    (a b : Nat) (ha : a ≤ cb.m_size) (hb : b ≤ cb.m_size) :
    less cb (create_helper_pointer cb (iterAt cb a))
      (create_helper_pointer cb (iterAt cb b)) = decide (a < b) := by
  have hlc := last_cases cb hwf hs
  rw [helper_iterAt cb hwf hs a ha, helper_iterAt cb hwf hs b hb]
  obtain ⟨hsz, hzero, hfl, hle, hlive⟩ := hwf
  have hcap : 0 < capacity cb := by omega
  have hf := hfl hcap
  unfold less add
  dsimp only
  split_ifs <;>
    (rw [Bool.eq_iff_iff] <;>
     simp only [Bool.and_eq_true, Bool.not_eq_true', decide_eq_true_eq,
       decide_eq_false_iff_not, Bool.false_eq_true, false_iff, true_iff,
       iff_true, iff_false] <;>
     omega)

set_option maxHeartbeats 1000000 in
theorem iterSub_iterAt (cb : circular_buffer α) (i j : Nat) (hwf : wf cb)
    (hij : i ≤ j) (hj : j ≤ cb.m_size) :
    iterSub cb (iterAt cb j) (iterAt cb i) = (j : Int) - (i : Int) := by
  by_cases hs : cb.m_size = 0
  · have hi0 : i = 0 := by omega
    have hj0 : j = 0 := by omega
    subst hi0
    subst hj0
    have hnone : iterAt cb 0 = none := by
      unfold iterAt
      rw [if_pos hs]
    have hlf : cb.m_last = cb.m_first := by
      obtain ⟨hsz, hzero, hfl, hle, hlive⟩ := hwf
      by_cases hc : capacity cb = 0
      · rw [(hzero hc).1, (hzero hc).2]
      · rw [hle (by omega), hs, Nat.add_zero,
          Nat.mod_eq_of_lt (hfl (by omega))]
    have hless : less cb (⟨true, cb.m_last⟩ : cb_helper_pointer)
        ⟨true, cb.m_last⟩ = false := by
      unfold less
      dsimp only
      rw [hlf, if_neg (lt_irrefl _), if_pos rfl, if_neg (lt_irrefl _), if_pos rfl]
      rfl
    simp only [iterSub, hnone]
    unfold create_helper_pointer
    simp only [Option.isNone_none, Option.getD_none]
    rw [if_neg (by rw [hless]; simp), if_neg (by rw [hless]; simp)]
    omega
  · have hs1 : 1 ≤ cb.m_size := by omega
    have hlc := last_cases cb hwf hs1
    have hhi := helper_iterAt cb hwf hs1 i (by omega)
    have hhj := helper_iterAt cb hwf hs1 j hj
    have hlt1 := less_iterAt cb hwf hs1 i j (by omega) hj
    have hlt2 := less_iterAt cb hwf hs1 j i hj (by omega)
    rw [hhi, hhj] at hlt1 hlt2
    obtain ⟨hsz, hzero, hfl, hle, hlive⟩ := hwf
    have hcap : 0 < capacity cb := by omega
    have hf := hfl hcap
    simp only [iterSub]
    rw [hhi, hhj, hlt1, hlt2]
    unfold add
    dsimp only
    split_ifs <;>
      (simp only [Bool.and_eq_true, decide_eq_true_eq] at * <;> omega)

/-- C8: for all logical indices `i <= j <= size()`, the iterator difference
`(begin() + j) - (begin() + i)` equals `j - i`; in particular
`end() - begin() == size()`, also when the live run wraps and when the
one-past-end marker (the null internal pointer, resolved through the helper
pointer's `m_end` side flag rather than pointer identity) occupies the same
physical slot as `begin()` of a full buffer. -/
theorem C8_iterator_difference (cb : circular_buffer α) (i j : Nat)
    (hwf : wf cb) (hij : i ≤ j) (hj : j ≤ size cb) :
    iterSub cb (iterAt cb j) (iterAt cb i) = (j : Int) - (i : Int) ∧
    iterSub cb (iterAt cb (size cb)) (iterAt cb 0) = (size cb : Int) := by
  refine ⟨iterSub_iterAt cb i j hwf hij hj, ?_⟩
  have h := iterSub_iterAt cb 0 (size cb) hwf (by omega) (le_refl _)
  rw [h]
  omega

/-- Witness for C8 on the wrapped full-run buffer `[1,2,3]` stored in a
block of capacity 4 starting at slot 2 (`m_last` wraps to slot 1). -/
theorem C8_iterator_difference_witness :
    iterSub (⟨[some 3, none, some 1, some 2], 2, 1, 3⟩ : circular_buffer Nat)
      (iterAt (⟨[some 3, none, some 1, some 2], 2, 1, 3⟩ : circular_buffer Nat) 3)
      (iterAt (⟨[some 3, none, some 1, some 2], 2, 1, 3⟩ : circular_buffer Nat) 1) = 2 ∧
    iterSub (⟨[some 3, none, some 1, some 2], 2, 1, 3⟩ : circular_buffer Nat)
      (iterAt (⟨[some 3, none, some 1, some 2], 2, 1, 3⟩ : circular_buffer Nat)
        (size (⟨[some 3, none, some 1, some 2], 2, 1, 3⟩ : circular_buffer Nat)))
      (iterAt (⟨[some 3, none, some 1, some 2], 2, 1, 3⟩ : circular_buffer Nat) 0) =
      (size (⟨[some 3, none, some 1, some 2], 2, 1, 3⟩ : circular_buffer Nat) : Int) :=
  C8_iterator_difference ⟨[some 3, none, some 1, some 2], 2, 1, 3⟩ 1 3
    (by decide) (by decide) (by decide)

/-! ## C6 and C7: the space-optimized capacity heuristics -/

theorem foldl_step_preserves {γ : Type}
    (f : (circular_buffer α × List (SlotOp α)) → γ →
      (circular_buffer α × List (SlotOp α)))
    (hf : ∀ acc x, (f acc x).1.m_first = acc.1.m_first ∧
      (f acc x).1.m_last = acc.1.m_last ∧
      (f acc x).1.m_size = acc.1.m_size ∧
      (f acc x).1.buff.length = acc.1.buff.length)
    (l : List γ) (init : circular_buffer α × List (SlotOp α)) :
    (l.foldl f init).1.m_first = init.1.m_first ∧
    (l.foldl f init).1.m_last = init.1.m_last ∧
    (l.foldl f init).1.m_size = init.1.m_size ∧
    (l.foldl f init).1.buff.length = init.1.buff.length := by
  induction l generalizing init with
  | nil => exact ⟨rfl, rfl, rfl, rfl⟩
  | cons x xs ih =>
    rw [List.foldl_cons]
    obtain ⟨a, b, c, d⟩ := ih (f init x)
    obtain ⟨a2, b2, c2, d2⟩ := hf init x
    exact ⟨a.trans a2, b.trans b2, c.trans c2, d.trans d2⟩

theorem insertShiftStep_preserves (cb0 : circular_buffer α) (n : Nat)
    (acc : circular_buffer α × List (SlotOp α)) (j : Nat) :
    (insertShiftStep cb0 n acc j).1.m_first = acc.1.m_first ∧
    (insertShiftStep cb0 n acc j).1.m_last = acc.1.m_last ∧
    (insertShiftStep cb0 n acc j).1.m_size = acc.1.m_size ∧
    (insertShiftStep cb0 n acc j).1.buff.length = acc.1.buff.length := by
  unfold insertShiftStep
  dsimp only
  split_ifs <;> exact ⟨rfl, rfl, rfl, List.length_set _ _ _⟩

theorem insertWriteStep_preserves (cb0 : circular_buffer α) (pos : Nat) (item : α)
    (acc : circular_buffer α × List (SlotOp α)) (i : Nat) :
    (insertWriteStep cb0 pos item acc i).1.m_first = acc.1.m_first ∧
    (insertWriteStep cb0 pos item acc i).1.m_last = acc.1.m_last ∧
    (insertWriteStep cb0 pos item acc i).1.m_size = acc.1.m_size ∧
    (insertWriteStep cb0 pos item acc i).1.buff.length = acc.1.buff.length := by
  unfold insertWriteStep
  dsimp only
  split_ifs <;> exact ⟨rfl, rfl, rfl, List.length_set _ _ _⟩

theorem insertEndStep_preserves (cb0 : circular_buffer α) (c0 : Nat) (item : α)
    (acc : circular_buffer α × List (SlotOp α)) (i : Nat) :
    (insertEndStep cb0 c0 item acc i).1.m_first = acc.1.m_first ∧
    (insertEndStep cb0 c0 item acc i).1.m_last = acc.1.m_last ∧
    (insertEndStep cb0 c0 item acc i).1.m_size = acc.1.m_size ∧
    (insertEndStep cb0 c0 item acc i).1.buff.length = acc.1.buff.length := by
  unfold insertEndStep
  dsimp only
  split_ifs <;> exact ⟨rfl, rfl, rfl, List.length_set _ _ _⟩

theorem rinsertShiftStep_preserves (cb0 : circular_buffer α) (n : Nat)
    (acc : circular_buffer α × List (SlotOp α)) (j : Nat) :
    (rinsertShiftStep cb0 n acc j).1.m_first = acc.1.m_first ∧
    (rinsertShiftStep cb0 n acc j).1.m_last = acc.1.m_last ∧
    (rinsertShiftStep cb0 n acc j).1.m_size = acc.1.m_size ∧
    (rinsertShiftStep cb0 n acc j).1.buff.length = acc.1.buff.length := by
  unfold rinsertShiftStep
  dsimp only
  split_ifs <;> exact ⟨rfl, rfl, rfl, List.length_set _ _ _⟩

theorem rinsertWriteStep_preserves (cb0 : circular_buffer α) (pos n : Nat) (item : α)
    (acc : circular_buffer α × List (SlotOp α)) (i : Nat) :
    (rinsertWriteStep cb0 pos n item acc i).1.m_first = acc.1.m_first ∧
    (rinsertWriteStep cb0 pos n item acc i).1.m_last = acc.1.m_last ∧
    (rinsertWriteStep cb0 pos n item acc i).1.m_size = acc.1.m_size ∧
    (rinsertWriteStep cb0 pos n item acc i).1.buff.length = acc.1.buff.length := by
  unfold rinsertWriteStep
  dsimp only
  split_ifs <;> exact ⟨rfl, rfl, rfl, List.length_set _ _ _⟩

theorem rinsertBeginStep_preserves (cb0 : circular_buffer α) (n c0 : Nat) (item : α)
    (acc : circular_buffer α × List (SlotOp α)) (i : Nat) :
    (rinsertBeginStep cb0 n c0 item acc i).1.m_first = acc.1.m_first ∧
    (rinsertBeginStep cb0 n c0 item acc i).1.m_last = acc.1.m_last ∧
    (rinsertBeginStep cb0 n c0 item acc i).1.m_size = acc.1.m_size ∧
    (rinsertBeginStep cb0 n c0 item acc i).1.buff.length = acc.1.buff.length := by
  unfold rinsertBeginStep
  dsimp only
  split_ifs <;> exact ⟨rfl, rfl, rfl, List.length_set _ _ _⟩

theorem eraseRangeShiftStep_preserves (cb0 : circular_buffer α) (a b : Nat)
    (acc : circular_buffer α × List (SlotOp α)) (j : Nat) :
    (eraseRangeShiftStep cb0 a b acc j).1.m_first = acc.1.m_first ∧
    (eraseRangeShiftStep cb0 a b acc j).1.m_last = acc.1.m_last ∧
    (eraseRangeShiftStep cb0 a b acc j).1.m_size = acc.1.m_size ∧
    (eraseRangeShiftStep cb0 a b acc j).1.buff.length = acc.1.buff.length :=
  ⟨rfl, rfl, rfl, List.length_set _ _ _⟩

theorem eraseRangeDestroyStep_preserves (cb0 : circular_buffer α)
    (acc : circular_buffer α × List (SlotOp α)) (k : Nat) :
    (eraseRangeDestroyStep cb0 acc k).1.m_first = acc.1.m_first ∧
    (eraseRangeDestroyStep cb0 acc k).1.m_last = acc.1.m_last ∧
    (eraseRangeDestroyStep cb0 acc k).1.m_size = acc.1.m_size ∧
    (eraseRangeDestroyStep cb0 acc k).1.buff.length = acc.1.buff.length :=
  ⟨rfl, rfl, rfl, List.length_set _ _ _⟩

theorem reraseRangeShiftStep_preserves (cb0 : circular_buffer α) (a b : Nat)
    (acc : circular_buffer α × List (SlotOp α)) (j : Nat) :
    (reraseRangeShiftStep cb0 a b acc j).1.m_first = acc.1.m_first ∧
    (reraseRangeShiftStep cb0 a b acc j).1.m_last = acc.1.m_last ∧
    (reraseRangeShiftStep cb0 a b acc j).1.m_size = acc.1.m_size ∧
    (reraseRangeShiftStep cb0 a b acc j).1.buff.length = acc.1.buff.length :=
  ⟨rfl, rfl, rfl, List.length_set _ _ _⟩

theorem reraseRangeDestroyStep_preserves (cb0 : circular_buffer α)
    (acc : circular_buffer α × List (SlotOp α)) (k : Nat) :
    (reraseRangeDestroyStep cb0 acc k).1.m_first = acc.1.m_first ∧
    (reraseRangeDestroyStep cb0 acc k).1.m_last = acc.1.m_last ∧
    (reraseRangeDestroyStep cb0 acc k).1.m_size = acc.1.m_size ∧
    (reraseRangeDestroyStep cb0 acc k).1.buff.length = acc.1.buff.length :=
  ⟨rfl, rfl, rfl, List.length_set _ _ _⟩

theorem insert_n_fields (cb : circular_buffer α) (pos n : Nat) (item : α) :
    capacity (insert_n cb pos n item).1 = capacity cb ∧
    (insert_n cb pos n item).1.m_size =
      cb.m_size + min (capacity cb - cb.m_size) n := by
  refine ⟨?_, rfl⟩
  show (if pos = cb.m_size then
      (List.range n).foldl (insertEndStep cb (min (capacity cb - cb.m_size) n) item)
        (cb, [])
    else
      (List.range n).foldl (insertWriteStep cb pos item)
        ((List.range (cb.m_size - pos)).foldl (insertShiftStep cb n)
          (cb, []))).1.buff.length = capacity cb
  split_ifs
  · exact (foldl_step_preserves _ (insertEndStep_preserves cb _ item) _ _).2.2.2
  · exact ((foldl_step_preserves _ (insertWriteStep_preserves cb pos item) _ _).2.2.2).trans
      (foldl_step_preserves _ (insertShiftStep_preserves cb n) _ _).2.2.2

theorem insert_fields (cb : circular_buffer α) (pos n : Nat) (item : α) :
    capacity (insert cb pos n item).1 = capacity cb ∧
    ((insert cb pos n item).1.m_size = cb.m_size ∨
     (insert cb pos n item).1.m_size =
       cb.m_size + min (capacity cb - cb.m_size)
         (min n (capacity cb - (cb.m_size - pos)))) := by
  unfold insert
  split_ifs
  · exact ⟨rfl, Or.inl rfl⟩
  · exact ⟨rfl, Or.inl rfl⟩
  · obtain ⟨h1, h2⟩ := insert_n_fields cb pos
      (min n (capacity cb - (cb.m_size - pos))) item
    exact ⟨h1, Or.inr h2⟩

theorem rinsert_n_fields (cb : circular_buffer α) (pos n : Nat) (item : α) :
    capacity (rinsert_n cb pos n item).1 = capacity cb ∧
    ((rinsert_n cb pos n item).1.m_size = cb.m_size ∨
     (rinsert_n cb pos n item).1.m_size =
       cb.m_size + min (capacity cb - cb.m_size) (min n (capacity cb - pos))) := by
  unfold rinsert_n
  split_ifs
  · exact ⟨rfl, Or.inl rfl⟩
  · exact ⟨rfl, Or.inl rfl⟩
  · refine ⟨?_, Or.inr rfl⟩
    exact (foldl_step_preserves _ (rinsertBeginStep_preserves cb _ _ item) _ _).2.2.2
  · refine ⟨?_, Or.inr rfl⟩
    exact ((foldl_step_preserves _ (rinsertWriteStep_preserves cb pos _ item) _ _).2.2.2).trans
      (foldl_step_preserves _ (rinsertShiftStep_preserves cb _) _ _).2.2.2

theorem erase_range_fields (cb : circular_buffer α) (a b : Nat) :
    capacity (erase_range cb a b).1 = capacity cb ∧
    ((erase_range cb a b).1.m_size = cb.m_size ∨
     (erase_range cb a b).1.m_size = cb.m_size - (b - a)) := by
  unfold erase_range
  split_ifs
  · exact ⟨rfl, Or.inl rfl⟩
  · refine ⟨?_, Or.inr rfl⟩
    show ((List.range (b - a)).foldl (eraseRangeDestroyStep cb)
      ((List.range (cb.m_size - b)).foldl (eraseRangeShiftStep cb a b)
        (cb, []))).1.buff.length = capacity cb
    exact ((foldl_step_preserves _ (eraseRangeDestroyStep_preserves cb) _ _).2.2.2).trans
      (foldl_step_preserves _ (eraseRangeShiftStep_preserves cb a b) _ _).2.2.2

theorem rerase_range_fields (cb : circular_buffer α) (a b : Nat) :
    capacity (rerase_range cb a b).1 = capacity cb ∧
    ((rerase_range cb a b).1.m_size = cb.m_size ∨
     (rerase_range cb a b).1.m_size = cb.m_size - (b - a)) := by
  unfold rerase_range
  split_ifs
  · exact ⟨rfl, Or.inl rfl⟩
  · refine ⟨?_, Or.inr rfl⟩
    show ((List.range (b - a)).foldl (reraseRangeDestroyStep cb)
      ((List.range a).foldl (reraseRangeShiftStep cb a b)
        (cb, []))).1.buff.length = capacity cb
    exact ((foldl_step_preserves _ (reraseRangeDestroyStep_preserves cb) _ _).2.2.2).trans
      (foldl_step_preserves _ (reraseRangeShiftStep_preserves cb a b) _ _).2.2.2

theorem push_back_fields (cb : circular_buffer α) (item : α) :
    capacity (push_back cb item).1 = capacity cb ∧
    ((cb.m_size = capacity cb ∧ (push_back cb item).1.m_size = cb.m_size) ∨
     (cb.m_size ≠ capacity cb ∧ (push_back cb item).1.m_size = cb.m_size + 1)) := by
  unfold push_back
  split_ifs with h1 h2
  · exact ⟨rfl, Or.inl ⟨h1, rfl⟩⟩
  · exact ⟨List.length_set _ _ _, Or.inl ⟨h1, rfl⟩⟩
  · exact ⟨List.length_set _ _ _, Or.inr ⟨h1, rfl⟩⟩

theorem push_front_fields (cb : circular_buffer α) (item : α) :
    capacity (push_front cb item).1 = capacity cb ∧
    ((cb.m_size = capacity cb ∧ (push_front cb item).1.m_size = cb.m_size) ∨
     (cb.m_size ≠ capacity cb ∧ (push_front cb item).1.m_size = cb.m_size + 1)) := by
  unfold push_front
  split_ifs with h1 h2
  · exact ⟨rfl, Or.inl ⟨h1, rfl⟩⟩
  · exact ⟨List.length_set _ _ _, Or.inl ⟨h1, rfl⟩⟩
  · exact ⟨List.length_set _ _ _, Or.inr ⟨h1, rfl⟩⟩

theorem pop_back_fields (cb : circular_buffer α) :
    capacity (pop_back cb).1 = capacity cb ∧
    (pop_back cb).1.m_size = cb.m_size - 1 :=
  ⟨List.length_set _ _ _, rfl⟩

theorem pop_front_fields (cb : circular_buffer α) :
    capacity (pop_front cb).1 = capacity cb ∧
    (pop_front cb).1.m_size = cb.m_size - 1 :=
  ⟨List.length_set _ _ _, rfl⟩

theorem erase_fields (cb : circular_buffer α) (pos : Nat) :
    capacity (erase cb pos).1 = capacity cb ∧
    (erase cb pos).1.m_size = cb.m_size - 1 := by
  refine ⟨?_, rfl⟩
  show (((List.range (cb.m_size - (pos + 1))).foldl (eraseStep cb pos)
      (cb, [])).1.buff.set (decrement (capacity cb) cb.m_last) none).length =
    capacity cb
  rw [List.length_set]
  exact (foldl_step_preserves _ (fun acc i => by
    rw [eraseStep_eq]
    exact ⟨rfl, rfl, rfl, List.length_set _ _ _⟩) _ _).2.2.2

theorem rerase_fields (cb : circular_buffer α) (pos : Nat) :
    capacity (rerase cb pos).1 = capacity cb ∧
    (rerase cb pos).1.m_size = cb.m_size - 1 := by
  refine ⟨?_, rfl⟩
  show (((List.range pos).foldl (reraseStep cb pos)
      (cb, [])).1.buff.set cb.m_first none).length = capacity cb
  rw [List.length_set]
  exact (foldl_step_preserves _ (fun acc i => by
    rw [reraseStep_eq]
    exact ⟨rfl, rfl, rfl, List.length_set _ _ _⟩) _ _).2.2.2

theorem set_capacity_fields (cb : circular_buffer α) (n : Nat)
    (hsz : cb.m_size ≤ capacity cb) :
    capacity (set_capacity cb n) = n ∧
    (set_capacity cb n).m_size = min n cb.m_size := by
  unfold set_capacity
  split_ifs with h
  · exact ⟨h.symm, by omega⟩
  all_goals
    refine ⟨?_, rfl⟩
  all_goals
    show ((List.range (min n cb.m_size)).map
        (fun i => getAt cb (cb.m_size - min n cb.m_size + i)) ++
      List.replicate (n - min n cb.m_size) none).length = n
    rw [List.length_append, List.length_map, List.length_range,
      List.length_replicate]
    omega

theorem set_capacity_self (cb : circular_buffer α) :
    set_capacity cb (capacity cb) = cb := by
  unfold set_capacity
  rw [if_pos rfl]

theorem ensure_reserve_le (L nc sz : Nat) : ensure_reserve L nc sz ≤ L := by
  simp only [ensure_reserve]
  split_ifs <;> omega

theorem ensure_reserve_ge (L nc sz : Nat) (h : nc ≤ L) :
    nc ≤ ensure_reserve L nc sz := by
  simp only [ensure_reserve]
  split_ifs <;> omega

theorem shrink_loop_bounds (sz min_cap : Nat) :
    ∀ c, min_cap ≤ c →
      min_cap ≤ shrink_loop sz min_cap c ∧ shrink_loop sz min_cap c ≤ c := by
  intro c
  induction c using Nat.strong_induction_on with
  | _ c ih =>
    intro hm
    unfold shrink_loop
    split_ifs with h1 h2
    · omega
    · have := ih (c / 2) (by omega) (by omega)
      omega
    · omega

theorem shrink_loop_ge_size (sz min_cap : Nat) (hs : 1 ≤ sz) :
    ∀ c, sz ≤ c → sz ≤ shrink_loop sz min_cap c := by
  intro c
  induction c using Nat.strong_induction_on with
  | _ c ih =>
    intro hc
    unfold shrink_loop
    split_ifs with h1 h2
    · omega
    · exact ih (c / 2) (by omega) (by omega)
    · omega

theorem shrink_loop_halved (sz min_cap c : Nat) (h3 : sz ≤ c / 3)
    (hm : min_cap ≤ c) :
    shrink_loop sz min_cap c ≤ max min_cap (c / 2) := by
  unfold shrink_loop
  rw [if_pos (by omega)]
  split_ifs with h2
  · omega
  · have := (shrink_loop_bounds sz min_cap (c / 2) (by omega)).2
    omega

theorem shrink_loop_no_trigger (sz min_cap c : Nat) (h3 : c / 3 < sz) :
    shrink_loop sz min_cap c = c := by
  unfold shrink_loop
  rw [if_neg (by omega)]

theorem grow_loop_ge_self_aux (new_size : Nat) :
    ∀ k c, new_size - c ≤ k → c ≤ grow_loop new_size c := by
  intro k
  induction k with
  | zero =>
    intro c hc
    unfold grow_loop
    rw [if_neg (by omega)]
  | succ k ih =>
    intro c hc
    unfold grow_loop
    split_ifs with h
    · exact le_trans (by omega) (ih (c * 2) (by omega))
    · exact le_refl c

theorem grow_loop_ge_self (new_size c : Nat) : c ≤ grow_loop new_size c :=
  grow_loop_ge_self_aux new_size new_size c (by omega)

theorem grow_loop_ge_new_aux (new_size : Nat) :
    ∀ k c, new_size - c ≤ k → 1 ≤ c → new_size ≤ grow_loop new_size c := by
  intro k
  induction k with
  | zero =>
    intro c hc h1
    unfold grow_loop
    rw [if_neg (by omega)]
    omega
  | succ k ih =>
    intro c hc h1
    unfold grow_loop
    split_ifs with h
    · exact ih (c * 2) (by omega) (by omega)
    · omega

theorem grow_loop_ge_new (new_size c : Nat) (h1 : 1 ≤ c) :
    new_size ≤ grow_loop new_size c :=
  grow_loop_ge_new_aux new_size new_size c (by omega) h1

theorem check_high_capacity_fields (so : circular_buffer_space_optimized α)
    (hinv : SOInv so) :
    capacity (check_high_capacity so).inner =
      ensure_reserve so.m_capacity_ctrl.m_capacity
        (shrink_loop so.inner.m_size so.m_capacity_ctrl.m_min_capacity
          (capacity so.inner)) so.inner.m_size ∧
    (check_high_capacity so).inner.m_size = so.inner.m_size ∧
    (check_high_capacity so).m_capacity_ctrl = so.m_capacity_ctrl := by
  obtain ⟨h1, h2, h3⟩ := hinv
  obtain ⟨hc, hsz⟩ := set_capacity_fields so.inner
    (ensure_reserve so.m_capacity_ctrl.m_capacity
      (shrink_loop so.inner.m_size so.m_capacity_ctrl.m_min_capacity
        (capacity so.inner)) so.inner.m_size) h1
  refine ⟨hc, ?_, rfl⟩
  show (set_capacity so.inner _).m_size = so.inner.m_size
  rw [hsz]
  rcases Nat.eq_zero_or_pos so.inner.m_size with h0 | h0
  · omega
  · have hge := shrink_loop_ge_size so.inner.m_size
      so.m_capacity_ctrl.m_min_capacity h0 (capacity so.inner) h1
    have hle := (shrink_loop_bounds so.inner.m_size
      so.m_capacity_ctrl.m_min_capacity (capacity so.inner) h3).2
    have := ensure_reserve_ge so.m_capacity_ctrl.m_capacity
      (shrink_loop so.inner.m_size so.m_capacity_ctrl.m_min_capacity
        (capacity so.inner)) so.inner.m_size (by omega)
    omega

theorem SOInv_check_high (so : circular_buffer_space_optimized α)
    (hinv : SOInv so) : SOInv (check_high_capacity so) := by
  obtain ⟨hf1, hf2, hf3⟩ := check_high_capacity_fields so hinv
  obtain ⟨h1, h2, h3⟩ := hinv
  have hb := shrink_loop_bounds so.inner.m_size
    so.m_capacity_ctrl.m_min_capacity (capacity so.inner) h3
  have hle := ensure_reserve_le so.m_capacity_ctrl.m_capacity
    (shrink_loop so.inner.m_size so.m_capacity_ctrl.m_min_capacity
      (capacity so.inner)) so.inner.m_size
  have hge := ensure_reserve_ge so.m_capacity_ctrl.m_capacity
    (shrink_loop so.inner.m_size so.m_capacity_ctrl.m_min_capacity
      (capacity so.inner)) so.inner.m_size (by omega)
  have hsz : (check_high_capacity so).inner.m_size ≤
      capacity (check_high_capacity so).inner := by
    have : (check_high_capacity so).inner.m_size =
        min (ensure_reserve so.m_capacity_ctrl.m_capacity
          (shrink_loop so.inner.m_size so.m_capacity_ctrl.m_min_capacity
            (capacity so.inner)) so.inner.m_size) so.inner.m_size :=
      (set_capacity_fields so.inner _ h1).2
    rw [this, hf1]
    omega
  rw [SOInv, hf1, hf3]
  exact ⟨by rw [← hf1]; exact hsz, hle, by omega⟩

theorem check_low_capacity_fields (so : circular_buffer_space_optimized α)
    (hinv : SOInv so) (n : Nat) :
    capacity (check_low_capacity so n).inner =
      (if so.inner.m_size + n > capacity so.inner then
        ensure_reserve so.m_capacity_ctrl.m_capacity
          (grow_loop (so.inner.m_size + n)
            (if capacity so.inner = 0 then 1 else capacity so.inner))
          (so.inner.m_size + n)
      else capacity so.inner) ∧
    (check_low_capacity so n).inner.m_size = so.inner.m_size ∧
    (check_low_capacity so n).m_capacity_ctrl = so.m_capacity_ctrl := by
  obtain ⟨h1, h2, h3⟩ := hinv
  unfold check_low_capacity
  generalize hc1 : (if capacity so.inner = 0 then 1 else capacity so.inner) = c1
  have hc1pos : 1 ≤ c1 := by
    rw [← hc1]
    split_ifs <;> omega
  split_ifs with h
  · obtain ⟨hc, hsz⟩ := set_capacity_fields so.inner
      (ensure_reserve so.m_capacity_ctrl.m_capacity
        (grow_loop (so.inner.m_size + n) c1) (so.inner.m_size + n)) h1
    refine ⟨hc, ?_, rfl⟩
    show (set_capacity so.inner _).m_size = so.inner.m_size
    rw [hsz]
    have hgrow := grow_loop_ge_new (so.inner.m_size + n) c1 hc1pos
    have hcases : ensure_reserve so.m_capacity_ctrl.m_capacity
        (grow_loop (so.inner.m_size + n) c1) (so.inner.m_size + n) =
          so.m_capacity_ctrl.m_capacity ∨
        grow_loop (so.inner.m_size + n) c1 ≤
          ensure_reserve so.m_capacity_ctrl.m_capacity
            (grow_loop (so.inner.m_size + n) c1) (so.inner.m_size + n) := by
      simp only [ensure_reserve]
      split_ifs <;> omega
    omega
  · exact ⟨rfl, rfl, rfl⟩

theorem SOInv_check_low (so : circular_buffer_space_optimized α)
    (hinv : SOInv so) (n : Nat) : SOInv (check_low_capacity so n) := by
  obtain ⟨hf1, hf2, hf3⟩ := check_low_capacity_fields so hinv n
  obtain ⟨h1, h2, h3⟩ := hinv
  rw [SOInv, hf1, hf2, hf3]
  generalize hc1 : (if capacity so.inner = 0 then 1 else capacity so.inner) = c1
  have hc1pos : 1 ≤ c1 := by
    rw [← hc1]
    split_ifs <;> omega
  have hc1split : c1 = 1 ∧ capacity so.inner = 0 ∨ c1 = capacity so.inner := by
    rw [← hc1]
    split_ifs with h0
    · exact Or.inl ⟨rfl, h0⟩
    · exact Or.inr rfl
  split_ifs with h
  · have hgrow := grow_loop_ge_new (so.inner.m_size + n) c1 hc1pos
    have hle := ensure_reserve_le so.m_capacity_ctrl.m_capacity
      (grow_loop (so.inner.m_size + n) c1) (so.inner.m_size + n)
    have hcases : ensure_reserve so.m_capacity_ctrl.m_capacity
        (grow_loop (so.inner.m_size + n) c1) (so.inner.m_size + n) =
          so.m_capacity_ctrl.m_capacity ∨
        grow_loop (so.inner.m_size + n) c1 ≤
          ensure_reserve so.m_capacity_ctrl.m_capacity
            (grow_loop (so.inner.m_size + n) c1) (so.inner.m_size + n) := by
      simp only [ensure_reserve]
      split_ifs <;> omega
    omega
  · exact ⟨h1, h2, h3⟩

theorem shrink_loop_eq (sz min_cap c : Nat) :
    shrink_loop sz min_cap c =
      if c / 3 ≥ sz then
        if c / 2 ≤ min_cap then min_cap else shrink_loop sz min_cap (c / 2)
      else c := by
  rw [shrink_loop]

theorem grow_loop_eq (new_size c : Nat) :
    grow_loop new_size c =
      if 0 < c ∧ new_size > c then grow_loop new_size (c * 2) else c := by
  rw [grow_loop]

theorem SOInv_update_inner (so : circular_buffer_space_optimized α)
    (cb : circular_buffer α) (hinv : SOInv so)
    (hcap : capacity cb = capacity so.inner)
    (hsz : cb.m_size ≤ capacity cb) :
    SOInv { so with inner := cb } := by
  obtain ⟨h1, h2, h3⟩ := hinv
  refine ⟨hsz, ?_, ?_⟩
  · show capacity cb ≤ so.m_capacity_ctrl.m_capacity
    omega
  · show so.m_capacity_ctrl.m_min_capacity ≤ capacity cb
    omega

theorem assign_fields (nc n : Nat) (item : α) (h : n ≤ nc) :
    capacity (assign nc n item : circular_buffer α) = nc ∧
    (assign nc n item : circular_buffer α).m_size = n := by
  refine ⟨?_, rfl⟩
  show (List.replicate n (some item) ++ List.replicate (nc - n) none).length = nc
  rw [List.length_append, List.length_replicate, List.length_replicate]
  omega

theorem SOInv_so_push_back (so : circular_buffer_space_optimized α) (item : α)
    (hinv : SOInv so) : SOInv (so_push_back so item) := by
  obtain ⟨h1, h2, h3⟩ := SOInv_check_low so hinv 1
  obtain ⟨hc, hsz⟩ := push_back_fields (check_low_capacity so 1).inner item
  show SOInv { check_low_capacity so 1 with
    inner := (push_back (check_low_capacity so 1).inner item).1 }
  apply SOInv_update_inner _ _ ⟨h1, h2, h3⟩ hc
  rw [hc]
  rcases hsz with ⟨he, h⟩ | ⟨he, h⟩ <;> omega

theorem SOInv_so_push_front (so : circular_buffer_space_optimized α) (item : α)
    (hinv : SOInv so) : SOInv (so_push_front so item) := by
  obtain ⟨h1, h2, h3⟩ := SOInv_check_low so hinv 1
  obtain ⟨hc, hsz⟩ := push_front_fields (check_low_capacity so 1).inner item
  show SOInv { check_low_capacity so 1 with
    inner := (push_front (check_low_capacity so 1).inner item).1 }
  apply SOInv_update_inner _ _ ⟨h1, h2, h3⟩ hc
  rw [hc]
  rcases hsz with ⟨he, h⟩ | ⟨he, h⟩ <;> omega

theorem SOInv_so_pop_back (so : circular_buffer_space_optimized α)
    (hinv : SOInv so) : SOInv (so_pop_back so) := by
  obtain ⟨h1, h2, h3⟩ := hinv
  obtain ⟨hc, hsz⟩ := pop_back_fields so.inner
  exact SOInv_check_high _
    (SOInv_update_inner so _ ⟨h1, h2, h3⟩ hc (by rw [hc, hsz]; omega))

theorem SOInv_so_pop_front (so : circular_buffer_space_optimized α)
    (hinv : SOInv so) : SOInv (so_pop_front so) := by
  obtain ⟨h1, h2, h3⟩ := hinv
  obtain ⟨hc, hsz⟩ := pop_front_fields so.inner
  exact SOInv_check_high _
    (SOInv_update_inner so _ ⟨h1, h2, h3⟩ hc (by rw [hc, hsz]; omega))

theorem SOInv_so_insert (so : circular_buffer_space_optimized α) (pos n : Nat)
    (item : α) (hinv : SOInv so) : SOInv (so_insert so pos n item) := by
  obtain ⟨h1, h2, h3⟩ := SOInv_check_low so hinv n
  obtain ⟨hc, hsz⟩ := insert_fields (check_low_capacity so n).inner pos n item
  show SOInv { check_low_capacity so n with
    inner := (insert (check_low_capacity so n).inner pos n item).1 }
  apply SOInv_update_inner _ _ ⟨h1, h2, h3⟩ hc
  rw [hc]
  rcases hsz with h | h <;> rw [h] <;> omega

theorem SOInv_so_rinsert (so : circular_buffer_space_optimized α) (pos n : Nat)
    (item : α) (hinv : SOInv so) : SOInv (so_rinsert so pos n item) := by
  obtain ⟨h1, h2, h3⟩ := SOInv_check_low so hinv n
  obtain ⟨hc, hsz⟩ := rinsert_n_fields (check_low_capacity so n).inner pos n item
  show SOInv { check_low_capacity so n with
    inner := (rinsert_n (check_low_capacity so n).inner pos n item).1 }
  apply SOInv_update_inner _ _ ⟨h1, h2, h3⟩ hc
  rw [hc]
  rcases hsz with h | h <;> rw [h] <;> omega

theorem SOInv_so_erase (so : circular_buffer_space_optimized α) (pos : Nat)
    (hinv : SOInv so) : SOInv (so_erase so pos) := by
  obtain ⟨h1, h2, h3⟩ := hinv
  obtain ⟨hc, hsz⟩ := erase_fields so.inner pos
  exact SOInv_check_high _
    (SOInv_update_inner so _ ⟨h1, h2, h3⟩ hc (by rw [hc, hsz]; omega))

theorem SOInv_so_rerase (so : circular_buffer_space_optimized α) (pos : Nat)
    (hinv : SOInv so) : SOInv (so_rerase so pos) := by
  obtain ⟨h1, h2, h3⟩ := hinv
  obtain ⟨hc, hsz⟩ := rerase_fields so.inner pos
  exact SOInv_check_high _
    (SOInv_update_inner so _ ⟨h1, h2, h3⟩ hc (by rw [hc, hsz]; omega))

theorem SOInv_so_erase_range (so : circular_buffer_space_optimized α) (a b : Nat)
    (hinv : SOInv so) : SOInv (so_erase_range so a b) := by
  obtain ⟨h1, h2, h3⟩ := hinv
  obtain ⟨hc, hsz⟩ := erase_range_fields so.inner a b
  refine SOInv_check_high _
    (SOInv_update_inner so _ ⟨h1, h2, h3⟩ hc ?_)
  rw [hc]
  rcases hsz with h | h <;> rw [h] <;> omega

theorem SOInv_so_rerase_range (so : circular_buffer_space_optimized α) (a b : Nat)
    (hinv : SOInv so) : SOInv (so_rerase_range so a b) := by
  obtain ⟨h1, h2, h3⟩ := hinv
  obtain ⟨hc, hsz⟩ := rerase_range_fields so.inner a b
  refine SOInv_check_high _
    (SOInv_update_inner so _ ⟨h1, h2, h3⟩ hc ?_)
  rw [hc]
  rcases hsz with h | h <;> rw [h] <;> omega

theorem SOInv_set_min_capacity (so : circular_buffer_space_optimized α)
    (new_min : Nat)
    (h1 : so.inner.m_size ≤ capacity so.inner)
    (h2 : capacity so.inner ≤ so.m_capacity_ctrl.m_capacity)
    (hnm : new_min ≤ so.m_capacity_ctrl.m_capacity)
    (hd : so.m_capacity_ctrl.m_min_capacity ≤ new_min ∨
      so.m_capacity_ctrl.m_min_capacity ≤ capacity so.inner) :
    SOInv (set_min_capacity so new_min) := by
  unfold set_min_capacity
  split_ifs with h
  · obtain ⟨hc, hsz⟩ := set_capacity_fields so.inner new_min h1
    refine ⟨?_, ?_, ?_⟩
    · show (set_capacity so.inner new_min).m_size ≤
        capacity (set_capacity so.inner new_min)
      rw [hc, hsz]
      omega
    · show capacity (set_capacity so.inner new_min) ≤
        so.m_capacity_ctrl.m_capacity
      rw [hc]
      omega
    · show so.m_capacity_ctrl.m_min_capacity ≤
        capacity (set_capacity so.inner new_min)
      rw [hc]
      omega
  · exact SOInv_check_high so ⟨h1, h2, by omega⟩

theorem SOInv_so_set_capacity (so : circular_buffer_space_optimized α)
    (ctrl : capacity_control) (hinv : SOInv so)
    (hctrl : ctrl.m_min_capacity ≤ ctrl.m_capacity) :
    SOInv (so_set_capacity so ctrl) := by
  obtain ⟨h1, h2, h3⟩ := hinv
  unfold so_set_capacity
  dsimp only
  split_ifs with h
  · obtain ⟨hc, hsz⟩ := set_capacity_fields so.inner ctrl.m_capacity h1
    apply SOInv_set_min_capacity
    · show (set_capacity so.inner ctrl.m_capacity).m_size ≤
        capacity (set_capacity so.inner ctrl.m_capacity)
      rw [hc, hsz]
      omega
    · show capacity (set_capacity so.inner ctrl.m_capacity) ≤ ctrl.m_capacity
      rw [hc]
    · exact hctrl
    · exact Or.inl (le_refl _)
  · apply SOInv_set_min_capacity
    · exact h1
    · show capacity so.inner ≤ ctrl.m_capacity
      omega
    · exact hctrl
    · exact Or.inl (le_refl _)

theorem SOInv_so_assign (so : circular_buffer_space_optimized α) (n : Nat)
    (item : α) : SOInv (so_assign so n item) := by
  obtain ⟨hc, hsz⟩ := assign_fields n n item (le_refl n)
  refine ⟨?_, ?_, ?_⟩
  · show (assign n n item : circular_buffer α).m_size ≤
      capacity (assign n n item : circular_buffer α)
    omega
  · show capacity (assign n n item : circular_buffer α) ≤ n
    omega
  · show 0 ≤ capacity (assign n n item : circular_buffer α)
    omega

theorem SOInv_so_assign_ctrl (so : circular_buffer_space_optimized α)
    (ctrl : capacity_control) (n : Nat) (item : α)
    (hn : n ≤ ctrl.m_capacity) (hmc : ctrl.m_min_capacity ≤ ctrl.m_capacity) :
    SOInv (so_assign_ctrl so ctrl n item) := by
  obtain ⟨hc, hsz⟩ := assign_fields (max ctrl.m_min_capacity n) n item
    (le_max_right _ _)
  refine ⟨?_, ?_, ?_⟩
  · show (assign (max ctrl.m_min_capacity n) n item : circular_buffer α).m_size ≤
      capacity (assign (max ctrl.m_min_capacity n) n item : circular_buffer α)
    omega
  · show capacity (assign (max ctrl.m_min_capacity n) n item : circular_buffer α) ≤
      ctrl.m_capacity
    omega
  · show ctrl.m_min_capacity ≤
      capacity (assign (max ctrl.m_min_capacity n) n item : circular_buffer α)
    omega

theorem SOInv_so_resize (so : circular_buffer_space_optimized α)
    (new_size : Nat) (item : α) (hinv : SOInv so) :
    SOInv (so_resize so new_size item) := by
  obtain ⟨h1, h2, h3⟩ := hinv
  unfold so_resize
  dsimp only
  split_ifs with hgt hcap
  · apply SOInv_so_insert
    refine ⟨h1, ?_, h3⟩
    show capacity so.inner ≤ new_size
    omega
  · exact SOInv_so_insert so _ _ item ⟨h1, h2, h3⟩
  · exact SOInv_so_erase_range so new_size so.inner.m_size ⟨h1, h2, h3⟩

theorem check_low_after_check_high (so : circular_buffer_space_optimized α)
    (hinv : SOInv so) (hs : 1 ≤ so.inner.m_size) :
    check_low_capacity (check_high_capacity so) 1 = check_high_capacity so := by
  obtain ⟨hf1, hf2, hf3⟩ := check_high_capacity_fields so hinv
  obtain ⟨h1, h2, h3⟩ := hinv
  have hshr_ge : so.inner.m_size ≤ shrink_loop so.inner.m_size
      so.m_capacity_ctrl.m_min_capacity (capacity so.inner) :=
    shrink_loop_ge_size _ _ hs _ h1
  have hshr_le := (shrink_loop_bounds so.inner.m_size
    so.m_capacity_ctrl.m_min_capacity (capacity so.inner) h3).2
  have hkey : so.inner.m_size + 1 ≤ capacity (check_high_capacity so).inner ∨
      (capacity (check_high_capacity so).inner = so.m_capacity_ctrl.m_capacity ∧
       so.m_capacity_ctrl.m_capacity = so.inner.m_size) := by
    rw [hf1]
    simp only [ensure_reserve]
    split_ifs <;> omega
  rcases hkey with hbig | ⟨hcapL, hLs⟩
  · unfold check_low_capacity
    rw [if_neg (by rw [hf2]; omega)]
  · unfold check_low_capacity
    rw [if_pos (by rw [hf2]; omega)]
    have h0 : ¬ capacity (check_high_capacity so).inner = 0 := by omega
    rw [if_neg h0]
    have hgrow := grow_loop_ge_new ((check_high_capacity so).inner.m_size + 1)
      (capacity (check_high_capacity so).inner) (by omega)
    have hctrlcap : (check_high_capacity so).m_capacity_ctrl.m_capacity =
        so.m_capacity_ctrl.m_capacity := by
      rw [hf3]
    have htarget2 : ensure_reserve
        (check_high_capacity so).m_capacity_ctrl.m_capacity
        (grow_loop ((check_high_capacity so).inner.m_size + 1)
          (capacity (check_high_capacity so).inner))
        ((check_high_capacity so).inner.m_size + 1) =
        capacity (check_high_capacity so).inner := by
      simp only [ensure_reserve]
      split_ifs <;> omega
    rw [htarget2, set_capacity_self]

theorem internal_capacity_check_high (so : circular_buffer_space_optimized α)
    (hinv : SOInv so) :
    internal_capacity (check_high_capacity so) =
      ensure_reserve so.m_capacity_ctrl.m_capacity
        (shrink_loop so.inner.m_size so.m_capacity_ctrl.m_min_capacity
          (internal_capacity so)) so.inner.m_size :=
  (check_high_capacity_fields so hinv).1

/-- C6 counterexample.  Start from the reachable space-optimized state
obtained by `assign(capacity_control(6, 0), 3, 0)` followed by one
`pop_back()` (physical capacity 3, size 2).  The next `pop_back()` is a
shrink-triggering operation whose post-pop size 1 satisfies the halving
condition `size() <= physical_capacity / 3` (1 <= 3/3); the claim predicts
the physical capacity is halved to `max min_capacity (3 / 2) = 1`, but
`check_high_capacity` actually leaves it at 2: `ensure_reserve` doubles the
halved candidate back up to keep a 20% reserve. -/
theorem C6_counterexample :
    so_assign_ctrl (⟨⟨[], 0, 0, 0⟩, ⟨0, 0⟩⟩ : circular_buffer_space_optimized Nat)
        ⟨6, 0⟩ 3 0 =
      ⟨⟨[some 0, some 0, some 0], 0, 0, 3⟩, ⟨6, 0⟩⟩ ∧
    so_pop_back (⟨⟨[some 0, some 0, some 0], 0, 0, 3⟩, ⟨6, 0⟩⟩ :
        circular_buffer_space_optimized Nat) =
      ⟨⟨[some 0, some 0, none], 0, 2, 2⟩, ⟨6, 0⟩⟩ ∧
    (so_pop_back (⟨⟨[some 0, some 0, none], 0, 2, 2⟩, ⟨6, 0⟩⟩ :
        circular_buffer_space_optimized Nat)).inner.m_size = 1 ∧
    internal_capacity (⟨⟨[some 0, some 0, none], 0, 2, 2⟩, ⟨6, 0⟩⟩ :
        circular_buffer_space_optimized Nat) = 3 ∧
    (1 : Nat) ≤ 3 / 3 ∧
    max (0 : Nat) (3 / 2) = 1 ∧
    internal_capacity (so_pop_back
      (⟨⟨[some 0, some 0, none], 0, 2, 2⟩, ⟨6, 0⟩⟩ :
        circular_buffer_space_optimized Nat)) = 2 := by
  have hshr1 : shrink_loop 2 0 3 = 3 := by
    rw [shrink_loop_eq]
    norm_num
  have hshr2 : shrink_loop 1 0 3 = 1 := by
    rw [shrink_loop_eq]
    norm_num
    rw [shrink_loop_eq]
    norm_num
  have e2 : so_pop_back (⟨⟨[some 0, some 0, some 0], 0, 0, 3⟩, ⟨6, 0⟩⟩ :
      circular_buffer_space_optimized Nat) =
      ⟨⟨[some 0, some 0, none], 0, 2, 2⟩, ⟨6, 0⟩⟩ := by
    show check_high_capacity
      (⟨⟨[some 0, some 0, none], 0, 2, 2⟩, ⟨6, 0⟩⟩ :
        circular_buffer_space_optimized Nat) = _
    show (⟨set_capacity ⟨[some 0, some 0, none], 0, 2, 2⟩
        (ensure_reserve 6 (shrink_loop 2 0 3) 2), ⟨6, 0⟩⟩ :
      circular_buffer_space_optimized Nat) = _
    rw [hshr1]
    decide
  have e3 : so_pop_back (⟨⟨[some 0, some 0, none], 0, 2, 2⟩, ⟨6, 0⟩⟩ :
      circular_buffer_space_optimized Nat) =
      ⟨⟨[some 0, none], 0, 1, 1⟩, ⟨6, 0⟩⟩ := by
    show check_high_capacity
      (⟨⟨[some 0, none, none], 0, 1, 1⟩, ⟨6, 0⟩⟩ :
        circular_buffer_space_optimized Nat) = _
    show (⟨set_capacity ⟨[some 0, none, none], 0, 1, 1⟩
        (ensure_reserve 6 (shrink_loop 1 0 3) 1), ⟨6, 0⟩⟩ :
      circular_buffer_space_optimized Nat) = _
    rw [hshr2]
    decide
  refine ⟨by decide, e2, ?_, by decide, by decide, by decide, ?_⟩
  · rw [e3]
  · rw [e3]
    decide

/-- C6 (amended): after a shrink-triggering operation (here `pop_back`) the
new physical capacity is `ensure_reserve(shrunk, size)` where `shrunk` is
produced by the halving loop of `check_high_capacity`: the candidate is
left unchanged when `size > physical_capacity / 3`, is repeatedly halved
while `size <= candidate / 3` — hence ends up at most
`max min_capacity (physical_capacity / 2)` when the halving triggers — and
is floored at `min_capacity`; `ensure_reserve` may then double the
candidate once (to keep a 20% reserve) and clamps at the logical capacity.
The `/3` threshold together with the reserve does give hysteresis: a
`push_back` immediately after the `pop_back` never reallocates. -/
theorem C6_shrink_behavior (so : circular_buffer_space_optimized Nat)
    (hinv : SOInv so) :
    internal_capacity (so_pop_back so) =
      ensure_reserve so.m_capacity_ctrl.m_capacity
        (shrink_loop (so.inner.m_size - 1)
          so.m_capacity_ctrl.m_min_capacity (internal_capacity so))
        (so.inner.m_size - 1) ∧
    (internal_capacity so / 3 < so.inner.m_size - 1 →
      shrink_loop (so.inner.m_size - 1) so.m_capacity_ctrl.m_min_capacity
        (internal_capacity so) = internal_capacity so) ∧
    (so.inner.m_size - 1 ≤ internal_capacity so / 3 →
      shrink_loop (so.inner.m_size - 1) so.m_capacity_ctrl.m_min_capacity
        (internal_capacity so) ≤
        max so.m_capacity_ctrl.m_min_capacity (internal_capacity so / 2)) ∧
    so.m_capacity_ctrl.m_min_capacity ≤
      shrink_loop (so.inner.m_size - 1) so.m_capacity_ctrl.m_min_capacity
        (internal_capacity so) ∧
    (2 ≤ so.inner.m_size → ∀ item,
      internal_capacity (so_push_back (so_pop_back so) item) =
        internal_capacity (so_pop_back so)) := by
  obtain ⟨h1, h2, h3⟩ := hinv
  obtain ⟨hco, hps⟩ := pop_back_fields so.inner
  have hsopInv : SOInv { so with inner := (pop_back so.inner).1 } :=
    SOInv_update_inner so _ ⟨h1, h2, h3⟩ hco (by rw [hco, hps]; omega)
  refine ⟨?_, ?_, ?_, ?_, ?_⟩
  · calc internal_capacity (so_pop_back so)
        = ensure_reserve so.m_capacity_ctrl.m_capacity
            (shrink_loop (so.inner.m_size - 1)
              so.m_capacity_ctrl.m_min_capacity
              (capacity (pop_back so.inner).1))
            (so.inner.m_size - 1) :=
          internal_capacity_check_high _ hsopInv
      _ = ensure_reserve so.m_capacity_ctrl.m_capacity
            (shrink_loop (so.inner.m_size - 1)
              so.m_capacity_ctrl.m_min_capacity (internal_capacity so))
            (so.inner.m_size - 1) := by rw [hco]; rfl
  · intro h
    exact shrink_loop_no_trigger _ _ _ h
  · intro h
    exact shrink_loop_halved _ _ _ h h3
  · exact (shrink_loop_bounds _ _ _ h3).1
  · intro h2s item
    have hnoop : check_low_capacity (so_pop_back so) 1 = so_pop_back so :=
      check_low_after_check_high _ hsopInv (by
        show 1 ≤ so.inner.m_size - 1
        omega)
    have hpb := (push_back_fields
      (check_low_capacity (so_pop_back so) 1).inner item).1
    calc internal_capacity (so_push_back (so_pop_back so) item)
        = capacity (push_back
            (check_low_capacity (so_pop_back so) 1).inner item).1 := rfl
      _ = capacity (check_low_capacity (so_pop_back so) 1).inner := hpb
      _ = internal_capacity (so_pop_back so) := by rw [hnoop]; rfl

theorem C6_shrink_behavior_witness :
    internal_capacity (so_push_back (so_pop_back
      (⟨⟨[some 1, some 2, none, none], 0, 2, 2⟩, ⟨4, 0⟩⟩ :
        circular_buffer_space_optimized Nat)) 7) =
    internal_capacity (so_pop_back
      (⟨⟨[some 1, some 2, none, none], 0, 2, 2⟩, ⟨4, 0⟩⟩ :
        circular_buffer_space_optimized Nat)) :=
  (C6_shrink_behavior ⟨⟨[some 1, some 2, none, none], 0, 2, 2⟩, ⟨4, 0⟩⟩
    (by decide)).2.2.2.2 (by decide) 7

/-- C7: every public mutating operation of the space-optimized buffer
preserves the capacity bounds `size() <= internal capacity`,
`internal capacity <= capacity()` (the logical capacity) and
`min_capacity <= internal capacity`, under the operations' documented
preconditions (`capacity_control` arguments with `min_capacity <=
capacity`, assigned sizes within the new logical capacity, a requested
minimal capacity below the logical capacity). -/
theorem C7_invariant_preservation (so : circular_buffer_space_optimized Nat)
    (hinv : SOInv so) :
    (∀ item, SOInv (so_push_back so item)) ∧
    (∀ item, SOInv (so_push_front so item)) ∧
    SOInv (so_pop_back so) ∧
    SOInv (so_pop_front so) ∧
    (∀ pos n item, SOInv (so_insert so pos n item)) ∧
    (∀ pos n item, SOInv (so_rinsert so pos n item)) ∧
    (∀ pos, SOInv (so_erase so pos)) ∧
    (∀ pos, SOInv (so_rerase so pos)) ∧
    (∀ a b, SOInv (so_erase_range so a b)) ∧
    (∀ a b, SOInv (so_rerase_range so a b)) ∧
    (∀ new_size item, SOInv (so_resize so new_size item)) ∧
    (∀ ctrl : capacity_control, ctrl.m_min_capacity ≤ ctrl.m_capacity →
      SOInv (so_set_capacity so ctrl)) ∧
    (∀ new_min, new_min ≤ so.m_capacity_ctrl.m_capacity →
      SOInv (set_min_capacity so new_min)) ∧
    (∀ n item, SOInv (so_assign so n item)) ∧
    (∀ ctrl : capacity_control, ∀ n item, n ≤ ctrl.m_capacity →
      ctrl.m_min_capacity ≤ ctrl.m_capacity →
      SOInv (so_assign_ctrl so ctrl n item)) := by
  refine ⟨fun item => SOInv_so_push_back so item hinv,
    fun item => SOInv_so_push_front so item hinv,
    SOInv_so_pop_back so hinv,
    SOInv_so_pop_front so hinv,
    fun pos n item => SOInv_so_insert so pos n item hinv,
    fun pos n item => SOInv_so_rinsert so pos n item hinv,
    fun pos => SOInv_so_erase so pos hinv,
    fun pos => SOInv_so_rerase so pos hinv,
    fun a b => SOInv_so_erase_range so a b hinv,
    fun a b => SOInv_so_rerase_range so a b hinv,
    fun new_size item => SOInv_so_resize so new_size item hinv,
    fun ctrl hc => SOInv_so_set_capacity so ctrl hinv hc,
    fun new_min hnm => ?_,
    fun n item => SOInv_so_assign so n item,
    fun ctrl n item hn hmc => SOInv_so_assign_ctrl so ctrl n item hn hmc⟩
  obtain ⟨h1, h2, h3⟩ := hinv
  exact SOInv_set_min_capacity so new_min h1 h2 hnm (Or.inr h3)

theorem C7_invariant_preservation_witness :
    SOInv (so_push_back (⟨⟨[some 1, none], 0, 1, 1⟩, ⟨4, 1⟩⟩ :
      circular_buffer_space_optimized Nat) 5) :=
  (C7_invariant_preservation ⟨⟨[some 1, none], 0, 1, 1⟩, ⟨4, 1⟩⟩
    (by decide)).1 5

/-! ## C2: insert(pos, n, item) -/

theorem shift_mod_ne {cap f a b : Nat} (hab : a < b) (hd : b - a < cap) :
    (f + a) % cap ≠ (f + b) % cap := by
  intro h
  have h3 : a % cap = b % cap := Nat.ModEq.add_left_cancel' f h
  have h4 : cap ∣ (b - a) := (Nat.modEq_iff_dvd' (le_of_lt hab)).mp h3
  exact absurd (Nat.le_of_dvd (by omega) h4) (by omega)

theorem insertShiftStep_fst (cb0 : circular_buffer α) (n : Nat)
    (acc : circular_buffer α × List (SlotOp α)) (j : Nat) :
    (insertShiftStep cb0 n acc j).1 =
      { acc.1 with buff := (acc.1.buff.set
          (sub (capacity cb0) (add (capacity cb0) cb0.m_last n) (j + 1))
          (nthPhys acc.1 (sub (capacity cb0) cb0.m_last (j + 1)))) } := by
  unfold insertShiftStep
  dsimp only
  split_ifs <;> rfl

theorem insertWriteStep_fst (cb0 : circular_buffer α) (pos : Nat) (item : α)
    (acc : circular_buffer α × List (SlotOp α)) (i : Nat) :
    (insertWriteStep cb0 pos item acc i).1 =
      { acc.1 with buff := (acc.1.buff.set
          (add (capacity cb0) (add (capacity cb0) cb0.m_first pos) i)
          (some item)) } := by
  unfold insertWriteStep
  dsimp only
  split_ifs <;> rfl

theorem insertEndStep_fst (cb0 : circular_buffer α) (c0 : Nat) (item : α)
    (acc : circular_buffer α × List (SlotOp α)) (i : Nat) :
    (insertEndStep cb0 c0 item acc i).1 =
      { acc.1 with buff := (acc.1.buff.set
          (add (capacity cb0) cb0.m_last i) (some item)) } := by
  unfold insertEndStep
  dsimp only
  split_ifs <;> rfl

theorem getAt_eq_mod (cb : circular_buffer α) (q : Nat)
    (hf : cb.m_first < capacity cb) (hq : q ≤ capacity cb) :
    getAt cb q = nthPhys cb ((cb.m_first + q) % capacity cb) := by
  unfold getAt
  rw [add_eq_mod hf hq]

theorem sub_last_eq (cb : circular_buffer α) (hcap : 0 < capacity cb)
    (hszc : cb.m_size ≤ capacity cb)
    (hlast : cb.m_last = (cb.m_first + cb.m_size) % capacity cb)
    (d : Nat) (hd : 1 ≤ d) (hds : d ≤ cb.m_size) :
    sub (capacity cb) cb.m_last d =
      (cb.m_first + (cb.m_size - d)) % capacity cb := by
  rw [hlast, sub_eq_mod (Nat.mod_lt _ hcap) (by omega)]
  rw [show (cb.m_first + cb.m_size) % capacity cb + capacity cb - d =
    (cb.m_first + cb.m_size) % capacity cb + (capacity cb - d) by omega]
  rw [Nat.mod_add_mod]
  rw [show cb.m_first + cb.m_size + (capacity cb - d) =
    cb.m_first + (cb.m_size - d) + capacity cb by omega]
  rw [Nat.add_mod_right]

theorem sub_add_last_eq (cb : circular_buffer α) (hcap : 0 < capacity cb)
    (hszc : cb.m_size ≤ capacity cb)
    (hlast : cb.m_last = (cb.m_first + cb.m_size) % capacity cb)
    (k d : Nat) (hk : k ≤ capacity cb) (hd : 1 ≤ d) (hds : d ≤ cb.m_size) :
    sub (capacity cb) (add (capacity cb) cb.m_last k) d =
      (cb.m_first + (cb.m_size + k - d)) % capacity cb := by
  rw [hlast, add_eq_mod (Nat.mod_lt _ hcap) hk, Nat.mod_add_mod]
  rw [sub_eq_mod (Nat.mod_lt _ hcap) (by omega)]
  rw [show (cb.m_first + cb.m_size + k) % capacity cb + capacity cb - d =
    (cb.m_first + cb.m_size + k) % capacity cb + (capacity cb - d) by omega]
  rw [Nat.mod_add_mod]
  rw [show cb.m_first + cb.m_size + k + (capacity cb - d) =
    cb.m_first + (cb.m_size + k - d) + capacity cb by omega]
  rw [Nat.add_mod_right]

theorem add_add_eq (cap f pos i : Nat) (hf : f < cap) (hpos : pos ≤ cap)
    (hi : i ≤ cap) :
    add cap (add cap f pos) i = (f + (pos + i)) % cap := by
  rw [add_eq_mod hf hpos, add_eq_mod (Nat.mod_lt _ (by omega)) hi,
    Nat.mod_add_mod, Nat.add_assoc]

theorem add_last_eq (cb : circular_buffer α) (hcap : 0 < capacity cb)
    (hlast : cb.m_last = (cb.m_first + cb.m_size) % capacity cb)
    (i : Nat) (hi : i ≤ capacity cb) :
    add (capacity cb) cb.m_last i =
      (cb.m_first + (cb.m_size + i)) % capacity cb := by
  rw [hlast, add_eq_mod (Nat.mod_lt _ hcap) hi, Nat.mod_add_mod, Nat.add_assoc]

theorem insert_shift_loop (cb : circular_buffer α) (k pos : Nat)
    (hwf : wf cb) (hpos : pos < cb.m_size) (hk1 : 1 ≤ k)
    (hk : k + (cb.m_size - pos) ≤ capacity cb) :
    ∀ m, m ≤ cb.m_size - pos →
    ((List.range m).foldl (insertShiftStep cb k) (cb, [])).1.m_first = cb.m_first ∧
    ((List.range m).foldl (insertShiftStep cb k) (cb, [])).1.m_last = cb.m_last ∧
    ((List.range m).foldl (insertShiftStep cb k) (cb, [])).1.m_size = cb.m_size ∧
    capacity ((List.range m).foldl (insertShiftStep cb k) (cb, [])).1 = capacity cb ∧
    (∀ q, cb.m_size - m ≤ q → q < cb.m_size →
      nthPhys ((List.range m).foldl (insertShiftStep cb k) (cb, [])).1
        ((cb.m_first + (q + k)) % capacity cb) = getAt cb q) ∧
    (∀ w, w < capacity cb →
      (∀ q, cb.m_size - m ≤ q → q < cb.m_size →
        w ≠ (cb.m_first + (q + k)) % capacity cb) →
      nthPhys ((List.range m).foldl (insertShiftStep cb k) (cb, [])).1 w =
        nthPhys cb w) := by
  obtain ⟨hsz, hzero, hfl, hle, hlive⟩ := hwf
  have hcap : 0 < capacity cb := by omega
  have hf := hfl hcap
  have hlast := hle hcap
  intro m
  induction m with
  | zero =>
    intro _
    refine ⟨rfl, rfl, rfl, rfl, ?_, ?_⟩
    · intro q hq1 hq2
      omega
    · intro w hw _
      rfl
  | succ m ih =>
    intro hm
    obtain ⟨h1, h2, h3, h4, h5, h6⟩ := ih (by omega)
    rw [List.range_succ, List.foldl_append, List.foldl_cons, List.foldl_nil,
      insertShiftStep_fst]
    have hsrc : sub (capacity cb) cb.m_last (m + 1) =
        (cb.m_first + (cb.m_size - 1 - m)) % capacity cb := by
      rw [sub_last_eq cb hcap hsz hlast (m + 1) (by omega) (by omega)]
      rw [show cb.m_size - (m + 1) = cb.m_size - 1 - m by omega]
    have hdest : sub (capacity cb) (add (capacity cb) cb.m_last k) (m + 1) =
        (cb.m_first + ((cb.m_size - 1 - m) + k)) % capacity cb := by
      rw [sub_add_last_eq cb hcap hsz hlast k (m + 1) (by omega) (by omega) (by omega)]
      rw [show cb.m_size + k - (m + 1) = (cb.m_size - 1 - m) + k by omega]
    have hv : nthPhys ((List.range m).foldl (insertShiftStep cb k) (cb, [])).1
        (sub (capacity cb) cb.m_last (m + 1)) = getAt cb (cb.m_size - 1 - m) := by
      rw [hsrc]
      rw [h6 _ (Nat.mod_lt _ hcap)
        (fun q hq1 hq2 => shift_mod_ne (by omega) (by omega))]
      rw [getAt_eq_mod cb _ hf (by omega)]
    have hlen : ((List.range m).foldl (insertShiftStep cb k) (cb, [])).1.buff.length =
        capacity cb := h4
    rw [hv, hdest]
    refine ⟨h1, h2, h3, ?_, ?_, ?_⟩
    · show (((List.range m).foldl (insertShiftStep cb k) (cb, [])).1.buff.set
          ((cb.m_first + ((cb.m_size - 1 - m) + k)) % capacity cb)
          (getAt cb (cb.m_size - 1 - m))).length = capacity cb
      rw [List.length_set]
      exact h4
    · intro q hq1 hq2
      show (((List.range m).foldl (insertShiftStep cb k) (cb, [])).1.buff.set
          ((cb.m_first + ((cb.m_size - 1 - m) + k)) % capacity cb)
          (getAt cb (cb.m_size - 1 - m))).getD
            ((cb.m_first + (q + k)) % capacity cb) none = getAt cb q
      rw [getD_set]
      by_cases hq : q = cb.m_size - 1 - m
      · subst hq
        rw [if_pos ⟨rfl, by rw [hlen]; exact Nat.mod_lt _ hcap⟩]
      · rw [if_neg (fun hcon => shift_mod_ne
          (a := (cb.m_size - 1 - m) + k) (b := q + k)
          (by omega) (by omega) hcon.1)]
        have h5q := h5 q (by omega) hq2
        simp only [nthPhys] at h5q
        exact h5q
    · intro w hw havoid
      show (((List.range m).foldl (insertShiftStep cb k) (cb, [])).1.buff.set
          ((cb.m_first + ((cb.m_size - 1 - m) + k)) % capacity cb)
          (getAt cb (cb.m_size - 1 - m))).getD w none = nthPhys cb w
      rw [getD_set]
      rw [if_neg (fun hcon =>
        (havoid (cb.m_size - 1 - m) (by omega) (by omega)) hcon.1.symm)]
      have h6w := h6 w hw (fun q hq1 hq2 => havoid q (by omega) hq2)
      simp only [nthPhys] at h6w
      exact h6w

theorem insert_write_loop (cb : circular_buffer α) (k pos : Nat) (item : α)
    (hwf : wf cb) (hpos : pos < cb.m_size) (hk1 : 1 ≤ k)
    (hk : k + (cb.m_size - pos) ≤ capacity cb) :
    ∀ i, i ≤ k →
    ((List.range i).foldl (insertWriteStep cb pos item)
      ((List.range (cb.m_size - pos)).foldl (insertShiftStep cb k)
        (cb, []))).1.m_first = cb.m_first ∧
    ((List.range i).foldl (insertWriteStep cb pos item)
      ((List.range (cb.m_size - pos)).foldl (insertShiftStep cb k)
        (cb, []))).1.m_last = cb.m_last ∧
    ((List.range i).foldl (insertWriteStep cb pos item)
      ((List.range (cb.m_size - pos)).foldl (insertShiftStep cb k)
        (cb, []))).1.m_size = cb.m_size ∧
    capacity ((List.range i).foldl (insertWriteStep cb pos item)
      ((List.range (cb.m_size - pos)).foldl (insertShiftStep cb k)
        (cb, []))).1 = capacity cb ∧
    (∀ q, pos ≤ q → q < cb.m_size →
      nthPhys ((List.range i).foldl (insertWriteStep cb pos item)
        ((List.range (cb.m_size - pos)).foldl (insertShiftStep cb k)
          (cb, []))).1 ((cb.m_first + (q + k)) % capacity cb) = getAt cb q) ∧
    (∀ j, j < i →
      nthPhys ((List.range i).foldl (insertWriteStep cb pos item)
        ((List.range (cb.m_size - pos)).foldl (insertShiftStep cb k)
          (cb, []))).1 ((cb.m_first + (pos + j)) % capacity cb) = some item) ∧
    (∀ w, w < capacity cb →
      (∀ q, pos ≤ q → q < cb.m_size →
        w ≠ (cb.m_first + (q + k)) % capacity cb) →
      (∀ j, j < i → w ≠ (cb.m_first + (pos + j)) % capacity cb) →
      nthPhys ((List.range i).foldl (insertWriteStep cb pos item)
        ((List.range (cb.m_size - pos)).foldl (insertShiftStep cb k)
          (cb, []))).1 w = nthPhys cb w) := by
  obtain ⟨hsz, hzero, hfl, hle, hlive⟩ := hwf
  have hcap : 0 < capacity cb := by omega
  have hf := hfl hcap
  have hlast := hle hcap
  obtain ⟨s1, s2, s3, s4, s5, s6⟩ := insert_shift_loop cb k pos
    ⟨hsz, hzero, hfl, hle, hlive⟩ hpos hk1 hk (cb.m_size - pos) (le_refl _)
  intro i
  induction i with
  | zero =>
    intro _
    refine ⟨s1, s2, s3, s4, ?_, ?_, ?_⟩
    · intro q hq1 hq2
      exact s5 q (by omega) hq2
    · intro j hj
      omega
    · intro w hw havoid _
      exact s6 w hw (fun q hq1 hq2 => havoid q (by omega) hq2)
  | succ i ih =>
    intro hi
    obtain ⟨h1, h2, h3, h4, h5, h6, h7⟩ := ih (by omega)
    rw [List.range_succ, List.foldl_append, List.foldl_cons, List.foldl_nil,
      insertWriteStep_fst]
    have hp : add (capacity cb) (add (capacity cb) cb.m_first pos) i =
        (cb.m_first + (pos + i)) % capacity cb :=
      add_add_eq (capacity cb) cb.m_first pos i hf (by omega) (by omega)
    have hlen : ((List.range i).foldl (insertWriteStep cb pos item)
        ((List.range (cb.m_size - pos)).foldl (insertShiftStep cb k)
          (cb, []))).1.buff.length = capacity cb := h4
    rw [hp]
    refine ⟨h1, h2, h3, ?_, ?_, ?_, ?_⟩
    · show (((List.range i).foldl (insertWriteStep cb pos item)
          ((List.range (cb.m_size - pos)).foldl (insertShiftStep cb k)
            (cb, []))).1.buff.set
          ((cb.m_first + (pos + i)) % capacity cb) (some item)).length =
        capacity cb
      rw [List.length_set]
      exact h4
    · intro q hq1 hq2
      show (((List.range i).foldl (insertWriteStep cb pos item)
          ((List.range (cb.m_size - pos)).foldl (insertShiftStep cb k)
            (cb, []))).1.buff.set
          ((cb.m_first + (pos + i)) % capacity cb) (some item)).getD
            ((cb.m_first + (q + k)) % capacity cb) none = getAt cb q
      rw [getD_set]
      rw [if_neg (fun hcon => shift_mod_ne (a := pos + i) (b := q + k)
        (by omega) (by omega) hcon.1)]
      have h5q := h5 q hq1 hq2
      simp only [nthPhys] at h5q
      exact h5q
    · intro j hj
      show (((List.range i).foldl (insertWriteStep cb pos item)
          ((List.range (cb.m_size - pos)).foldl (insertShiftStep cb k)
            (cb, []))).1.buff.set
          ((cb.m_first + (pos + i)) % capacity cb) (some item)).getD
            ((cb.m_first + (pos + j)) % capacity cb) none = some item
      rw [getD_set]
      by_cases hji : j = i
      · subst hji
        rw [if_pos ⟨rfl, by rw [hlen]; exact Nat.mod_lt _ hcap⟩]
      · rw [if_neg (fun hcon => shift_mod_ne (a := pos + j) (b := pos + i)
          (by omega) (by omega) hcon.1.symm)]
        have h6j := h6 j (by omega)
        simp only [nthPhys] at h6j
        exact h6j
    · intro w hw havoid1 havoid2
      show (((List.range i).foldl (insertWriteStep cb pos item)
          ((List.range (cb.m_size - pos)).foldl (insertShiftStep cb k)
            (cb, []))).1.buff.set
          ((cb.m_first + (pos + i)) % capacity cb) (some item)).getD w none =
        nthPhys cb w
      rw [getD_set]
      rw [if_neg (fun hcon => (havoid2 i (by omega)) hcon.1.symm)]
      have h7w := h7 w hw havoid1 (fun j hj => havoid2 j (by omega))
      simp only [nthPhys] at h7w
      exact h7w

theorem insert_end_loop (cb : circular_buffer α) (k c0 : Nat) (item : α)
    (hwf : wf cb) (hk1 : 1 ≤ k) (hk : k ≤ capacity cb) :
    ∀ i, i ≤ k →
    ((List.range i).foldl (insertEndStep cb c0 item) (cb, [])).1.m_first =
      cb.m_first ∧
    ((List.range i).foldl (insertEndStep cb c0 item) (cb, [])).1.m_last =
      cb.m_last ∧
    ((List.range i).foldl (insertEndStep cb c0 item) (cb, [])).1.m_size =
      cb.m_size ∧
    capacity ((List.range i).foldl (insertEndStep cb c0 item) (cb, [])).1 =
      capacity cb ∧
    (∀ j, j < i →
      nthPhys ((List.range i).foldl (insertEndStep cb c0 item) (cb, [])).1
        ((cb.m_first + (cb.m_size + j)) % capacity cb) = some item) ∧
    (∀ w, w < capacity cb →
      (∀ j, j < i → w ≠ (cb.m_first + (cb.m_size + j)) % capacity cb) →
      nthPhys ((List.range i).foldl (insertEndStep cb c0 item) (cb, [])).1 w =
        nthPhys cb w) := by
  obtain ⟨hsz, hzero, hfl, hle, hlive⟩ := hwf
  have hcap : 0 < capacity cb := by omega
  have hf := hfl hcap
  have hlast := hle hcap
  intro i
  induction i with
  | zero =>
    intro _
    refine ⟨rfl, rfl, rfl, rfl, ?_, ?_⟩
    · intro j hj
      omega
    · intro w hw _
      rfl
  | succ i ih =>
    intro hi
    obtain ⟨h1, h2, h3, h4, h5, h6⟩ := ih (by omega)
    rw [List.range_succ, List.foldl_append, List.foldl_cons, List.foldl_nil,
      insertEndStep_fst]
    have hp : add (capacity cb) cb.m_last i =
        (cb.m_first + (cb.m_size + i)) % capacity cb :=
      add_last_eq cb hcap hlast i (by omega)
    have hlen : ((List.range i).foldl (insertEndStep cb c0 item)
        (cb, [])).1.buff.length = capacity cb := h4
    rw [hp]
    refine ⟨h1, h2, h3, ?_, ?_, ?_⟩
    · show (((List.range i).foldl (insertEndStep cb c0 item) (cb, [])).1.buff.set
          ((cb.m_first + (cb.m_size + i)) % capacity cb) (some item)).length =
        capacity cb
      rw [List.length_set]
      exact h4
    · intro j hj
      show (((List.range i).foldl (insertEndStep cb c0 item) (cb, [])).1.buff.set
          ((cb.m_first + (cb.m_size + i)) % capacity cb) (some item)).getD
            ((cb.m_first + (cb.m_size + j)) % capacity cb) none = some item
      rw [getD_set]
      by_cases hji : j = i
      · subst hji
        rw [if_pos ⟨rfl, by rw [hlen]; exact Nat.mod_lt _ hcap⟩]
      · rw [if_neg (fun hcon => shift_mod_ne
          (a := cb.m_size + j) (b := cb.m_size + i)
          (by omega) (by omega) hcon.1.symm)]
        have h5j := h5 j (by omega)
        simp only [nthPhys] at h5j
        exact h5j
    · intro w hw havoid
      show (((List.range i).foldl (insertEndStep cb c0 item) (cb, [])).1.buff.set
          ((cb.m_first + (cb.m_size + i)) % capacity cb) (some item)).getD w none =
        nthPhys cb w
      rw [getD_set]
      rw [if_neg (fun hcon => (havoid i (by omega)) hcon.1.symm)]
      have h6w := h6 w hw (fun j hj => havoid j (by omega))
      simp only [nthPhys] at h6w
      exact h6w

/-- C2: `insert(pos, n, item)` keeps the capacity, inserts exactly
`min(n, capacity() - (end() - pos))` copies of `item` before logical index
`pos`, and evicts exactly the overwritten number of elements from the
front: with `k = min(n, capacity - (size - pos))` and
`e = k - (capacity - size)` (truncated), the new contents are
`old[e..pos) ++ item^k ++ old[pos..size)` and the new size is
`size + (k - e)`. -/
theorem C2_insert (cb : circular_buffer α) (pos n : Nat) (item : α)
    (hwf : wf cb) (hpos : pos ≤ cb.m_size) :
    capacity (insert cb pos n item).1 = capacity cb ∧
    (insert cb pos n item).1.m_size =
      cb.m_size + min (capacity cb - cb.m_size)
        (min n (capacity cb - (cb.m_size - pos))) ∧
    toList (insert cb pos n item).1 =
      ((toList cb).drop
          (min n (capacity cb - (cb.m_size - pos)) -
            (capacity cb - cb.m_size))).take
        (pos - (min n (capacity cb - (cb.m_size - pos)) -
          (capacity cb - cb.m_size))) ++
      List.replicate (min n (capacity cb - (cb.m_size - pos))) (some item) ++
      (toList cb).drop pos := by
  obtain ⟨hsz, hzero, hfl, hle, hlive⟩ := hwf
  have hdegen : ∀ k0 : Nat, k0 = 0 →
      toList cb =
        ((toList cb).drop (k0 - (capacity cb - cb.m_size))).take
          (pos - (k0 - (capacity cb - cb.m_size))) ++
        List.replicate k0 (some item) ++ (toList cb).drop pos := by
    intro k0 hk0
    subst hk0
    simp [List.take_append_drop]
  by_cases hn0 : n = 0
  · have hins : insert cb pos n item = (cb, []) := by
      unfold insert
      rw [if_pos hn0]
    refine ⟨by rw [hins], ?_, ?_⟩
    · rw [hins]
      show cb.m_size = cb.m_size + min (capacity cb - cb.m_size)
        (min n (capacity cb - (cb.m_size - pos)))
      omega
    · rw [hins]
      exact hdegen _ (by omega)
  by_cases hcopy : capacity cb - (cb.m_size - pos) = 0
  · have hins : insert cb pos n item = (cb, []) := by
      unfold insert
      rw [if_neg hn0, if_pos hcopy]
    refine ⟨by rw [hins], ?_, ?_⟩
    · rw [hins]
      show cb.m_size = cb.m_size + min (capacity cb - cb.m_size)
        (min n (capacity cb - (cb.m_size - pos)))
      omega
    · rw [hins]
      exact hdegen _ (by omega)
  set k : Nat := min n (capacity cb - (cb.m_size - pos)) with hkdef
  set e : Nat := k - (capacity cb - cb.m_size) with hedef
  have hins : insert cb pos n item = insert_n cb pos k item := by
    unfold insert
    rw [if_neg hn0, if_neg hcopy]
  have hcap : 0 < capacity cb := by omega
  have hf := hfl hcap
  have hlast := hle hcap
  have hk1 : 1 ≤ k := by omega
  have hkc : k + (cb.m_size - pos) ≤ capacity cb := by omega
  have hkcap : k ≤ capacity cb := by omega
  have hsum : cb.m_size + k ≤ capacity cb + e := by omega
  have he_le : e ≤ pos := by omega
  have hek : e ≤ k := by omega
  have hcapR := (insert_n_fields cb pos k item).1
  have hms := (insert_n_fields cb pos k item).2
  have hc0e : min (capacity cb - cb.m_size) k = k - e := by omega
  have hlen1 : (((toList cb).drop e).take (pos - e)).length = pos - e := by
    rw [List.length_take, List.length_drop, toList_length]
    omega
  have hlen12 : ((((toList cb).drop e).take (pos - e)) ++
      List.replicate k (some item)).length = (pos - e) + k := by
    rw [List.length_append, hlen1, List.length_replicate]
  refine ⟨by rw [hins]; exact hcapR, by rw [hins]; exact hms, ?_⟩
  rw [hins]
  by_cases hpe : pos = cb.m_size
  · have hbuffR : (insert_n cb pos k item).1.buff =
        ((List.range k).foldl
          (insertEndStep cb (min (capacity cb - cb.m_size) k) item)
          (cb, [])).1.buff := by
      have h0 : (insert_n cb pos k item).1.buff =
          (if pos = cb.m_size then
            ((List.range k).foldl
              (insertEndStep cb (min (capacity cb - cb.m_size) k) item)
              (cb, []))
          else
            ((List.range k).foldl (insertWriteStep cb pos item)
              ((List.range (cb.m_size - pos)).foldl (insertShiftStep cb k)
                (cb, [])))).1.buff := rfl
      rw [h0, if_pos hpe]
    have hfirstR : (insert_n cb pos k item).1.m_first =
        add (capacity cb) cb.m_first (k - min (capacity cb - cb.m_size) k) :=
      rfl
    have hfirstR2 : (insert_n cb pos k item).1.m_first =
        add (capacity cb) cb.m_first e := by
      rw [hfirstR, hc0e, show k - (k - e) = e by omega]
    obtain ⟨e1, e2, e3, e4, e5, e6⟩ := insert_end_loop cb k
      (min (capacity cb - cb.m_size) k) item ⟨hsz, hzero, hfl, hle, hlive⟩
      hk1 hkcap k (le_refl k)
    have hget : ∀ i, i < capacity cb →
        getAt (insert_n cb pos k item).1 i =
          nthPhys ((List.range k).foldl
            (insertEndStep cb (min (capacity cb - cb.m_size) k) item)
            (cb, [])).1 ((cb.m_first + (e + i)) % capacity cb) := by
      intro i hi
      show (insert_n cb pos k item).1.buff.getD
        (add (capacity (insert_n cb pos k item).1)
          (insert_n cb pos k item).1.m_first i) none = _
      rw [hcapR, hfirstR2, hbuffR,
        add_add_eq (capacity cb) cb.m_first e i hf (by omega) (by omega)]
      rfl
    apply List.ext_getElem?
    intro i
    rw [toList_getElem?, hms, hc0e]
    by_cases hi1 : i < pos - e
    · rw [if_pos (by omega), List.getElem?_append, hlen12, if_pos (by omega),
        List.getElem?_append, hlen1, if_pos (by omega),
        List.getElem?_take_of_lt (by omega), List.getElem?_drop,
        toList_getElem?, if_pos (by omega)]
      congr 1
      rw [hget i (by omega)]
      rw [e6 _ (Nat.mod_lt _ hcap)
        (fun j hj => shift_mod_ne (by omega) (by omega))]
      rw [getAt_eq_mod cb (e + i) hf (by omega)]
    · by_cases hi2 : i < pos - e + k
      · rw [if_pos (by omega), List.getElem?_append, hlen12, if_pos (by omega),
          List.getElem?_append, hlen1, if_neg (by omega),
          List.getElem?_replicate, if_pos (by omega)]
        congr 1
        rw [hget i (by omega)]
        have hb := e5 (i - (pos - e)) (by omega)
        rw [show cb.m_size + (i - (pos - e)) = e + i by omega] at hb
        exact hb
      · by_cases hi3 : i < cb.m_size + (k - e)
        · rw [if_pos hi3, List.getElem?_append, hlen12, if_neg (by omega),
            List.getElem?_drop, toList_getElem?, if_pos (by omega)]
          exact absurd hi3 (by omega)
        · rw [if_neg hi3, List.getElem?_append, hlen12, if_neg (by omega),
            List.getElem?_drop, toList_getElem?, if_neg (by omega)]
  · have hps : pos < cb.m_size := by omega
    have hbuffR : (insert_n cb pos k item).1.buff =
        ((List.range k).foldl (insertWriteStep cb pos item)
          ((List.range (cb.m_size - pos)).foldl (insertShiftStep cb k)
            (cb, []))).1.buff := by
      have h0 : (insert_n cb pos k item).1.buff =
          (if pos = cb.m_size then
            ((List.range k).foldl
              (insertEndStep cb (min (capacity cb - cb.m_size) k) item)
              (cb, []))
          else
            ((List.range k).foldl (insertWriteStep cb pos item)
              ((List.range (cb.m_size - pos)).foldl (insertShiftStep cb k)
                (cb, [])))).1.buff := rfl
      rw [h0, if_neg hpe]
    have hfirstR : (insert_n cb pos k item).1.m_first =
        add (capacity cb) cb.m_first (k - min (capacity cb - cb.m_size) k) :=
      rfl
    have hfirstR2 : (insert_n cb pos k item).1.m_first =
        add (capacity cb) cb.m_first e := by
      rw [hfirstR, hc0e, show k - (k - e) = e by omega]
    obtain ⟨w1, w2, w3, w4, w5, w6, w7⟩ := insert_write_loop cb k pos item
      ⟨hsz, hzero, hfl, hle, hlive⟩ hps hk1 hkc k (le_refl k)
    have hget : ∀ i, i < capacity cb →
        getAt (insert_n cb pos k item).1 i =
          nthPhys ((List.range k).foldl (insertWriteStep cb pos item)
            ((List.range (cb.m_size - pos)).foldl (insertShiftStep cb k)
              (cb, []))).1 ((cb.m_first + (e + i)) % capacity cb) := by
      intro i hi
      show (insert_n cb pos k item).1.buff.getD
        (add (capacity (insert_n cb pos k item).1)
          (insert_n cb pos k item).1.m_first i) none = _
      rw [hcapR, hfirstR2, hbuffR,
        add_add_eq (capacity cb) cb.m_first e i hf (by omega) (by omega)]
      rfl
    apply List.ext_getElem?
    intro i
    rw [toList_getElem?, hms, hc0e]
    by_cases hi1 : i < pos - e
    · rw [if_pos (by omega), List.getElem?_append, hlen12, if_pos (by omega),
        List.getElem?_append, hlen1, if_pos (by omega),
        List.getElem?_take_of_lt (by omega), List.getElem?_drop,
        toList_getElem?, if_pos (by omega)]
      congr 1
      rw [hget i (by omega)]
      rw [w7 _ (Nat.mod_lt _ hcap)
        (fun q hq1 hq2 => shift_mod_ne (by omega) (by omega))
        (fun j hj => shift_mod_ne (by omega) (by omega))]
      rw [getAt_eq_mod cb (e + i) hf (by omega)]
    · by_cases hi2 : i < pos - e + k
      · rw [if_pos (by omega), List.getElem?_append, hlen12, if_pos (by omega),
          List.getElem?_append, hlen1, if_neg (by omega),
          List.getElem?_replicate, if_pos (by omega)]
        congr 1
        rw [hget i (by omega)]
        have hb := w6 (i - (pos - e)) (by omega)
        rw [show pos + (i - (pos - e)) = e + i by omega] at hb
        exact hb
      · by_cases hi3 : i < cb.m_size + (k - e)
        · rw [if_pos hi3, List.getElem?_append, hlen12, if_neg (by omega),
            List.getElem?_drop, toList_getElem?, if_pos (by omega)]
          congr 1
          rw [hget i (by omega)]
          have ha := w5 (e + i - k) (by omega) (by omega)
          rw [show e + i - k + k = e + i by omega] at ha
          rw [ha, show pos + (i - ((pos - e) + k)) = e + i - k by omega]
        · rw [if_neg hi3, List.getElem?_append, hlen12, if_neg (by omega),
            List.getElem?_drop, toList_getElem?, if_neg (by omega)]

theorem C2_insert_witness :
    toList (insert (⟨[some 1, some 2, some 3, some 4, none, none], 0, 4, 4⟩ :
        circular_buffer Nat) 2 5 6).1 =
      [some 6, some 6, some 6, some 6, some 3, some 4] ∧
    (insert (⟨[some 1, some 2, some 3, some 4, none, none], 0, 4, 4⟩ :
        circular_buffer Nat) 2 5 6).1.m_size = 6 := by
  obtain ⟨-, h2, h3⟩ := C2_insert
    (⟨[some 1, some 2, some 3, some 4, none, none], 0, 4, 4⟩ :
      circular_buffer Nat) 2 5 6 (by decide) (by decide)
  refine ⟨?_, ?_⟩
  · rw [h3]
    decide
  · rw [h2]
    decide

theorem getD_set_eq (l : List (Option α)) (i : Nat) (v : Option α)
    (h : i < l.length) : (l.set i v).getD i none = v := by
  rw [getD_set, if_pos ⟨rfl, h⟩]

theorem getD_set_ne (l : List (Option α)) (i j : Nat) (v : Option α)
    (h : i ≠ j) : (l.set i v).getD j none = l.getD j none := by
  rw [getD_set, if_neg]
  rintro ⟨h1, -⟩
  exact h h1

theorem linRoundPost_lift (cb0 : circular_buffer α) (src dest first : Nat)
    (r : List (Option α) × Nat × Nat × Nat × Nat)
    (h : linRoundPost cb0 (src + 1) (dest + 1) first r) :
    linRoundPost cb0 src dest first r := by
  obtain ⟨h1, h2, h3, h4, h5⟩ := h
  refine ⟨h1, by omega, h3, ?_, h5⟩
  intro hcont
  obtain ⟨he, hp⟩ := h4 hcont
  exact ⟨he, Or.inl (by omega)⟩

theorem linRound_exit_post (cb0 : circular_buffer α)
    (hLf : cb0.m_last ≤ cb0.m_first)
    (hseq : cb0.m_size = capacity cb0 - cb0.m_first + cb0.m_last)
    (b : List (Option α)) (src dest first moved constructed ii : Nat)
    (hmd : moved = dest)
    (hmid : linMidInv cb0 b src dest first constructed ii)
    (hns : ¬ src < capacity cb0) :
    linRoundPost cb0 src dest first (b, dest, first, moved, constructed) := by
  obtain ⟨m1, m2, m3, m4, m5, m6, m7, m8, m9, m10, m11, mA, mB, mC, mD⟩ := hmid
  have hsrcN : src = capacity cb0 := by omega
  unfold linRoundPost
  dsimp only
  refine ⟨m1, le_refl _, hmd, ?_, ?_⟩
  · intro hcont
    refine ⟨⟨m1, m2, m3, m6, m9, m10, m11, mA, mB, ?_⟩,
      Or.inr (Or.inr (by omega))⟩
    intro q hq1 hq2
    have hc := mC q hq1 (by omega)
    rw [show capacity cb0 + dest + q - src - first =
      dest + q - first by omega] at hc
    exact hc
  · intro hstop
    have hdf : dest = first := by omega
    refine ⟨?_, ?_⟩
    · intro q hq
      by_cases hqd : q < dest
      · exact mA q hqd
      · have hc := mC q (by omega) (by omega)
        rw [show capacity cb0 + dest + q - src - first = q by omega] at hc
        rcases hc with h | h
        · exact h
        · exact absurd h (by omega)
    · rcases m11 with h | h
      · exact Or.inl h
      · exact Or.inr (by omega)

theorem linRound_spec (cb0 : circular_buffer α)
    (hL1 : 1 ≤ cb0.m_last) (hLf : cb0.m_last ≤ cb0.m_first)
    (hseq : cb0.m_size = capacity cb0 - cb0.m_first + cb0.m_last)
    (hfN : cb0.m_first < capacity cb0) :
    ∀ k src b dest first moved constructed ii,
    capacity cb0 - src ≤ k →
    moved = dest →
    linMidInv cb0 b src dest first constructed ii →
    linRoundPost cb0 src dest first
      (linRound cb0 b src dest first moved constructed ii) := by
  intro k
  induction k with
  | zero =>
    intro src b dest first moved constructed ii hk hmd hmid
    have hns : ¬ src < capacity cb0 := by omega
    rw [linRound, dif_neg hns]
    exact linRound_exit_post cb0 hLf hseq b src dest first moved constructed ii
      hmd hmid hns
  | succ k ih =>
    intro src b dest first moved constructed ii hk hmd hmid
    rw [linRound]
    by_cases hlt : src < capacity cb0
    case neg =>
      rw [dif_neg hlt]
      exact linRound_exit_post cb0 hLf hseq b src dest first moved constructed
        ii hmd hmid hlt
    case pos =>
      rw [dif_pos hlt]
      obtain ⟨m1, m2, m3, m4, m5, m6, m7, m8, m9, m10, m11, mA, mB, mC, mD⟩ :=
        hmid
      by_cases hms : moved = cb0.m_size
      · rw [if_pos hms]
        unfold linRoundPost
        dsimp only
        refine ⟨m1, le_refl _, hmd, ?_, ?_⟩
        · intro hcont
          exact absurd hcont (lt_irrefl _)
        · intro _
          refine ⟨fun q hq => mA q (by omega), ?_⟩
          rcases m11 with h | h
          · exact Or.inl h
          · exact Or.inr (by omega)
      · rw [if_neg hms]
        have hdns : dest < cb0.m_size := by omega
        by_cases hdf : dest = first
        · rw [if_pos hdf]
          unfold linRoundPost
          dsimp only
          refine ⟨m1, le_refl _, hmd, ?_, ?_⟩
          · intro hcont
            refine ⟨⟨m1, m2, by omega, by omega, by omega, ?_, m11, mA,
              ?_, ?_⟩, Or.inr (Or.inl hdf)⟩
            · rcases m10 with h | h
              · exact Or.inr (by omega)
              · exact Or.inr h
            · intro q hq1 hq2
              have hc := mC q (by omega) (by omega)
              rw [show capacity cb0 + dest + q - src - first =
                capacity cb0 + q - (first + ii) by omega] at hc
              exact hc
            · intro q hq1 hq2
              have hd := mD q (by omega) hq2
              rw [show dest + q - src = dest + q - (first + ii) by omega] at hd
              exact hd
          · intro hstop
            exact absurd (show dest < first + ii by omega) hstop
        · rw [if_neg hdf]
          have hdN : dest < capacity cb0 := by omega
          have hv := mD src (le_refl _) hlt
          rw [show dest + src - src = dest by omega] at hv
          have hv2 : b.getD src none =
              nthPhys cb0 ((cb0.m_first + dest) % capacity cb0) := by
            rcases hv with h | h
            · exact h
            · exact absurd h (by omega)
          by_cases hraw : is_uninitialized cb0 dest
          · rw [if_pos hraw]
            obtain ⟨hLd, hor⟩ := hraw
            have hdltf : dest < cb0.m_first := by
              rcases hor with h | h
              · omega
              · exact h
            have hfirstf : first = cb0.m_first := by
              rcases m10 with h | h
              · exact h
              · omega
            apply linRoundPost_lift
            apply ih
            · omega
            · omega
            · refine ⟨by rw [List.length_set]; exact m1, by omega, by omega,
                by omega, by omega, m6, by omega, by omega, m9, ?_, ?_,
                ?_, ?_, ?_, ?_⟩
              · exact Or.inl hfirstf
              · rcases m11 with h | h
                · exact Or.inr (by omega)
                · exact Or.inr (by omega)
              · intro q hq
                by_cases hqd : q = dest
                · subst hqd
                  rw [getD_set_eq _ _ _ (by rw [m1]; omega)]
                  exact hv2
                · rw [getD_set_ne _ _ _ _ (fun hc => hqd hc.symm)]
                  exact mA q (by omega)
              · intro q hq1 hq2
                rw [getD_set_ne _ _ _ _ (by omega)]
                exact mB q (by omega) hq2
              · intro q hq1 hq2
                by_cases hqs : q = src
                · rw [hqs, getD_set_ne _ _ _ _ (by omega)]
                  exact Or.inr (by omega)
                · rw [getD_set_ne _ _ _ _ (by omega)]
                  have hc := mC q hq1 (by omega)
                  rw [show capacity cb0 + dest + q - src - first =
                    capacity cb0 + (dest + 1) + q - (src + 1) - first by
                      omega] at hc
                  exact hc
              · intro q hq1 hq2
                rw [getD_set_ne _ _ _ _ (by omega)]
                have hd := mD q (by omega) hq2
                rw [show dest + q - src = dest + 1 + q - (src + 1) by
                  omega] at hd
                exact hd
          · rw [if_neg hraw]
            have hw := mB dest (le_refl _) (by omega)
            apply linRoundPost_lift
            apply ih
            · omega
            · omega
            · refine ⟨by rw [List.length_set, List.length_set]; exact m1,
                by omega, by omega, by omega, by omega, m6, by omega,
                by omega, m9, ?_, ?_, ?_, ?_, ?_, ?_⟩
              · rcases m10 with h | h
                · exact Or.inl h
                · exact Or.inr (by omega)
              · rcases m11 with h | h
                · exact Or.inl h
                · exact Or.inr (by omega)
              · intro q hq
                by_cases hqd : q = dest
                · subst hqd
                  rw [getD_set_ne _ _ _ _ (by omega),
                    getD_set_eq _ _ _ (by rw [m1]; omega)]
                  exact hv2
                · rw [getD_set_ne _ _ _ _ (by omega),
                    getD_set_ne _ _ _ _ (fun hc => hqd hc.symm)]
                  exact mA q (by omega)
              · intro q hq1 hq2
                rw [getD_set_ne _ _ _ _ (by omega),
                  getD_set_ne _ _ _ _ (by omega)]
                exact mB q (by omega) hq2
              · intro q hq1 hq2
                by_cases hqs : q = src
                · rw [hqs, getD_set_eq _ _ _ (by rw [List.length_set, m1]; omega)]
                  rcases hw with h | h
                  · left
                    rw [show capacity cb0 + (dest + 1) + src - (src + 1) -
                      first = capacity cb0 + dest - first by omega]
                    exact h
                  · right
                    omega
                · rw [getD_set_ne _ _ _ _ (by omega),
                    getD_set_ne _ _ _ _ (by omega)]
                  have hc := mC q hq1 (by omega)
                  rw [show capacity cb0 + dest + q - src - first =
                    capacity cb0 + (dest + 1) + q - (src + 1) - first by
                      omega] at hc
                  exact hc
              · intro q hq1 hq2
                rw [getD_set_ne _ _ _ _ (by omega),
                  getD_set_ne _ _ _ _ (by omega)]
                have hd := mD q (by omega) hq2
                rw [show dest + q - src = dest + 1 + q - (src + 1) by
                  omega] at hd
                exact hd

/-! ## C4: linearize -/

theorem linOuter_stop (cb0 : circular_buffer α) (fuel : Nat)
    (b : List (Option α)) (dest first moved constructed : Nat)
    (h : ¬ dest < first) :
    linOuter cb0 fuel b dest first moved constructed = (b, constructed) := by
  cases fuel with
  | zero => rfl
  | succ fuel =>
    have he : linOuter cb0 (fuel + 1) b dest first moved constructed =
        if dest < first then
          (let r := linRound cb0 b first dest first moved constructed 0
           linOuter cb0 fuel r.1 r.2.1 r.2.2.1 r.2.2.2.1 r.2.2.2.2)
        else (b, constructed) := rfl
    rw [he, if_neg h]

theorem linOuter_spec (cb0 : circular_buffer α)
    (hL1 : 1 ≤ cb0.m_last) (hLf : cb0.m_last ≤ cb0.m_first)
    (hseq : cb0.m_size = capacity cb0 - cb0.m_first + cb0.m_last)
    (hfN : cb0.m_first < capacity cb0) :
    ∀ fuel b dest first moved constructed,
    moved = dest →
    linEntryInv cb0 b dest first constructed →
    cb0.m_size - dest < fuel →
    (∀ q, q < cb0.m_size →
      (linOuter cb0 fuel b dest first moved constructed).1.getD q none =
        nthPhys cb0 ((cb0.m_first + q) % capacity cb0)) ∧
    (linOuter cb0 fuel b dest first moved constructed).1.length =
      capacity cb0 ∧
    ((linOuter cb0 fuel b dest first moved constructed).2 = 0 ∨
      (linOuter cb0 fuel b dest first moved constructed).2 + cb0.m_last ≤
        cb0.m_first) := by
  intro fuel
  induction fuel with
  | zero =>
    intro b dest first moved constructed hmd hinv hfu
    exact absurd hfu (by omega)
  | succ fuel ih =>
    intro b dest first moved constructed hmd hinv hfu
    obtain ⟨e1, e2, e3, e4, e5, e6, e7, e9, e10, e12⟩ := hinv
    have he : linOuter cb0 (fuel + 1) b dest first moved constructed =
        if dest < first then
          (let r := linRound cb0 b first dest first moved constructed 0
           linOuter cb0 fuel r.1 r.2.1 r.2.2.1 r.2.2.2.1 r.2.2.2.2)
        else (b, constructed) := rfl
    rw [he]
    by_cases hdf : dest < first
    · rw [if_pos hdf]
      have hmid : linMidInv cb0 b first dest first constructed 0 := by
        refine ⟨e1, e2, e3, le_refl _, by omega, e4, hdf, by omega, e5, e6,
          e7, e9, e10, ?_, e12⟩
        intro q hq1 hq2
        exact absurd hq2 (by omega)
      obtain ⟨p1, p2, p3, p4, p5⟩ := linRound_spec cb0 hL1 hLf hseq hfN
        (capacity cb0) first b dest first moved constructed 0 (by omega)
        hmd hmid
      dsimp only
      by_cases hcont :
          (linRound cb0 b first dest first moved constructed 0).2.1 <
          (linRound cb0 b first dest first moved constructed 0).2.2.1
      · obtain ⟨hentry, hprog⟩ := p4 hcont
        have hdlt : dest <
            (linRound cb0 b first dest first moved constructed 0).2.1 := by
          rcases hprog with h | h | h
          · exact h
          · omega
          · omega
        have hdle :
            (linRound cb0 b first dest first moved constructed 0).2.1 ≤
            cb0.m_size := hentry.2.1
        exact ih _ _ _ _ _ p3 hentry (by omega)
      · rw [linOuter_stop cb0 fuel _ _ _ _ _ hcont]
        obtain ⟨hpay, hcb⟩ := p5 hcont
        exact ⟨hpay, p1, hcb⟩
    · rw [if_neg hdf]
      refine ⟨?_, e1, ?_⟩
      · intro q hq
        by_cases hqd : q < dest
        · exact e9 q hqd
        · have hd := e12 q (by omega) (by omega)
          rw [show dest + q - first = q by omega] at hd
          rcases hd with h | h
          · exact h
          · exact absurd h (by omega)
      · rcases e7 with h | h
        · exact Or.inl h
        · exact Or.inr (by omega)

theorem foldl_set_length (c0 base : Nat) :
    ∀ l : List (Option α),
    ((List.range c0).foldl (fun bb j => bb.set (base + j) none) l).length =
      l.length := by
  induction c0 with
  | zero =>
    intro l
    rfl
  | succ c0 ih =>
    intro l
    rw [List.range_succ, List.foldl_append, List.foldl_cons, List.foldl_nil,
      List.length_set]
    exact ih l

theorem foldl_set_getD (c0 base i : Nat) (hi : i < base) :
    ∀ l : List (Option α),
    ((List.range c0).foldl (fun bb j => bb.set (base + j) none) l).getD i
      none = l.getD i none := by
  induction c0 with
  | zero =>
    intro l
    rfl
  | succ c0 ih =>
    intro l
    rw [List.range_succ, List.foldl_append, List.foldl_cons, List.foldl_nil,
      getD_set_ne _ _ _ _ (by omega)]
    exact ih l

theorem linearize_wrapped (cb : circular_buffer α) (hwf : wf cb)
    (hne : ¬ empty cb) (hnl : ¬ (cb.m_first < cb.m_last ∨ cb.m_last = 0)) :
    (linearize cb).2 = some 0 ∧
    (linearize cb).1.m_first = 0 ∧
    (linearize cb).1.m_last = add (capacity cb) 0 cb.m_size ∧
    (linearize cb).1.m_size = cb.m_size ∧
    capacity (linearize cb).1 = capacity cb ∧
    (∀ i, i < cb.m_size → nthPhys (linearize cb).1 i = getAt cb i) := by
  obtain ⟨hsz, hzero, hfl, hle, hlive⟩ := hwf
  have hnl' := hnl
  push_neg at hnl'
  obtain ⟨hnl1, hnl2⟩ := hnl'
  have hs1 : 1 ≤ cb.m_size := by
    unfold empty at hne
    omega
  have hL1 : 1 ≤ cb.m_last := by omega
  have hLf : cb.m_last ≤ cb.m_first := by omega
  have hcap : 0 < capacity cb := by
    rcases Nat.eq_zero_or_pos (capacity cb) with h | h
    · obtain ⟨hf0, hl0⟩ := hzero h
      omega
    · exact h
  have hfN := hfl hcap
  have hlast := hle hcap
  have hseq : cb.m_size = capacity cb - cb.m_first + cb.m_last := by
    rcases Nat.lt_or_ge (cb.m_first + cb.m_size) (capacity cb) with h | h
    · rw [Nat.mod_eq_of_lt h] at hlast
      omega
    · rw [Nat.mod_eq_sub_mod h, Nat.mod_eq_of_lt (by omega)] at hlast
      omega
  have hinv : linEntryInv cb cb.buff 0 cb.m_first 0 := by
    refine ⟨rfl, by omega, by omega, hfN, le_refl _, Or.inl rfl, Or.inl rfl,
      ?_, ?_, ?_⟩
    · intro q hq
      exact absurd hq (by omega)
    · intro q hq1 hq2
      left
      have hidx : (cb.m_first + (capacity cb + q - cb.m_first)) %
          capacity cb = q := by
        rw [show cb.m_first + (capacity cb + q - cb.m_first) =
          capacity cb + q by omega, Nat.add_mod_left,
          Nat.mod_eq_of_lt (by omega)]
      rw [hidx]
      rfl
    · intro q hq1 hq2
      left
      have hidx : (cb.m_first + (0 + q - cb.m_first)) % capacity cb = q := by
        rw [show cb.m_first + (0 + q - cb.m_first) = q by omega,
          Nat.mod_eq_of_lt hq2]
      rw [hidx]
      rfl
  obtain ⟨hcontents, hlen, hcb⟩ := linOuter_spec cb hL1 hLf hseq hfN
    (cb.m_size + 2) cb.buff 0 cb.m_first 0 0 rfl hinv (by omega)
  have hlin : linearize cb =
      ({ cb with
          buff := (List.range (linOuter cb (cb.m_size + 2) cb.buff 0
              cb.m_first 0 0).2).foldl
            (fun bb j => bb.set (capacity cb -
              (linOuter cb (cb.m_size + 2) cb.buff 0 cb.m_first 0 0).2 + j)
              none)
            (linOuter cb (cb.m_size + 2) cb.buff 0 cb.m_first 0 0).1
          m_first := 0
          m_last := add (capacity cb) 0 cb.m_size },
        some 0) := by
    unfold linearize
    rw [if_neg hne, if_neg hnl]
  have hbase : cb.m_size ≤ capacity cb -
      (linOuter cb (cb.m_size + 2) cb.buff 0 cb.m_first 0 0).2 := by
    rcases hcb with h | h
    · omega
    · omega
  refine ⟨by rw [hlin], by rw [hlin], by rw [hlin], by rw [hlin], ?_, ?_⟩
  · rw [hlin]
    show ((List.range (linOuter cb (cb.m_size + 2) cb.buff 0
        cb.m_first 0 0).2).foldl
      (fun bb j => bb.set (capacity cb -
        (linOuter cb (cb.m_size + 2) cb.buff 0 cb.m_first 0 0).2 + j) none)
      (linOuter cb (cb.m_size + 2) cb.buff 0 cb.m_first 0 0).1).length =
      capacity cb
    rw [foldl_set_length]
    exact hlen
  · intro i hi
    rw [hlin]
    show ((List.range (linOuter cb (cb.m_size + 2) cb.buff 0
        cb.m_first 0 0).2).foldl
      (fun bb j => bb.set (capacity cb -
        (linOuter cb (cb.m_size + 2) cb.buff 0 cb.m_first 0 0).2 + j) none)
      (linOuter cb (cb.m_size + 2) cb.buff 0 cb.m_first 0 0).1).getD i none =
      getAt cb i
    rw [foldl_set_getD _ _ _ (by omega), hcontents i hi,
      getAt_eq_mod cb i hfN (by omega)]

/-- C4 counterexample: the well-formed, non-empty buffer of capacity 3
holding `[10, 20]` with `m_first = 1`, `m_last = 0` is already linear
(`m_last == m_buff`), so `linearize()` returns `m_first` — physical slot
1, not the start of the storage block — and element 0 stays in physical
slot 1 while slot 0 remains raw, contradicting both the returned-pointer
part and the `element i occupies physical slot i` part of the claim. -/
theorem C4_counterexample :
    linearize (⟨[none, some 10, some 20], 1, 0, 2⟩ : circular_buffer Nat) =
      (⟨[none, some 10, some 20], 1, 0, 2⟩, some 1) ∧
    wf (⟨[none, some 10, some 20], 1, 0, 2⟩ : circular_buffer Nat) ∧
    ¬ empty (⟨[none, some 10, some 20], 1, 0, 2⟩ : circular_buffer Nat) ∧
    (some 1 : Option Nat) ≠ some 0 ∧
    nthPhys (⟨[none, some 10, some 20], 1, 0, 2⟩ : circular_buffer Nat) 0 ≠
      getAt (⟨[none, some 10, some 20], 1, 0, 2⟩ : circular_buffer Nat) 0 := by
  refine ⟨?_, by decide, by decide, by decide, by decide⟩
  show (if empty (⟨[none, some 10, some 20], 1, 0, 2⟩ : circular_buffer Nat)
      then ((⟨[none, some 10, some 20], 1, 0, 2⟩ : circular_buffer Nat), none)
      else if (1 : Nat) < 0 ∨ (0 : Nat) = 0
      then ((⟨[none, some 10, some 20], 1, 0, 2⟩ : circular_buffer Nat), some 1)
      else _) = _
  rw [if_neg (by decide), if_pos (by decide)]

theorem add_no_wrap (cap p n : Nat) (h : n < cap - p) : add cap p n = p + n := by
  unfold add
  rw [if_pos h]

theorem linearize_of_linear (cb : circular_buffer Nat) (h1 : ¬ empty cb)
    (h2 : cb.m_first < cb.m_last ∨ cb.m_last = 0) :
    linearize cb = (cb, some cb.m_first) := by
  unfold linearize
  rw [if_neg h1, if_pos h2]

/-- C4 (amended): `linearize()` returns the null pointer and changes
nothing on an empty buffer; on a non-empty buffer whose contents are
already contiguous (`m_first < m_last` or `m_last == m_buff`) it also
changes nothing and returns `m_first` — a pointer into the block, not
necessarily the start of the storage block — and element `i` then
occupies physical slot `m_first + i`, not slot `i`; only on a wrapped
buffer does it rotate the contents in place so that element `i` occupies
physical slot `i`, resetting the cursors and returning the start of the
block.  In every case reading linearly from the returned pointer yields
the sequence `operator[]` yielded before the call, and a second call
returns the same pointer and leaves the buffer unchanged. -/
theorem C4_linearize (cb : circular_buffer Nat) (hwf : wf cb) :
    (empty cb → linearize cb = (cb, none)) ∧
    (¬ empty cb → (cb.m_first < cb.m_last ∨ cb.m_last = 0) →
      linearize cb = (cb, some cb.m_first) ∧
      (∀ i, i < cb.m_size → nthPhys cb (cb.m_first + i) = getAt cb i)) ∧
    (¬ empty cb → ¬ (cb.m_first < cb.m_last ∨ cb.m_last = 0) →
      (linearize cb).2 = some 0 ∧
      (linearize cb).1.m_first = 0 ∧
      (linearize cb).1.m_last = add (capacity cb) 0 cb.m_size ∧
      (linearize cb).1.m_size = cb.m_size ∧
      capacity (linearize cb).1 = capacity cb ∧
      (∀ i, i < cb.m_size → nthPhys (linearize cb).1 i = getAt cb i)) ∧
    linearize (linearize cb).1 = linearize cb := by
  have hempcase : empty cb → linearize cb = (cb, none) := by
    intro h
    unfold linearize
    rw [if_pos h]
  have hlincase : ¬ empty cb → (cb.m_first < cb.m_last ∨ cb.m_last = 0) →
      linearize cb = (cb, some cb.m_first) := by
    intro h1 h2
    unfold linearize
    rw [if_neg h1, if_pos h2]
  obtain ⟨hsz, hzero, hfl, hle, hlive⟩ := hwf
  refine ⟨hempcase, ?_, ?_, ?_⟩
  · intro hne hl
    refine ⟨hlincase hne hl, ?_⟩
    intro i hi
    have hs1 : 1 ≤ cb.m_size := by
      unfold empty at hne
      omega
    have hcap : 0 < capacity cb := by omega
    have hlast := hle hcap
    have hLcap : cb.m_last < capacity cb := by
      rw [hlast]
      exact Nat.mod_lt _ hcap
    have hfs : cb.m_first + cb.m_size ≤ capacity cb := by
      rcases Nat.lt_or_ge (cb.m_first + cb.m_size) (capacity cb) with h2 | h2
      · omega
      · rw [Nat.mod_eq_sub_mod h2, Nat.mod_eq_of_lt (by omega)] at hlast
        rcases hl with h | h
        · omega
        · omega
    show nthPhys cb (cb.m_first + i) =
      nthPhys cb (add (capacity cb) cb.m_first i)
    rw [add_no_wrap (capacity cb) cb.m_first i (by omega)]
  · intro hne hnl
    exact linearize_wrapped cb ⟨hsz, hzero, hfl, hle, hlive⟩ hne hnl
  · by_cases hemp : empty cb
    · rw [hempcase hemp]
      exact hempcase hemp
    · by_cases hlin2 : cb.m_first < cb.m_last ∨ cb.m_last = 0
      · rw [hlincase hemp hlin2]
        exact hlincase hemp hlin2
      · obtain ⟨w1, w2, w3, w4, w5, w6⟩ :=
          linearize_wrapped cb ⟨hsz, hzero, hfl, hle, hlive⟩ hemp hlin2
        have hs1 : 1 ≤ cb.m_size := by
          unfold empty at hemp
          omega
        have hRne : ¬ empty (linearize cb).1 := by
          unfold empty
          omega
        have hRlin : (linearize cb).1.m_first < (linearize cb).1.m_last ∨
            (linearize cb).1.m_last = 0 := by
          rw [w2, w3]
          unfold add
          split_ifs with h
          · exact Or.inl (by omega)
          · exact Or.inr (by omega)
        have h2 : linearize (linearize cb).1 =
            ((linearize cb).1, some (linearize cb).1.m_first) :=
          linearize_of_linear (linearize cb).1 hRne hRlin
        rw [h2, w2, ← w1]

theorem C4_linearize_witness :
    (linearize (⟨[some 30, none, some 10, some 20], 2, 1, 3⟩ :
      circular_buffer Nat)).2 = some 0 ∧
    (linearize (⟨[some 30, none, some 10, some 20], 2, 1, 3⟩ :
      circular_buffer Nat)).1.m_first = 0 := by
  obtain ⟨-, -, h3, -⟩ := C4_linearize
    ⟨[some 30, none, some 10, some 20], 2, 1, 3⟩ (by decide)
  obtain ⟨a, b, -, -, -, -⟩ := h3 (by decide) (by decide)
  exact ⟨a, b⟩

end CircBuf
